import Mathlib

/-!
# Qt-SESAM: the merge engine and the persistence of `mainwindow.cpp`

A shallow embedding of the synchronisation core of `src/Qt-SESAM/mainwindow.cpp`:
both overloads of `selectAlternativeDomainNameFor`, `convertToLegacyPassword`,
`mergeLocalAndRemoteData`, `syncWith` and `syncWithFile` with `writeToRemote`,
the functions that save the store and the sync parameters to the settings and
restore the store from them, `generateSaltKeyIV`, `invalidateMasterPassword`,
the combo box of domain names with `findDomainInComboBox` and
`makeDomainComboBox`, the import loop and `saveDomainSettings`,
`onMasterPasswordEntered` with `restoreSyncSettings`, `updatePassword`,
`onImportKGK`, `changeMasterPassword` and the clear-text export
`DomainSettingsToTextConverter`, with the properties that the specification
states.

* Strings are lists of characters, byte arrays are lists of bytes, timestamps
  are the millisecond counts that `QDateTime` compares, the loop counter `idx`
  is a natural number.
* `QString::arg` is modelled with its place markers, as Qt documents it.
* The classes `DomainSettings` and `DomainSettingsList` are not part of
  `mainwindow.cpp`; they follow the data model of the specification, with
  lookup, upsert and removal by case-insensitive domain name.
* The password generator, the functions of `Crypter`, the JSON writer and the
  JSON reader are parameters; the worked instances use sample ones that can be
  evaluated. A call of `Crypter::decode` that throws is taken to leave its
  output argument `KGK` as it was.
* What the window sends out (writes to the sync file, posts to the server, calls
  of the encoder) is recorded in the state of the window.

The file has the definitions first, then the lemmas, then one section with the
theorems for the numbered properties `C1`, `C2`, ...
-/

namespace QtSESAM

/-! ## Strings -/

/-- A `QString`, as its sequence of characters. -/
abbrev QString := List Char

/-- A `QByteArray` / `SecureByteArray`, as its sequence of bytes. -/
abbrev QByteArray := List Nat

/-- Case folding used by a case-insensitive comparison of two strings. -/
def foldCase (s : QString) : QString := s.map Char.toLower

/-- Case-insensitive equality of two domain names (`Qt::CaseInsensitive`). -/
def sameName (a b : QString) : Bool := foldCase a == foldCase b

/-- Least significant digit first: the decimal digits of `n`, at most `fuel` of them. -/
def digitsRev : Nat → Nat → List Char
  | 0, _ => []
  | fuel + 1, n =>
    if n < 10 then [Nat.digitChar n] else Nat.digitChar (n % 10) :: digitsRev fuel (n / 10)

/-- The decimal text of a non-negative `int`, as `QString::arg(int)` prints it. -/
def number (n : Nat) : QString := (digitsRev (n + 1) n).reverse

/-! ## `QString::arg`

`QString::arg` scans the string for place markers `%1` .. `%99` (a percent sign,
an optional `L`, one or two decimal digits) and replaces every occurrence of the
marker with the lowest number by the argument; all other text, markers with a
higher number included, is copied. A string without a marker is returned as is.
So `QString("%1 %2").arg("%1f").arg("Hello")` is `Hellof %2`, as the Qt
documentation of `arg` notes. Digits are the ASCII digits, and a number is
printed in decimal, also for a marker with `L`.
-/

/-- The numeric value of a decimal digit, `none` for any other character. -/
def digitValue (c : Char) : Option Nat :=
  if 48 ≤ c.toNat ∧ c.toNat ≤ 57 then some (c.toNat - 48) else none

/-- One piece of a scanned string: a copied character or a place marker. -/
inductive ArgPiece where
  | text (c : Char)
  | escape (number : Nat) (raw : List Char)
  deriving DecidableEq, Repr

/-- The marker that starts right after a percent sign: its number and how many
characters it spans after the percent sign. -/
def parseEscape (cs : List Char) : Option (Nat × Nat) :=
  let skipL : Nat × List Char :=
    match cs with
    | c :: r => if c = 'L' then (1, r) else (0, cs)
    | [] => (0, cs)
  match skipL.2 with
  | [] => none
  | d1 :: r =>
    match digitValue d1 with
    | none => none
    | some v1 =>
      match r with
      | [] => some (v1, skipL.1 + 1)
      | d2 :: _ =>
        match digitValue d2 with
        | none => some (v1, skipL.1 + 1)
        | some v2 => some (10 * v1 + v2, skipL.1 + 2)

/-- The scanner of `QString::arg`; the first argument counts the characters of
a marker that are still to be passed over. -/
def argPieces : Nat → List Char → List ArgPiece
  | _, [] => []
  | skip + 1, _ :: cs => argPieces skip cs
  | 0, c :: cs =>
    if c = '%' then
      match parseEscape cs with
      | some (n, len) => ArgPiece.escape n (c :: cs.take len) :: argPieces len cs
      | none => ArgPiece.text c :: argPieces 0 cs
    else ArgPiece.text c :: argPieces 0 cs

/-- The lowest marker number among the pieces, if there is a marker. -/
def minEscape : List ArgPiece → Option Nat
  | [] => none
  | ArgPiece.text _ :: ps => minEscape ps
  | ArgPiece.escape n _ :: ps =>
    match minEscape ps with
    | none => some n
    | some m => some (min n m)

/-- The text that replaces one piece when marker `m` is filled with `a`. -/
def fillPiece (m : Nat) (a : QString) : ArgPiece → QString
  | ArgPiece.text c => [c]
  | ArgPiece.escape n raw => if n = m then a else raw

/-- All pieces with marker `m` filled with `a`. -/
def fillPieces (m : Nat) (a : QString) : List ArgPiece → QString
  | [] => []
  | p :: ps => fillPiece m a p ++ fillPieces m a ps

/-- The call `s.arg(a)`. -/
def arg (s a : QString) : QString :=
  match minEscape (argPieces 0 s) with
  | none => s
  | some m => fillPieces m a (argPieces 0 s)

/-- The candidate built in the loop body:
`QString("%1 (%2)").arg(domainName).arg(idx)`. -/
def alternativeName (domainName : QString) (idx : Nat) : QString :=
  arg (arg "%1 (%2)".toList domainName) (number idx)

/-- The `do ... while` loop of `selectAlternativeDomainNameFor(domainName,
domainNameList)`, run for at most `fuel` rounds starting after `idx`;
`none` when the rounds are used up. -/
def selectAlternativeLoop (domainName : QString) (domainNameList : List QString) :
    Nat → Nat → Option QString
  | 0, _ => none
  | fuel + 1, idx =>
    let newDomainName := alternativeName domainName (idx + 1)
    if domainNameList.contains newDomainName then
      selectAlternativeLoop domainName domainNameList fuel (idx + 1)
    else some newDomainName

/-- The function `MainWindow::selectAlternativeDomainNameFor(domainName,
domainNameList)`: the loop, given one round more than the list has entries. -/
def selectAlternativeDomainNameFor (domainName : QString) (domainNameList : List QString) :
    QString :=
  (selectAlternativeLoop domainName domainNameList (domainNameList.length + 1) 0).getD []

/-! ## Domain records and the domain store -/

/-- Modelled from the spec: the class `DomainSettings` is not part of
`mainwindow.cpp`. One credential-parameter record with the fields of the
spec's data model: the timestamps are the millisecond counts that the
comparison operators of `QDateTime` compare. -/
structure DomainSettings where
  domainName : QString
  url : QString
  userName : QString
  notes : QString
  salt_base64 : QString
  iterations : Nat
  passwordTemplate : QString
  extraCharacters : QString
  usedCharacters : QString
  legacyPassword : QString
  createdDate : Int
  modifiedDate : Int
  deleted : Bool
  files : List (QString × QByteArray)
  deriving DecidableEq, Repr

/-- Modelled from the spec: the default-constructed record `DomainSettings()`,
the sentinel that a lookup returns on a miss. -/
def DomainSettings.empty : DomainSettings :=
  { domainName := [], url := [], userName := [], notes := [], salt_base64 := [],
    iterations := 0, passwordTemplate := [], extraCharacters := [], usedCharacters := [],
    legacyPassword := [], createdDate := 0, modifiedDate := 0, deleted := false, files := [] }

/-- Modelled from the spec: `DomainSettings::isEmpty` is not part of
`mainwindow.cpp`. A persisted record has a non-empty `domainName`; the
sentinel of a lookup miss has none. -/
def DomainSettings.isEmpty (ds : DomainSettings) : Bool := ds.domainName.isEmpty

/-- Modelled from the spec: the class `DomainSettingsList` is not part of
`mainwindow.cpp`. The records in their order, and the dirty flag of the store. -/
structure DomainSettingsList where
  items : List DomainSettings
  dirty : Bool
  deriving DecidableEq, Repr

/-- Replace the first record whose name matches the name of `r`, append `r`
when there is none. -/
def upsert (r : DomainSettings) : List DomainSettings → List DomainSettings
  | [] => [r]
  | d :: ds => if sameName d.domainName r.domainName then r :: ds else d :: upsert r ds

namespace DomainSettingsList

/-- Modelled from the spec: `DomainSettingsList::at(domainName)`, lookup by
case-insensitive name; a miss yields the empty record, never an error. -/
def atName (l : DomainSettingsList) (domainName : QString) : DomainSettings :=
  match l.items.find? (fun d => sameName d.domainName domainName) with
  | some d => d
  | none => DomainSettings.empty

/-- Modelled from the spec: `DomainSettingsList::updateWith`, the upsert by
name: it matches case-insensitively, replaces on a match, appends otherwise and
sets the dirty flag. The date rule that the spec attaches to the upsert is
applied by `saveDomainSettings` before it calls `updateWith`. -/
def updateWith (l : DomainSettingsList) (r : DomainSettings) : DomainSettingsList :=
  { items := upsert r l.items, dirty := true }

/-- Modelled from the spec: `DomainSettingsList::remove(domainName)`, which
removes what is stored under the name and sets the dirty flag. -/
def remove (l : DomainSettingsList) (domainName : QString) : DomainSettingsList :=
  { items := l.items.filter (fun d => !sameName d.domainName domainName), dirty := true }

/-- Modelled from the spec: `DomainSettingsList::keys()`, the domain names of
the records. -/
def keys (l : DomainSettingsList) : List QString := l.items.map (fun d => d.domainName)

/-- Modelled from the spec: `isEmpty()` of the list of records. -/
def isEmpty (l : DomainSettingsList) : Bool := l.items.isEmpty

/-- Modelled from the spec: `setDirty(dirty)`. -/
def setDirty (l : DomainSettingsList) (dirty : Bool) : DomainSettingsList :=
  { l with dirty := dirty }

end DomainSettingsList

/-- The call `QStringList::removeDuplicates()`: of equal strings the first one stays. -/
def removeDuplicates : List QString → List QString
  | [] => []
  | x :: xs => x :: (removeDuplicates xs).filter (fun y => y ≠ x)

/-- The call `QString::toUtf8()`. -/
def toUtf8 (s : QString) : QByteArray :=
  s.flatMap (fun c => (String.utf8EncodeChar c).map UInt8.toNat)

/-! ## The state of the main window that a sync cycle works on -/

/-- The two entries of the persisted settings (`d->settings`) that hold
ciphertexts: `sync/domains` and `sync/param`. The Base64 text that is stored is
represented by the bytes it stands for; an absent entry reads as empty. -/
structure QSettings where
  syncDomains : QByteArray
  syncParam : QByteArray
  deriving DecidableEq, Repr

/-- The members of `MainWindowPrivate` that the merge, `syncWith` and the
persistence functions read and write, with the new password held by the
change-master-password dialog. -/
structure MainWindowPrivate where
  domains : DomainSettingsList
  remoteDomains : DomainSettingsList
  masterPassword : QString
  KGK : QByteArray
  doConvertLocalToLegacy : Bool
  masterPasswordChangeStep : Nat
  newPassword : QString
  masterKey : QByteArray := []
  IV : QByteArray := []
  salt : QByteArray := []
  settings : QSettings := { syncDomains := [], syncParam := [] }
  deriving DecidableEq, Repr

/-- The password generator `Password(ds).generate(key)` followed by
`password()`: a function of the key and the domain settings. -/
abbrev Generator := QByteArray → DomainSettings → QString

/-- The function `MainWindow::convertToLegacyPassword`: a record without a legacy
password gets the password generated from the master password, unless the
master password is empty. -/
def convertToLegacyPassword (generate : Generator) (d : MainWindowPrivate)
    (ds : DomainSettings) : DomainSettings :=
  if ds.legacyPassword.isEmpty then
    if d.masterPassword.isEmpty then ds
    else { ds with legacyPassword := generate (toUtf8 d.masterPassword) ds }
  else ds

/-- The record that the branch "local is newer" of the merge hands to the remote store. -/
def pushedWhenLocalWins (generate : Generator) (d : MainWindowPrivate)
    (domainName : QString) (localDomainSetting : DomainSettings) : DomainSettings :=
  if d.doConvertLocalToLegacy = true ∧ localDomainSetting.deleted = false then
    { convertToLegacyPassword generate d localDomainSetting with
      domainName := selectAlternativeDomainNameFor domainName d.domains.keys }
  else localDomainSetting

/-- The record that the branch "remote has none" of the merge hands to the remote store. -/
def pushedWhenLocalOnly (generate : Generator) (d : MainWindowPrivate)
    (localDomainSetting : DomainSettings) : DomainSettings :=
  if d.doConvertLocalToLegacy = true then convertToLegacyPassword generate d localDomainSetting
  else localDomainSetting

/-- The body of the `foreach` loop of `MainWindow::mergeLocalAndRemoteData`. -/
def mergeStep (generate : Generator) (d : MainWindowPrivate) (domainName : QString) :
    MainWindowPrivate :=
  let remoteDomainSetting := d.remoteDomains.atName domainName
  let localDomainSetting := d.domains.atName domainName
  if localDomainSetting.isEmpty = false ∧ remoteDomainSetting.isEmpty = false then
    if remoteDomainSetting.modifiedDate > localDomainSetting.modifiedDate then
      { d with domains := d.domains.updateWith remoteDomainSetting }
    else if remoteDomainSetting.modifiedDate < localDomainSetting.modifiedDate then
      { d with remoteDomains :=
          d.remoteDomains.updateWith (pushedWhenLocalWins generate d domainName localDomainSetting) }
    else d
  else if remoteDomainSetting.isEmpty = true then
    if localDomainSetting.deleted = false then
      { d with remoteDomains :=
          d.remoteDomains.updateWith (pushedWhenLocalOnly generate d localDomainSetting) }
    else { d with domains := d.domains.remove domainName }
  else { d with domains := d.domains.updateWith remoteDomainSetting }

/-- The list `allDomainNames` that `mergeLocalAndRemoteData` iterates over. -/
def allDomainNames (d : MainWindowPrivate) : List QString :=
  removeDuplicates (d.remoteDomains.keys ++ d.domains.keys)

/-- The function `MainWindow::mergeLocalAndRemoteData`. -/
def mergeLocalAndRemoteData (generate : Generator) (d : MainWindowPrivate) :
    MainWindowPrivate :=
  (allDomainNames d).foldl (mergeStep generate) d

/-! ## The decoding block of `syncWith` -/

/-- The call `Crypter::decode(password, cipher, CompressionEnabled, KGK)`: from the
password bytes and the cipher text, the plain bytes and the recovered KGK;
`none` when it throws a `CryptoPP::Exception`. -/
abbrev Decoder := QByteArray → QByteArray → Option (QByteArray × QByteArray)

/-- The calls `QJsonDocument::fromJson` and `DomainSettingsList::fromQJsonDocument`
in a row: the records of a JSON text, `none` on a parse error. -/
abbrev JsonReader := QByteArray → Option (List DomainSettings)

/-- How the decoding block of `syncWith` ends: with a `return` after the
wrong-password warning, or with the decoded bytes in `baDomains`. -/
inductive Decoding where
  | aborted (d : MainWindowPrivate)
  | decoded (d : MainWindowPrivate) (baDomains : QByteArray)
  deriving DecidableEq, Repr

/-- The first part of `MainWindow::syncWith`, up to the end of the block
`if (!remoteDomainsEncoded.isEmpty())` without its JSON parsing: the flag is
reset, the payload is decoded with the master password and, while the master
password is being changed, with the new password as a fallback. -/
def syncWithDecode (decode : Decoder) (d0 : MainWindowPrivate)
    (remoteDomainsEncoded : QByteArray) : Decoding :=
  let d := { d0 with doConvertLocalToLegacy := false }
  if remoteDomainsEncoded.isEmpty then Decoding.decoded d []
  else
    match decode (toUtf8 d.masterPassword) remoteDomainsEncoded with
    | some (baDomains, KGK) =>
      if d.KGK ≠ KGK then
        Decoding.decoded
          { d with doConvertLocalToLegacy := !d.domains.isEmpty, KGK := KGK } baDomains
      else Decoding.decoded d baDomains
    | none =>
      if d.masterPasswordChangeStep = 0 then Decoding.aborted d
      else
        match decode (toUtf8 d.newPassword) remoteDomainsEncoded with
        | some (baDomains, KGK) =>
          if d.KGK ≠ KGK ∧ d.domains.isEmpty = false then
            Decoding.decoded { d with doConvertLocalToLegacy := true, KGK := KGK } baDomains
          else Decoding.decoded d baDomains
        | none => Decoding.aborted d

/-- The function `MainWindow::syncWith` up to and including its call of
`mergeLocalAndRemoteData`: after the decoding block the JSON text is read (a
parse error only raises a warning and leaves the remote document empty), the
local dirty flag is cleared, the remote store is built and the merge runs. -/
def syncWithUntilMerged (decode : Decoder) (fromJson : JsonReader) (generate : Generator)
    (d0 : MainWindowPrivate) (remoteDomainsEncoded : QByteArray) : MainWindowPrivate :=
  match syncWithDecode decode d0 remoteDomainsEncoded with
  | Decoding.aborted d => d
  | Decoding.decoded d baDomains =>
    let remoteRecords := if baDomains.isEmpty then [] else (fromJson baDomains).getD []
    mergeLocalAndRemoteData generate
      { d with domains := d.domains.setDirty false,
               remoteDomains := { items := remoteRecords, dirty := false } }

/-! ## The main window around the private state -/

/-- The settings of the options dialog that persistence and sync read.
`syncData` is the compact JSON text of the sync parameters that
`saveSyncDataToSettings` collects from the dialog. -/
structure OptionsDialog where
  syncToFileEnabled : Bool
  syncToServerEnabled : Bool
  writeBackups : Bool
  syncData : QByteArray
  syncOnStart : Bool := false
  deriving DecidableEq, Repr

/-- The sync file that the options dialog names: whether `open(ReadOnly)` and
`open(WriteOnly)` succeed, and what the file holds. -/
structure SyncFile where
  readable : Bool
  writable : Bool
  content : QByteArray
  deriving DecidableEq, Repr

/-- One call of `Crypter::encode`, with the arguments the encoder received. -/
structure EncodeCall where
  key : QByteArray
  IV : QByteArray
  salt : QByteArray
  KGK : QByteArray
  payload : QByteArray
  deriving DecidableEq, Repr

/-- The main window: the private state, the texts of `ui->domainsComboBox`,
the options dialog and the sync file, and a record of what the window has sent
out (each list has the latest entry first): the ciphertexts written to the sync
file, the ciphertexts posted to the sync server, the calls of the encoder, the
number of backup files written and the number of random values drawn. -/
structure MainWindow where
  d : MainWindowPrivate
  domainsComboBox : List QString
  optionsDialog : OptionsDialog
  syncFile : SyncFile
  fileWrites : List QByteArray
  serverPosts : List QByteArray
  encodeCalls : List EncodeCall
  backups : Nat
  entropy : Nat
  deriving DecidableEq, Repr

/-- The functions that `mainwindow.cpp` calls and does not define.
`encode key IV salt KGK payload` is `Crypter::encode` (`none`: it throws a
`CryptoPP::Exception`), `decode password cipher` is `Crypter::decode`
(`none`: it throws; otherwise the payload and the KGK found in the envelope),
`generateSalt n` and `generateKGK n` are what `Crypter::generateSalt` and
`Crypter::generateKGK` return at the `n`-th draw from the random source,
`toJson` and `fromJson` are the JSON writer of the domain store and the JSON
reader followed by `DomainSettingsList::fromQJsonDocument` (`none`: the bytes
are not valid JSON), `generate` is the password generator, and
`readSyncData json options` is the options dialog after the setters that
`restoreSyncSettings` calls with the values of the JSON text `json`. -/
structure Collaborators where
  encode : QByteArray → QByteArray → QByteArray → QByteArray → QByteArray → Option QByteArray
  decode : Decoder
  generateSalt : Nat → QByteArray
  generateKGK : Nat → QByteArray
  makeKeyAndIVFromPassword : QByteArray → QByteArray → QByteArray × QByteArray
  toJson : List DomainSettings → QByteArray
  fromJson : JsonReader
  generate : Generator
  readSyncData : QByteArray → OptionsDialog → OptionsDialog

/-- Modelled from the spec: `DomainSettingsList::fromQJsonDocument`, applied to
the records that the JSON document holds: a store that is not dirty. -/
def DomainSettingsList.fromQJsonDocument (records : List DomainSettings) :
    DomainSettingsList :=
  { items := records, dirty := false }

/-- Modelled from the spec: `DomainSettingsList::append`, the `QList` append:
the record goes to the end of the list, whatever the list holds. -/
def DomainSettingsList.append (l : DomainSettingsList) (r : DomainSettings) :
    DomainSettingsList :=
  { l with items := l.items ++ [r] }

/-- The function `MainWindow::validCredentials`. -/
def validCredentials (w : MainWindow) : Bool :=
  !w.d.masterKey.isEmpty && !w.d.IV.isEmpty

/-- The function `MainWindowPrivate::kgk`: an empty KGK is replaced by a newly
generated one; the result is the window afterwards and the KGK returned. -/
def kgk (env : Collaborators) (w : MainWindow) : MainWindow × QByteArray :=
  if w.d.KGK.isEmpty then
    ({ w with d := { w.d with KGK := env.generateKGK w.entropy }, entropy := w.entropy + 1 },
      env.generateKGK w.entropy)
  else (w, w.d.KGK)

/-- The call `Crypter::encode(d->masterKey, d->IV, d->salt, d->kgk(), payload,
CompressionEnabled)` that the persistence and sync functions share: the window
afterwards (with the call recorded) and the ciphertext, `none` when the encoder
throws. -/
def encodeWithCredentials (env : Collaborators) (w : MainWindow) (payload : QByteArray) :
    MainWindow × Option QByteArray :=
  let w1 := (kgk env w).1
  let KGK := (kgk env w).2
  ({ w1 with encodeCalls :=
      { key := w1.d.masterKey, IV := w1.d.IV, salt := w1.d.salt, KGK := KGK,
        payload := payload } :: w1.encodeCalls },
    env.encode w1.d.masterKey w1.d.IV w1.d.salt KGK payload)

/-- The function `MainWindow::generateSaltKeyIVThread`: without a master
password it returns at once; otherwise it draws a new salt and derives the
master key and the IV from the master password and that salt. -/
def generateSaltKeyIVThread (env : Collaborators) (w : MainWindow) : MainWindow :=
  if w.d.masterPassword.isEmpty then w
  else
    let salt := env.generateSalt w.entropy
    let keyAndIV := env.makeKeyAndIVFromPassword (toUtf8 w.d.masterPassword) salt
    { w with
      d := { w.d with salt := salt, masterKey := keyAndIV.1, IV := keyAndIV.2 },
      entropy := w.entropy + 1 }

/-- The call `generateSaltKeyIV().waitForFinished()`: the key generation is
started and awaited. -/
def generateSaltKeyIV (env : Collaborators) (w : MainWindow) : MainWindow :=
  generateSaltKeyIVThread env w

/-- The function `MainWindow::writeBackupFile`, of which only the fact that a
backup was written is kept. -/
def writeBackupFile (w : MainWindow) : MainWindow :=
  { w with backups := w.backups + 1 }

/-- The function `MainWindow::saveAllDomainDataToSettings`. -/
def saveAllDomainDataToSettings (env : Collaborators) (w : MainWindow) : MainWindow :=
  if w.d.masterKey.isEmpty then w
  else if validCredentials w then
    let w1 := (encodeWithCredentials env w (env.toJson w.d.domains.items)).1
    match (encodeWithCredentials env w (env.toJson w.d.domains.items)).2 with
    | none => w1
    | some cipher =>
      if cipher.isEmpty then w1
      else
        let w2 : MainWindow :=
          { w1 with d := { w1.d with settings := { w1.d.settings with syncDomains := cipher } } }
        if w2.d.masterPasswordChangeStep = 0 then
          generateSaltKeyIV env (if w2.optionsDialog.writeBackups then writeBackupFile w2 else w2)
        else w2
  else w

/-- The function `MainWindow::saveSyncDataToSettings`: the ciphertext of the
sync parameters, empty when the credentials are invalid or the encoder throws,
is stored as `sync/param` in every case. -/
def saveSyncDataToSettings (env : Collaborators) (w : MainWindow) : MainWindow :=
  let w1 := if validCredentials w then (encodeWithCredentials env w w.optionsDialog.syncData).1
    else w
  let baCryptedData := if validCredentials w then
    ((encodeWithCredentials env w w.optionsDialog.syncData).2).getD [] else []
  { w1 with d := { w1.d with settings := { w1.d.settings with syncParam := baCryptedData } } }

/-- Modelled from the spec: `SecureErase(QString&)` is not part of
`mainwindow.cpp`; it overwrites the text and leaves it empty. -/
def SecureErase (_s : QString) : QString := []

/-- Modelled from the spec: `SecureByteArray::invalidate()` is not part of
`mainwindow.cpp`; it overwrites the buffer and marks it empty. -/
def invalidate (_b : QByteArray) : QByteArray := []

/-- The function `MainWindow::invalidateMasterPassword`: it erases
`d->masterPassword`, `d->KGK` and `d->masterKey`. Invalidating the text of the
master password dialog and showing that dialog again (`reenter`) change nothing
of the state kept here. -/
def invalidateMasterPassword (w : MainWindow) (_reenter : Bool) : MainWindow :=
  { w with
    d := { w.d with
      masterPassword := SecureErase w.d.masterPassword,
      KGK := invalidate w.d.KGK,
      masterKey := invalidate w.d.masterKey } }

/-! ## The combo box of domain names -/

/-- The constant `NotFound`. -/
def NotFound : Int := -1

/-- The order of two folded texts, character by character, as
`QString::compare` reports it: negative, zero or positive. -/
def compareFolded : List Char → List Char → Int
  | [], [] => 0
  | [], _ :: _ => -1
  | _ :: _, [] => 1
  | a :: as, b :: bs =>
    if a.toNat < b.toNat then -1
    else if b.toNat < a.toNat then 1
    else compareFolded as bs

/-- The call `a.compare(b, Qt::CaseInsensitive)`. -/
def compare (a b : QString) : Int := compareFolded (foldCase a) (foldCase b)

/-- The call `ui->domainsComboBox->itemText(idx)`: the text at the index, the
empty text for an index outside the list. -/
def itemText (items : List QString) (idx : Int) : QString :=
  if idx < 0 then [] else items.getD idx.toNat []

/-- The recursion of `MainWindow::findDomainInComboBox(domain, lo, hi)`, with a
bound on the number of calls; `none` when the bound is used up. The division
of `int` rounds towards zero; the indices of a combo box are far from the
range where `lo + hi` overflows. -/
def findDomainInComboBoxWithin (items : List QString) (domain : QString) :
    Nat → Int → Int → Option Int
  | 0, _, _ => none
  | fuel + 1, lo, hi =>
    if hi < lo then some NotFound
    else
      let idx := Int.tdiv (lo + hi) 2
      let c := compare (itemText items idx) domain
      if c > 0 then findDomainInComboBoxWithin items domain fuel lo (idx - 1)
      else if c < 0 then findDomainInComboBoxWithin items domain fuel (idx + 1) hi
      else some idx

/-- The function `MainWindow::findDomainInComboBox(domain, lo, hi)`: every call
narrows the range from `lo` to `hi`, so that many calls and one more are
allowed. -/
def findDomainInComboBoxIn (items : List QString) (domain : QString) (lo hi : Int) : Int :=
  (findDomainInComboBoxWithin items domain ((hi - lo + 1).toNat + 1) lo hi).getD NotFound

/-- The function `MainWindow::findDomainInComboBox(domain)`, which searches
from index `0` to index `count()`. -/
def findDomainInComboBox (items : List QString) (domain : QString) : Int :=
  findDomainInComboBoxIn items domain 0 items.length

/-- The function `MainWindow::domainComboboxContains`. -/
def domainComboboxContains (items : List QString) (domain : QString) : Bool :=
  findDomainInComboBox items domain ≠ NotFound

/-- The call `domainNames.sort(Qt::CaseInsensitive)`. Names that are equal up to
case keep their order here; the sort of Qt may put them in either order. -/
def sortCaseInsensitive (domainNames : List QString) : List QString :=
  List.insertionSort (fun a b => compare a b ≤ 0) domainNames

/-- The function `MainWindow::makeDomainComboBox`: the combo box gets the
names of the records that are not deleted, sorted without regard to case. -/
def makeDomainComboBox (w : MainWindow) : MainWindow :=
  let domainNames :=
    (w.d.domains.items.filter (fun ds => !ds.deleted)).map (fun ds => ds.domainName)
  { w with domainsComboBox := sortCaseInsensitive domainNames }

/-- The loop of `MainWindow::selectAlternativeDomainNameFor(domainName)`, with
a bound on the number of rounds; `none` when the bound is used up. -/
def selectAlternativeInComboBox (items : List QString) (domainName : QString) :
    Nat → Nat → QString → Option QString
  | 0, _, _ => none
  | fuel + 1, idx, newDomainName =>
    if findDomainInComboBox items newDomainName ≠ NotFound then
      selectAlternativeInComboBox items domainName fuel (idx + 1)
        (alternativeName domainName (idx + 1))
    else some newDomainName

/-- The function `MainWindow::selectAlternativeDomainNameFor(domainName)`, the
overload that looks the names up in the combo box. The loop is given two rounds
more than the combo box has texts, which is enough
(`selectAlternativeDomainNameFor_comboBox_returns`). -/
def MainWindow.selectAlternativeDomainNameFor (w : MainWindow) (domainName : QString) :
    Option QString :=
  selectAlternativeInComboBox w.domainsComboBox domainName (w.domainsComboBox.length + 2) 0
    domainName

/-- The loop `foreach (DomainSettings ds, reader.domains())` of the two import
functions: every record is stored under the name selected for it; the result
is the window afterwards and the list `renamed`. -/
def importDomains : MainWindow → List (QString × QString) → List DomainSettings →
    Option (MainWindow × List (QString × QString))
  | w, renamed, [] => some (w, renamed)
  | w, renamed, ds :: rest =>
    match w.selectAlternativeDomainNameFor ds.domainName with
    | none => none
    | some newDomainName =>
      importDomains
        { w with d := { w.d with
            domains := w.d.domains.append { ds with domainName := newDomainName } } }
        (if newDomainName ≠ ds.domainName then renamed ++ [(ds.domainName, newDomainName)]
          else renamed)
        rest

/-- The function `MainWindow::onImportKeePass2XmlFile` for a valid reader that
delivers `readerDomains`: the import loop, then the combo box is rebuilt. -/
def onImportKeePass2XmlFile (w : MainWindow) (readerDomains : List DomainSettings) :
    Option (MainWindow × List (QString × QString)) :=
  (importDomains w [] readerDomains).map (fun r => (makeDomainComboBox r.1, r.2))

/-- The function `MainWindow::onImportPasswordSafeFile` for a valid reader that
delivers `readerDomains`: the import loop, then the store is saved and the
combo box is rebuilt. -/
def onImportPasswordSafeFile (env : Collaborators) (w : MainWindow)
    (readerDomains : List DomainSettings) : Option (MainWindow × List (QString × QString)) :=
  (importDomains w [] readerDomains).map
    (fun r => (makeDomainComboBox (saveAllDomainDataToSettings env r.1), r.2))

/-- The function `MainWindow::saveDomainSettings` at the time `now`; the
cleared date `QDateTime()` is the time `0`. -/
def saveDomainSettings (env : Collaborators) (now : Int) (w : MainWindow)
    (ds : DomainSettings) : MainWindow :=
  let domainList := w.domainsComboBox
  let ds1 : DomainSettings :=
    if domainList.any (fun n => sameName n ds.domainName) then { ds with modifiedDate := now }
    else { ds with createdDate := now, modifiedDate := 0 }
  saveAllDomainDataToSettings env
    (makeDomainComboBox { w with d := { w.d with domains := w.d.domains.updateWith ds1 } })

/-! ## Restoring the store, writing to the peers, and the whole of `syncWith` -/

/-- The function `MainWindow::restoreDomainDataFromSettings`: the window
afterwards and the value returned. A decryption failure returns `false` before
anything is changed; bytes that are not valid JSON leave the JSON document
empty, and the store is replaced in that case too. -/
def restoreDomainDataFromSettings (env : Collaborators) (w : MainWindow) : MainWindow × Bool :=
  let domains := w.d.settings.syncDomains
  if domains.isEmpty then
    (makeDomainComboBox
      { w with d := { w.d with domains := DomainSettingsList.fromQJsonDocument [] } }, true)
  else
    match env.decode (toUtf8 w.d.masterPassword) domains with
    | none => (w, false)
    | some (recovered, KGK) =>
      (makeDomainComboBox
        { w with d := { w.d with
            KGK := KGK,
            domains := DomainSettingsList.fromQJsonDocument ((env.fromJson recovered).getD []) } },
        true)

/-- The function `MainWindow::cryptedRemoteDomains`: the window afterwards and
the ciphertext of the remote store, empty when the credentials are invalid or
the encoder throws. -/
def cryptedRemoteDomains (env : Collaborators) (w : MainWindow) : MainWindow × QByteArray :=
  if validCredentials w then
    ((encodeWithCredentials env w (env.toJson w.d.remoteDomains.items)).1,
      ((encodeWithCredentials env w (env.toJson w.d.remoteDomains.items)).2).getD [])
  else (w, [])

/-- The peers of a sync, the flags of the enumeration `SyncPeer`, which the
header declares: the sync file and the sync server are two different bits. -/
abbrev SyncPeer := Nat

/-- The flag of the sync file. -/
def SyncPeerFile : SyncPeer := 1

/-- The flag of the sync server. -/
def SyncPeerServer : SyncPeer := 2

/-- The function `MainWindow::writeToSyncFile`: with file sync enabled the file
is opened for writing and the ciphertext is written; a file that cannot be
opened keeps its content. -/
def writeToSyncFile (w : MainWindow) (cipher : QByteArray) : MainWindow :=
  if w.optionsDialog.syncToFileEnabled then
    if w.syncFile.writable then
      { w with syncFile := { w.syncFile with content := cipher },
               fileWrites := cipher :: w.fileWrites }
    else w
  else w

/-- The function `MainWindow::sendToSyncServer`: the ciphertext is posted to
the write URL of the server. -/
def sendToSyncServer (w : MainWindow) (cipher : QByteArray) : MainWindow :=
  { w with serverPosts := cipher :: w.serverPosts }

/-- The function `MainWindow::writeToRemote`. -/
def writeToRemote (env : Collaborators) (w : MainWindow) (syncPeer : SyncPeer) : MainWindow :=
  let w1 := (cryptedRemoteDomains env w).1
  let cipher := (cryptedRemoteDomains env w).2
  if cipher.isEmpty then w1
  else
    let w2 :=
      if (syncPeer &&& SyncPeerFile) = SyncPeerFile ∧ w1.optionsDialog.syncToFileEnabled = true
      then writeToSyncFile w1 cipher else w1
    if (syncPeer &&& SyncPeerServer) = SyncPeerServer ∧ w2.optionsDialog.syncToServerEnabled = true
    then sendToSyncServer w2 cipher else w2

/-- The part of `MainWindow::syncWith` after the merge: a dirty remote store is
written to the peer, a dirty local store is saved to the settings and restored
from them. -/
def syncWithAfterMerge (env : Collaborators) (w : MainWindow) (syncPeer : SyncPeer) :
    MainWindow :=
  let w1 := if w.d.remoteDomains.dirty then writeToRemote env w syncPeer else w
  if w1.d.domains.dirty then
    let w2 := (restoreDomainDataFromSettings env (saveAllDomainDataToSettings env w1)).1
    { w2 with d := { w2.d with domains := w2.d.domains.setDirty false } }
  else w1

/-- The window when `MainWindow::syncWith` has called the merge: the private
state is the one of `syncWithUntilMerged`. -/
def mergedWindow (env : Collaborators) (w : MainWindow) (remoteDomainsEncoded : QByteArray) :
    MainWindow :=
  { w with d := syncWithUntilMerged env.decode env.fromJson env.generate w.d
                  remoteDomainsEncoded }

/-- The function `MainWindow::syncWith`: after a decryption failure it returns;
otherwise it merges and goes on with `syncWithAfterMerge`. -/
def syncWith (env : Collaborators) (w : MainWindow) (syncPeer : SyncPeer)
    (remoteDomainsEncoded : QByteArray) : MainWindow :=
  match syncWithDecode env.decode w.d remoteDomainsEncoded with
  | Decoding.aborted d => { w with d := d }
  | Decoding.decoded _ _ => syncWithAfterMerge env (mergedWindow env w remoteDomainsEncoded) syncPeer

/-- The function `MainWindow::syncWithFile`: a file that cannot be opened is
reported, and `readAll()` then delivers no bytes; `syncWith` is called in
either case. -/
def syncWithFile (env : Collaborators) (w : MainWindow) : MainWindow :=
  let domains := if w.syncFile.readable then w.syncFile.content else []
  syncWith env w SyncPeerFile domains

/-! ## Entering the master password, generating, importing a KGK, changing the master password -/

/-- The function `MainWindow::restoreSyncSettings`: the window afterwards and
the value returned. A decryption failure returns `false` before anything is
changed; otherwise the KGK of the envelope is held and the options dialog is
set from the JSON text. -/
def restoreSyncSettings (env : Collaborators) (w : MainWindow) : MainWindow × Bool :=
  let baCryptedData := w.d.settings.syncParam
  if baCryptedData.isEmpty then (w, true)
  else
    match env.decode (toUtf8 w.d.masterPassword) baCryptedData with
    | none => (w, false)
    | some (baSyncData, KGK) =>
      ({ w with d := { w.d with KGK := KGK },
                optionsDialog := env.readSyncData baSyncData w.optionsDialog }, true)

/-- The function `MainWindow::restoreSettings`. -/
def restoreSettings (env : Collaborators) (w : MainWindow) : MainWindow × Bool :=
  restoreSyncSettings env w

/-- How `MainWindow::onMasterPasswordEntered` ends: the window, the value of
`ok` (with `false` the master password is asked for again), whether the
function goes on with `onSync()`, and whether it shows the advice to sync
instead, which opens the options dialog when it is answered with OK and does
nothing more when it is answered with Ignore. -/
structure MasterPasswordEntered where
  window : MainWindow
  ok : Bool
  sync : Bool
  advice : Bool
  deriving DecidableEq, Repr

/-- The function `MainWindow::onMasterPasswordEntered` for the password
`masterPwd` of the dialog and its flag `repeatedPasswordEntry`, up to its call
of `onSync()` or to the advice to sync. -/
def onMasterPasswordEntered (env : Collaborators) (w : MainWindow) (masterPwd : QString)
    (repeatedPasswordEntry : Bool) : MasterPasswordEntered :=
  if masterPwd.isEmpty then { window := w, ok := true, sync := false, advice := false }
  else
    let w1 : MainWindow := { w with d := { w.d with masterPassword := masterPwd } }
    if (restoreSettings env w1).2 then
      let w2 := (restoreSettings env w1).1
      if (restoreDomainDataFromSettings env w2).2 then
        let w3 := generateSaltKeyIV env (restoreDomainDataFromSettings env w2).1
        { window := w3, ok := true, sync := w3.optionsDialog.syncOnStart,
          advice := !w3.optionsDialog.syncOnStart && repeatedPasswordEntry }
      else
        { window := (restoreDomainDataFromSettings env w2).1, ok := false, sync := false,
          advice := false }
    else { window := (restoreSettings env w1).1, ok := false, sync := false, advice := false }

/-- The function `MainWindow::updatePassword` for the text of the legacy
password field and the domain settings collected from the form: the arguments
of `d->password.generateAsync` when a generation is started, `none` when none
is started. -/
def updatePassword (w : MainWindow) (legacyPasswordLineEdit : QString)
    (collectedDomainSettings : DomainSettings) : Option (QByteArray × DomainSettings) :=
  if w.d.masterPassword.isEmpty then none
  else if legacyPasswordLineEdit.isEmpty then some (w.d.KGK, collectedDomainSettings)
  else none

/-- The function `MainWindow::onImportKGK`: `rc` tells whether the question was
answered with yes, `kgkFilename` is the file chosen, `kgk` is what
`Exporter(kgkFilename).read` delivers, and `KGKSize` is `Crypter::KGKSize`. -/
def onImportKGK (KGKSize : Nat) (w : MainWindow) (rc : Bool) (kgkFilename : QString)
    (kgk : QByteArray) : MainWindow :=
  if rc then
    if kgkFilename.isEmpty then w
    else if kgk.length = KGKSize then { w with d := { w.d with KGK := kgk } }
    else w
  else w

/-- The function `MainWindow::changeMasterPassword` when the dialog is closed
with `accepted` and holds `oldPassword` as the old password; the new password
is `d.newPassword`. The result is the window and whether the function goes on
with `nextChangeMasterPasswordStep()`, as it does when a sync peer is enabled.
Without a sync peer the store is saved, then the master password is replaced
and salt, key and IV are generated anew. -/
def changeMasterPassword (env : Collaborators) (w : MainWindow) (accepted : Bool)
    (oldPassword : QString) : MainWindow × Bool :=
  if accepted = true ∧ oldPassword = w.d.masterPassword then
    if w.optionsDialog.syncToServerEnabled || w.optionsDialog.syncToFileEnabled then
      ({ w with d := { w.d with masterPasswordChangeStep := 1 } }, true)
    else
      let newPassword := w.d.newPassword
      let w1 := saveAllDomainDataToSettings env w
      (generateSaltKeyIV env { w1 with d := { w1.d with masterPassword := newPassword } },
        false)
  else (w, false)

/-- The call `s.replace(c, after)` for a pattern of one character. -/
def replaceChar (s : QString) (c : Char) (after : QString) : QString :=
  s.flatMap (fun x => if x = c then after else [x])

/-- The functor `DomainSettingsToTextConverter(kgk)` applied to a record: the
bytes it returns and the calls of the password generator it makes. The record
functions `expired()` and `groupHierarchy` are parameters. -/
def DomainSettingsToTextConverter (generate : Generator) (expired : DomainSettings → Bool)
    (groupHierarchy : DomainSettings → QString) (kgk : QByteArray) (ds : DomainSettings) :
    QByteArray × List (QByteArray × DomainSettings) :=
  if !ds.deleted && !expired ds then
    let pwd := if ds.legacyPassword.isEmpty then generate kgk ds else ds.legacyPassword
    let calls := if ds.legacyPassword.isEmpty then [(kgk, ds)] else []
    if pwd.isEmpty then ([], calls)
    else
      let notes :=
        replaceChar (replaceChar ds.notes (Char.ofNat 92) [Char.ofNat 92, Char.ofNat 92])
          (Char.ofNat 10) [Char.ofNat 92, 'n']
      let data0 := toUtf8 (arg (arg "[%1]\npwd = %2\n".toList ds.domainName) pwd)
      let data1 := if ds.url.isEmpty then data0
        else data0 ++ toUtf8 (arg "url = %1\n".toList ds.url)
      let data2 := if ds.userName.isEmpty then data1
        else data1 ++ toUtf8 (arg "user = %1\n".toList ds.userName)
      let data3 := if notes.isEmpty then data2
        else data2 ++ toUtf8 (arg "notes = %1\n".toList notes)
      let data4 := if (groupHierarchy ds).isEmpty then data3
        else data3 ++ toUtf8 (arg "group = %1\n".toList (groupHierarchy ds))
      (data4, calls)
  else ([], [])

/-! ## Auxiliary definitions used in the proofs -/

/-- The number that a list of decimal digits, least significant first, stands for. -/
def digitsValue : List Char → Nat
  | [] => 0
  | c :: cs => (c.toNat - 48) + 10 * digitsValue cs

/-- How many pieces are the marker `m`. -/
def escapeCount (m : Nat) : List ArgPiece → Nat
  | [] => 0
  | ArgPiece.text _ :: ps => escapeCount m ps
  | ArgPiece.escape n _ :: ps => (if n = m then 1 else 0) + escapeCount m ps

/-- The length of the text that is copied when marker `m` is filled. -/
def copiedLength (m : Nat) : List ArgPiece → Nat
  | [] => 0
  | ArgPiece.text _ :: ps => 1 + copiedLength m ps
  | ArgPiece.escape n raw :: ps => (if n = m then 0 else raw.length) + copiedLength m ps

/-- The pieces that the tail ` (%2)` of the template ends in. -/
def suffixPieces : List ArgPiece := [ArgPiece.escape 2 ['%', '2'], ArgPiece.text ')']

/-- The records that the local and the remote store hold under a name. -/
def pairAt (d : MainWindowPrivate) (n : QString) : DomainSettings × DomainSettings :=
  (d.domains.atName n, d.remoteDomains.atName n)

/-- What one round of the merge makes of the pair of records `(l, r)` held
under the name `n`, when the round is for a name that matches `n` and no
renamed record is stored under `n`. -/
def keyStep (generate : Generator) (d : MainWindowPrivate) (n : QString)
    (p : DomainSettings × DomainSettings) : DomainSettings × DomainSettings :=
  if p.1.isEmpty = false ∧ p.2.isEmpty = false then
    if p.2.modifiedDate > p.1.modifiedDate then (p.2, p.2)
    else if p.2.modifiedDate < p.1.modifiedDate then
      if d.doConvertLocalToLegacy = true ∧ p.1.deleted = false then p else (p.1, p.1)
    else p
  else if p.2.isEmpty = true then
    if p.1.deleted = false then
      (p.1, if sameName p.1.domainName n then pushedWhenLocalOnly generate d p.1 else p.2)
    else (DomainSettings.empty, p.2)
  else (p.2, p.2)

/-- A record that a lookup under the name `n` can return. -/
def ValidAt (n : QString) (x : DomainSettings) : Prop :=
  x = DomainSettings.empty ∨ sameName x.domainName n = true

/-- A piece with its characters folded. -/
def foldPiece : ArgPiece → ArgPiece
  | ArgPiece.text c => ArgPiece.text c.toLower
  | ArgPiece.escape n raw => ArgPiece.escape n (foldCase raw)

/-- The state with the dirty flags of both stores cleared. -/
def clearDirty (d : MainWindowPrivate) : MainWindowPrivate :=
  { d with domains := d.domains.setDirty false, remoteDomains := d.remoteDomains.setDirty false }

/-- Every tombstone of the stores of `s` is a record of one of the stores of
`d`. -/
def TombstonesFrom (d s : MainWindowPrivate) : Prop :=
  ∀ x, (x ∈ s.domains.items ∨ x ∈ s.remoteDomains.items) → x.deleted = true →
    x ∈ d.domains.items ∨ x ∈ d.remoteDomains.items

/-! ## Sample data for the worked instances -/

/-- A record with the given name and modification time, all else empty. -/
def record (name : String) (modified : Int) : DomainSettings :=
  { DomainSettings.empty with domainName := name.toList, modifiedDate := modified }

/-- A sample generator: the domain name, a separator and the key, read as text. -/
def sampleGenerate : Generator :=
  fun key ds => ds.domainName ++ ['#'] ++ key.map Char.ofNat

/-- A state with the given local and remote records and the given
convert-local-to-legacy flag; the master password is `mp`, the held KGK is
the byte 2. -/
def session (localRecords remoteRecords : List DomainSettings) (convert : Bool) :
    MainWindowPrivate :=
  { domains := { items := localRecords, dirty := false },
    remoteDomains := { items := remoteRecords, dirty := false },
    masterPassword := "mp".toList, KGK := [2], doConvertLocalToLegacy := convert,
    masterPasswordChangeStep := 0, newPassword := [] }

/-- Three names held on both sides: the first newer on the remote side, the
second newer on the local side, the third with the same date on both sides. -/
def sampleLastWriter : MainWindowPrivate :=
  session [record "a.example" 1, record "b.example" 7, record "c.example" 4]
    [record "a.example" 5, record "b.example" 2, record "c.example" 4] false

/-- A sample decoder: with the master password `mp` every cipher text decodes
to itself and yields the KGK that consists of the byte 9. -/
def sampleDecode : Decoder :=
  fun password cipher => if password = toUtf8 "mp".toList then some (cipher, [9]) else none

/-- A sample JSON reader: every text is the empty object. -/
def sampleFromJson : JsonReader := fun _ => some []

/-- A state in which only the local store has the record `b.example`. -/
def sampleLocalOnly : MainWindowPrivate := session [record "b.example" 3] [] false

/-- Both sides hold `a`, newer on the local side; the remote side also holds
`a (1)`; the KGK mismatch is flagged. -/
def sampleCollision : MainWindowPrivate :=
  session [record "a" 5] [record "a" 3, record "a (1)" 2] true

/-- Both sides hold `bank.example`, newer on the local side; the KGK mismatch
is flagged. -/
def sampleBank : MainWindowPrivate :=
  session [record "bank.example" 5] [record "bank.example" 3] true

/-- Both sides hold `a.example` with the same date and different user names. -/
def sampleEqualDates : MainWindowPrivate :=
  session [{ record "a.example" 4 with userName := "alice".toList }]
    [{ record "a.example" 4 with userName := "bob".toList }] false

/-- The local store holds a tombstone `X (1)` and the record `x`, which is newer
than the remote record `x`; the KGK mismatch is flagged. -/
def sampleTombstoneVariant : MainWindowPrivate :=
  session [{ record "X (1)" 1 with deleted := true }, record "x" 5] [record "x" 3] true

/-- The local store holds the records `X (1)` and `x`, the latter newer than the
remote record `x`; the KGK mismatch is flagged. -/
def sampleRecordVariant : MainWindowPrivate :=
  session [record "X (1)" 1, record "x" 5] [record "x" 3] true

/-- The local store holds a tombstone `gone.example` without remote counterpart
and the record `x`, newer than the remote record `x`; the KGK mismatch is
flagged. -/
def sampleTombstone : MainWindowPrivate :=
  session [{ record "gone.example" 1 with deleted := true }, record "x" 5] [record "x" 3] true

/-- The local store holds the record `new.example` without remote counterpart
and the record `x`, newer than the remote record `x`; the KGK mismatch is
flagged. -/
def sampleNewRecord : MainWindowPrivate :=
  session [record "new.example" 1, record "x" 5] [record "x" 3] true

/-! ### A sample JSON writer and reader, and a sample crypter

The worked instances need collaborators that can be evaluated: a writer and a
reader of the domain store that are inverse to each other, and an envelope
that can only be opened with the password its key was derived from. -/

/-- Bytes with their length in front. -/
def writeBytes (b : List Nat) : List Nat := b.length :: b

/-- A text as its code points. -/
def textBytes (s : QString) : List Nat := s.map Char.toNat

/-- A timestamp as its sign and its absolute value. -/
def intBytes (i : Int) : List Nat := [if i < 0 then 1 else 0, i.natAbs]

/-- The attached files: their number, then name and content of each. -/
def filesBytes (files : List (QString × QByteArray)) : List Nat :=
  files.length :: files.flatMap (fun f => writeBytes (textBytes f.1) ++ writeBytes f.2)

/-- The fields of a record, each as bytes. -/
def recordFields (ds : DomainSettings) : List (List Nat) :=
  [textBytes ds.domainName, textBytes ds.url, textBytes ds.userName, textBytes ds.notes,
   textBytes ds.salt_base64, [ds.iterations], textBytes ds.passwordTemplate,
   textBytes ds.extraCharacters, textBytes ds.usedCharacters, textBytes ds.legacyPassword,
   intBytes ds.createdDate, intBytes ds.modifiedDate, [if ds.deleted then 1 else 0],
   filesBytes ds.files]

/-- The sample JSON writer: an opening brace, the number of records, then the
fields of every record, each with its length in front. -/
def sampleToJson (records : List DomainSettings) : QByteArray :=
  123 :: records.length :: records.flatMap (fun ds => (recordFields ds).flatMap writeBytes)

/-- Reads bytes with their length in front; the rest of the input follows. -/
def readBytes : List Nat → Option (List Nat × List Nat)
  | [] => none
  | n :: rest => if n ≤ rest.length then some (rest.take n, rest.drop n) else none

/-- Reads the given number of fields. -/
def readFields : Nat → List Nat → Option (List (List Nat) × List Nat)
  | 0, bs => some ([], bs)
  | n + 1, bs =>
    (readBytes bs).bind (fun field =>
    (readFields n field.2).map (fun fields => (field.1 :: fields.1, fields.2)))

/-- The text with the given code points. -/
def bytesText (b : List Nat) : QString := b.map Char.ofNat

/-- Reads the given number of attached files; nothing may follow them. -/
def readFiles : Nat → List Nat → Option (List (QString × QByteArray))
  | 0, [] => some []
  | 0, _ :: _ => none
  | n + 1, bs =>
    (readFields 2 bs).bind (fun file =>
    (readFiles n file.2).map (fun files =>
      (bytesText (file.1.getD 0 []), file.1.getD 1 []) :: files))

/-- The record with the given fields. -/
def recordOfFields : List (List Nat) → Option DomainSettings
  | [domainName, url, userName, notes, salt_base64, [iterations], passwordTemplate,
      extraCharacters, usedCharacters, legacyPassword, [createdSign, created],
      [modifiedSign, modified], [deleted], count :: files] =>
    (readFiles count files).map (fun fs =>
      { domainName := bytesText domainName, url := bytesText url,
        userName := bytesText userName, notes := bytesText notes,
        salt_base64 := bytesText salt_base64, iterations := iterations,
        passwordTemplate := bytesText passwordTemplate,
        extraCharacters := bytesText extraCharacters,
        usedCharacters := bytesText usedCharacters,
        legacyPassword := bytesText legacyPassword,
        createdDate := if createdSign = 1 then -(created : Int) else (created : Int),
        modifiedDate := if modifiedSign = 1 then -(modified : Int) else (modified : Int),
        deleted := decide (deleted = 1), files := fs })
  | _ => none

/-- Reads the given number of records. -/
def readRecords : Nat → List Nat → Option (List DomainSettings × List Nat)
  | 0, bs => some ([], bs)
  | n + 1, bs =>
    (readFields 14 bs).bind (fun fields =>
    (recordOfFields fields.1).bind (fun r =>
    (readRecords n fields.2).map (fun rs => (r :: rs.1, rs.2))))

/-- The sample JSON reader: it accepts what `sampleToJson` writes and nothing
else. -/
def sampleReadJson : JsonReader
  | 123 :: n :: rest =>
    match readRecords n rest with
    | some (records, []) => some records
    | _ => none
  | _ => none

/-- The sample key derivation: the key is the password followed by the salt,
the IV is the salt. -/
def sampleMakeKeyAndIV (password salt : QByteArray) : QByteArray × QByteArray :=
  (password ++ salt, salt)

/-- The sample envelope: the salt, the key as the check value, the KGK, then
the payload. -/
def sampleEncode (key _IV salt KGK payload : QByteArray) : Option QByteArray :=
  some (writeBytes salt ++ writeBytes key ++ writeBytes KGK ++ payload)

/-- Opening the sample envelope: it fails unless the check value is the key
that the password and the salt of the envelope give. -/
def sampleOpen : Decoder := fun password cipher =>
  (readBytes cipher).bind (fun salt =>
  (readBytes salt.2).bind (fun key =>
  (readBytes key.2).bind (fun KGK =>
    if key.1 = (sampleMakeKeyAndIV password salt.1).1 then some (KGK.2, KGK.1) else none)))

/-- The sample collaborators. -/
def sampleCollaborators : Collaborators :=
  { encode := sampleEncode, decode := sampleOpen,
    generateSalt := fun n => [100 + n], generateKGK := fun n => [200 + n],
    makeKeyAndIVFromPassword := sampleMakeKeyAndIV,
    toJson := sampleToJson, fromJson := sampleReadJson, generate := sampleGenerate,
    readSyncData := fun json options => { options with syncData := json } }

/-- A main window around a private state: the key and the IV are derived from
the master password and the salt `[7]`, the combo box shows the local store,
both peers are enabled, the sync file can be read and written and is empty,
nothing has been sent yet. -/
def window (d : MainWindowPrivate) : MainWindow :=
  makeDomainComboBox
    { d := { d with
        salt := [7],
        masterKey := (sampleMakeKeyAndIV (toUtf8 d.masterPassword) [7]).1,
        IV := (sampleMakeKeyAndIV (toUtf8 d.masterPassword) [7]).2 },
      domainsComboBox := [],
      optionsDialog :=
        { syncToFileEnabled := true, syncToServerEnabled := true, writeBackups := false,
          syncData := [123, 125] },
      syncFile := { readable := true, writable := true, content := [] },
      fileWrites := [], serverPosts := [], encodeCalls := [], backups := 0, entropy := 0 }

/-- A deleted record (a tombstone) with the given name and date. -/
def tombstone (name : String) (modified : Int) : DomainSettings :=
  { record name modified with deleted := true }

/-- An unlocked window with one record. -/
def sampleUnlocked : MainWindow := window (session [record "a.example" 5] [] false)

/-- A window without master key and IV, with both settings entries present. -/
def sampleNoCredentials : MainWindow :=
  { sampleUnlocked with
    d := { sampleUnlocked.d with
      masterKey := [], IV := [], settings := { syncDomains := [1, 2, 3], syncParam := [4, 5, 6] } } }

/-- A window during a master password change: the step counter is `2`, as it
is when the first step of the change saves the store. -/
def sampleChangingPassword : MainWindow :=
  { sampleUnlocked with d := { sampleUnlocked.d with masterPasswordChangeStep := 2 } }

/-- An unlocked window without records. -/
def sampleEmptyWindow : MainWindow := window (session [] [] false)

/-- Two different source records with the same domain name. -/
def sampleImported : List DomainSettings :=
  [{ record "mail.com" 1 with userName := "alice".toList },
   { record "mail.com" 2 with userName := "bob".toList }]

/-- The sample envelope of a payload for the password `mp`, with the salt `[3]`
and the given KGK. -/
def sampleEnvelope (KGK payload : QByteArray) : QByteArray :=
  (sampleEncode (sampleMakeKeyAndIV (toUtf8 "mp".toList) [3]).1 [3] [3] KGK payload).getD []

/-- A peer payload with an empty store and the KGK `[9]`, which is not the KGK
`[2]` that the sample windows hold. -/
def samplePeerPayload : QByteArray := sampleEnvelope [9] (sampleToJson [])

/-- A peer payload that the password `mp` does not open. -/
def sampleForeignPayload : QByteArray :=
  (sampleEncode (sampleMakeKeyAndIV (toUtf8 "other".toList) [3]).1 [3] [3] [9]
    (sampleToJson [])).getD []

/-- A peer payload that the password `mp` opens, with the KGK `[2]` of the
sample windows, whose content is not valid JSON. -/
def sampleMalformedPayload : QByteArray := sampleEnvelope [2] [1, 2, 3]

/-- An unlocked window whose local store holds a tombstone and a record. -/
def sampleWithTombstone : MainWindow :=
  window (session [tombstone "gone.example" 1, record "a.example" 5] [] false)

/-- The same window with a sync file that cannot be opened for reading and can
be opened for writing. -/
def sampleUnreadableFile : MainWindow :=
  { sampleWithTombstone with syncFile := { readable := false, writable := true, content := [] } }

/-- An unlocked window whose local store holds one tombstone. -/
def sampleOnlyTombstone : MainWindow := window (session [tombstone "a.example" 5] [] false)

/-- A window at the first start: no master password, no KGK, no key, nothing
persisted, no sync peer enabled. -/
def sampleFirstStart : MainWindow :=
  { d := { domains := { items := [], dirty := false },
           remoteDomains := { items := [], dirty := false },
           masterPassword := [], KGK := [], doConvertLocalToLegacy := false,
           masterPasswordChangeStep := 0, newPassword := [] },
    domainsComboBox := [],
    optionsDialog :=
      { syncToFileEnabled := false, syncToServerEnabled := false, writeBackups := false,
        syncData := [123, 125] },
    syncFile := { readable := false, writable := false, content := [] },
    fileWrites := [], serverPosts := [], encodeCalls := [], backups := 0, entropy := 0 }

/-- An unlocked window with one record and no sync peer enabled, whose dialog
for changing the master password holds the new password `np`. -/
def sampleNoPeer : MainWindow :=
  { sampleUnlocked with
    d := { sampleUnlocked.d with newPassword := "np".toList },
    optionsDialog :=
      { sampleUnlocked.optionsDialog with
        syncToFileEnabled := false, syncToServerEnabled := false } }

/-- An unlocked window whose persisted store was sealed with another password. -/
def sampleForeignSettings : MainWindow :=
  { sampleUnlocked with
    d := { sampleUnlocked.d with
      settings := { syncDomains := sampleForeignPayload, syncParam := [] } } }

/-- A private state without local records that holds the KGK `[2]`, outside a
master password change. -/
def sampleEmptyStore : MainWindowPrivate := session [] [] false

/-- The same state during a master password change: the current master password
is `old`, the new password of the dialog is `mp`, which opens the sample peer
payload. -/
def sampleEmptyStoreChanging : MainWindowPrivate :=
  { sampleEmptyStore with
    masterPassword := "old".toList, newPassword := "mp".toList, masterPasswordChangeStep := 2 }

/-- A record with a legacy password whose domain name is a place marker. -/
def sampleMarkerRecord : DomainSettings :=
  { record "%1" 1 with legacyPassword := "secret".toList }

/-- A record with a legacy password and a plain domain name. -/
def sampleLegacyRecord : DomainSettings :=
  { record "a.example" 1 with legacyPassword := "secret".toList }

/-- No record is expired. -/
def sampleExpired : DomainSettings → Bool := fun _ => false

/-- No record has a group. -/
def sampleGroupHierarchy : DomainSettings → QString := fun _ => []

/-- A window with three records and a tombstone. -/
def sampleFourRecords : MainWindow :=
  window (session [record "b.example" 1, tombstone "gone.example" 2, record "C.example" 3,
    record "a.example" 4] [] false)

/-- A local store with a tombstone, a record of its own and a record that the
remote store has in a newer version; the remote store has a record of its
own. -/
def sampleMergeNames : MainWindowPrivate :=
  session [tombstone "gone.example" 1, record "a.example" 5, record "b.example" 2]
    [record "b.example" 3, record "c.example" 4] false

/-- A local store with a tombstone `a` in front of a record `A`, and an empty
remote store. -/
def sampleCaseVariants : MainWindowPrivate :=
  session [tombstone "a" 1, record "A" 2] [] false

/-- Both sides hold `bank.example`, newer on the local side; the local store
also holds `bank.example (1)`; the KGK mismatch is flagged. -/
def sampleBankTaken : MainWindowPrivate :=
  session [record "bank.example" 5, record "bank.example (1)" 4] [record "bank.example" 3] true

/-- Both sides hold `x`, newer on the local side; the local store also holds the
tombstone `X (1)`, newer still; the KGK mismatch is flagged. -/
def sampleFrozenLost : MainWindowPrivate :=
  session [record "x" 5, tombstone "X (1)" 9] [record "x" 1] true

/-- Both sides hold `x`, newer on the local side, and `x (1)`, which the local
store spells `X (1)` and holds in a newer version; the KGK mismatch is
flagged. -/
def sampleFormTaken : MainWindowPrivate :=
  session [record "x" 5, record "X (1)" 3] [record "x" 1, record "x (1)" 2] true

/-- Both sides hold `x`, newer on the local side; the remote store also holds
the tombstone `X (1)` and the record `x (1)`; the KGK mismatch is flagged. -/
def sampleFrozenLostRemote : MainWindowPrivate :=
  session [record "x" 5] [tombstone "X (1)" 9, record "x" 1, record "x (1)" 2] true

/-- The private state after `a.example`, held as a tombstone, has been saved
anew at the time `1000`, with the tombstone on the remote side, as a peer holds
it that was synchronised before. -/
def sampleRecreated : MainWindowPrivate :=
  { (saveDomainSettings sampleCollaborators 1000 sampleOnlyTombstone (record "a.example" 0)).d with
    remoteDomains := { items := [tombstone "a.example" 5], dirty := false } }

/-- A record `mail.com` as an import file delivers it. -/
def sampleMail : DomainSettings :=
  { record "mail.com" 1 with userName := "alice".toList }

/-- An unlocked window whose store holds `mail.com` as a tombstone. -/
def sampleTombstoneMail : MainWindow := window (session [tombstone "mail.com" 5] [] false)

/-- The stores after the import of `sampleMail` into `sampleTombstoneMail`: the
local store holds the tombstone `mail.com` and the imported record of that
name, the remote store is empty. -/
def sampleTombstoneAndNamesake : MainWindowPrivate :=
  session [tombstone "mail.com" 5, sampleMail] [] false

/-! # Lemmas -/

/-! ## The decimal text of a number determines the number -/

theorem digitChar_toNat : ∀ n, n < 10 → (Nat.digitChar n).toNat - 48 = n := by decide

theorem digitsValue_digitsRev (fuel n : Nat) (h : n < fuel) :
    digitsValue (digitsRev fuel n) = n := by
  induction fuel generalizing n with
  | zero => omega
  | succ f ih =>
    unfold digitsRev
    split
    · rename_i h10
      simp [digitsValue, digitChar_toNat n h10]
    · have hq : n / 10 < f := by omega
      simp only [digitsValue, ih _ hq, digitChar_toNat (n % 10) (Nat.mod_lt _ (by decide))]
      omega

theorem number_injective : Function.Injective number := by
  intro a b h
  have h1 : digitsRev (a + 1) a = digitsRev (b + 1) b := List.reverse_injective h
  have h2 := congrArg digitsValue h1
  rwa [digitsValue_digitsRev _ _ (Nat.lt_succ_self a),
    digitsValue_digitsRev _ _ (Nat.lt_succ_self b)] at h2

/-! ## Filling the place markers -/

theorem fillPieces_length (m : Nat) (a : QString) (ps : List ArgPiece) :
    (fillPieces m a ps).length = copiedLength m ps + escapeCount m ps * a.length := by
  induction ps with
  | nil => simp [fillPieces, copiedLength, escapeCount]
  | cons p ps ih =>
    cases p with
    | text c => simp [fillPieces, fillPiece, copiedLength, escapeCount, ih]; omega
    | escape n raw =>
      by_cases hn : n = m
      · simp [fillPieces, fillPiece, copiedLength, escapeCount, ih, hn]; ring
      · simp [fillPieces, fillPiece, copiedLength, escapeCount, ih, hn]; omega

theorem fillPieces_append (m : Nat) (a : QString) (ps qs : List ArgPiece) :
    fillPieces m a (ps ++ qs) = fillPieces m a ps ++ fillPieces m a qs := by
  induction ps with
  | nil => simp [fillPieces]
  | cons p ps ih => simp [fillPieces, ih]

theorem fillPieces_eq_of_length (m : Nat) (a b : QString) (hlen : a.length = b.length) :
    ∀ ps : List ArgPiece, 0 < escapeCount m ps →
      fillPieces m a ps = fillPieces m b ps → a = b := by
  intro ps
  induction ps with
  | nil => intro h; simp [escapeCount] at h
  | cons p ps ih =>
    intro hc h
    cases p with
    | text c =>
      simp only [fillPieces, fillPiece, escapeCount] at h hc
      exact ih hc (List.append_cancel_left h)
    | escape n raw =>
      by_cases hn : n = m
      · simp only [fillPieces, fillPiece, hn, if_true] at h
        exact (List.append_inj h hlen).1
      · simp only [fillPieces, fillPiece, hn, if_false, escapeCount, Nat.zero_add] at h hc
        exact ih hc (List.append_cancel_left h)

theorem fillPieces_injective (m : Nat) (ps : List ArgPiece) (hc : 0 < escapeCount m ps)
    (a b : QString) (h : fillPieces m a ps = fillPieces m b ps) : a = b := by
  have hl := congrArg List.length h
  rw [fillPieces_length, fillPieces_length] at hl
  have hab : a.length = b.length :=
    Nat.eq_of_mul_eq_mul_left hc (Nat.add_left_cancel hl)
  exact fillPieces_eq_of_length m a b hab ps hc h

theorem minEscape_count (ps : List ArgPiece) (m : Nat) (h : minEscape ps = some m) :
    0 < escapeCount m ps := by
  induction ps generalizing m with
  | nil => simp [minEscape] at h
  | cons p ps ih =>
    cases p with
    | text c => simpa [escapeCount] using ih m (by simpa [minEscape] using h)
    | escape n raw =>
      simp only [minEscape] at h
      cases hm : minEscape ps with
      | none =>
        rw [hm] at h
        simp only [Option.some.injEq] at h
        simp [escapeCount, h]
      | some k =>
        rw [hm] at h
        simp only [Option.some.injEq] at h
        by_cases hnk : n ≤ k
        · have : n = m := by rw [← h]; exact (Nat.min_eq_left hnk).symm
          simp [escapeCount, this]
        · have hk : k = m := by rw [← h]; exact (Nat.min_eq_right (by omega)).symm
          have := ih k hm
          simp only [escapeCount]
          rw [← hk]
          omega

theorem minEscape_append_escape (ps qs : List ArgPiece) (n : Nat) (raw : List Char) :
    ∃ m, minEscape (ps ++ ArgPiece.escape n raw :: qs) = some m := by
  induction ps with
  | nil =>
    simp only [List.nil_append, minEscape]
    cases minEscape qs <;> simp
  | cons p ps ih =>
    obtain ⟨m, hm⟩ := ih
    cases p with
    | text c => exact ⟨m, by simpa [minEscape] using hm⟩
    | escape k raw2 => exact ⟨min k m, by simp [minEscape, hm]⟩

theorem arg_template (name : QString) :
    arg "%1 (%2)".toList name = name ++ " (%2)".toList := rfl

theorem digitValue_space : digitValue ' ' = none := by decide

theorem parseEscape_length (cs : List Char) (n len : Nat)
    (h : parseEscape (cs ++ " (%2)".toList) = some (n, len)) : len ≤ cs.length := by
  rcases cs with _ | ⟨a, _ | ⟨b, _ | ⟨c, cs⟩⟩⟩
  · have h0 : parseEscape ([] ++ " (%2)".toList) = none := by decide
    rw [h0] at h
    exact absurd h (by simp)
  · revert h
    simp only [parseEscape, List.cons_append, List.nil_append, String.toList]
    by_cases ha : a = 'L'
    · subst ha; simp [digitValue_space]
    · simp only [ha, if_false]
      cases digitValue a <;> simp [digitValue_space]
      intro _ h; omega
  · revert h
    simp only [parseEscape, List.cons_append, List.nil_append, String.toList]
    by_cases ha : a = 'L'
    · simp only [ha, if_true]
      cases digitValue b <;> simp [digitValue_space]
      intro _ h; omega
    · simp only [ha, if_false]
      cases digitValue a <;> cases digitValue b <;> simp <;> intro _ h <;> omega
  · revert h
    simp only [parseEscape, List.cons_append, List.length_cons]
    by_cases ha : a = 'L'
    · simp only [ha, if_true]
      cases digitValue b <;> cases digitValue c <;> simp <;> intro _ h <;> omega
    · simp only [ha, if_false]
      cases digitValue a <;> cases digitValue b <;> simp <;> intro _ h <;> omega

theorem argPieces_suffix (name : QString) :
    ∀ skip, skip ≤ name.length →
      ∃ ps, argPieces skip (name ++ " (%2)".toList) = ps ++ suffixPieces := by
  induction name with
  | nil =>
    intro skip hs
    have h0 : skip = 0 := by simpa using hs
    subst h0
    exact ⟨[ArgPiece.text ' ', ArgPiece.text '('], by decide⟩
  | cons c cs ih =>
    intro skip hs
    cases skip with
    | succ s =>
      obtain ⟨ps, hps⟩ := ih s (by simpa using hs)
      exact ⟨ps, by simpa [argPieces] using hps⟩
    | zero =>
      simp only [List.cons_append, argPieces]
      by_cases hc : c = '%'
      · simp only [hc, if_true]
        cases hp : parseEscape (cs ++ " (%2)".toList) with
        | none =>
          obtain ⟨ps, hps⟩ := ih 0 (Nat.zero_le _)
          exact ⟨ArgPiece.text '%' :: ps, by
            show ArgPiece.text '%' :: argPieces 0 (cs ++ " (%2)".toList) = _
            rw [hps]; rfl⟩
        | some r =>
          obtain ⟨n, len⟩ := r
          obtain ⟨ps, hps⟩ := ih len (parseEscape_length cs n len hp)
          exact ⟨ArgPiece.escape n ('%' :: (cs ++ " (%2)".toList).take len) :: ps,
            by
            show ArgPiece.escape n ('%' :: (cs ++ " (%2)".toList).take len) ::
              argPieces len (cs ++ " (%2)".toList) = _
            rw [hps]; rfl⟩
      · simp only [hc, if_false]
        obtain ⟨ps, hps⟩ := ih 0 (Nat.zero_le _)
        exact ⟨ArgPiece.text c :: ps, by
          show ArgPiece.text c :: argPieces 0 (cs ++ " (%2)".toList) = _
          rw [hps]; rfl⟩

/-- The candidate name is the scanned template with one marker filled in. -/
theorem alternativeName_eq_fill (name : QString) :
    ∃ ps m, 0 < escapeCount m (ps ++ suffixPieces) ∧
      ∀ i, alternativeName name i = fillPieces m (number i) (ps ++ suffixPieces) := by
  obtain ⟨ps, hps⟩ := argPieces_suffix name 0 (Nat.zero_le _)
  obtain ⟨m, hm⟩ := minEscape_append_escape ps [ArgPiece.text ')'] 2 ['%', '2']
  refine ⟨ps, m, minEscape_count _ m hm, fun i => ?_⟩
  show arg (arg "%1 (%2)".toList name) (number i) = _
  rw [arg_template]
  unfold arg
  rw [hps]
  show (match minEscape (ps ++ ArgPiece.escape 2 ['%', '2'] :: [ArgPiece.text ')']) with
    | none => _ | some m => _) = _
  rw [hm]

theorem alternativeName_injective (name : QString) :
    Function.Injective (alternativeName name) := by
  obtain ⟨ps, m, hc, h⟩ := alternativeName_eq_fill name
  intro i j hij
  rw [h i, h j] at hij
  exact number_injective (fillPieces_injective m _ hc _ _ hij)

theorem alternativeName_getLast (name : QString) (i : Nat) :
    (alternativeName name i).getLast? = some ')' := by
  obtain ⟨ps, m, _, h⟩ := alternativeName_eq_fill name
  rw [h i, fillPieces_append]
  simp [suffixPieces, fillPieces, fillPiece, List.getLast?_append]

/-! ## Domain names without a percent sign -/

theorem argPieces_plain (name rest : QString) (h : '%' ∉ name) :
    argPieces 0 (name ++ rest) = name.map ArgPiece.text ++ argPieces 0 rest := by
  induction name with
  | nil => rfl
  | cons c cs ih =>
    have hc : c ≠ '%' := fun e => h (by simp [e])
    have hcs : '%' ∉ cs := fun e => h (List.mem_cons_of_mem _ e)
    show argPieces 0 (c :: (cs ++ rest)) = _
    simp only [argPieces, hc, if_false, ih hcs, List.map_cons, List.cons_append]

theorem minEscape_plain (name : QString) (ps : List ArgPiece) :
    minEscape (name.map ArgPiece.text ++ ps) = minEscape ps := by
  induction name with
  | nil => rfl
  | cons c cs ih => simpa [minEscape] using ih

theorem fillPieces_plain (m : Nat) (a name : QString) (ps : List ArgPiece) :
    fillPieces m a (name.map ArgPiece.text ++ ps) = name ++ fillPieces m a ps := by
  induction name with
  | nil => rfl
  | cons c cs ih => simp [fillPieces, fillPiece, ih]

/-- For a domain name without a percent sign the candidate is the name, a
blank and the number in parentheses. -/
theorem alternativeName_plain (name : QString) (h : '%' ∉ name) (i : Nat) :
    alternativeName name i = name ++ " (".toList ++ number i ++ ")".toList := by
  show arg (arg "%1 (%2)".toList name) (number i) = _
  rw [arg_template]
  unfold arg
  rw [argPieces_plain name _ h, minEscape_plain]
  have hp : argPieces 0 " (%2)".toList =
      [ArgPiece.text ' ', ArgPiece.text '(', ArgPiece.escape 2 ['%', '2'],
        ArgPiece.text ')'] := by decide
  rw [hp]
  simp [minEscape, fillPieces_plain, fillPieces, fillPiece]

/-! ## The loop of `selectAlternativeDomainNameFor` -/

theorem selectAlternativeLoop_none (name : QString) (list : List QString) :
    ∀ fuel idx, selectAlternativeLoop name list fuel idx = none →
      ∀ j, idx < j → j ≤ idx + fuel → alternativeName name j ∈ list := by
  intro fuel
  induction fuel with
  | zero => intro idx _ j h1 h2; omega
  | succ f ih =>
    intro idx h j h1 h2
    simp only [selectAlternativeLoop] at h
    by_cases hc : list.contains (alternativeName name (idx + 1)) = true
    · rw [if_pos hc] at h
      by_cases hj : j = idx + 1
      · subst hj; simpa using hc
      · exact ih (idx + 1) h j (by omega) (by omega)
    · rw [if_neg hc] at h
      exact absurd h (by simp)

theorem selectAlternativeLoop_some (name : QString) (list : List QString) :
    ∀ fuel idx r, selectAlternativeLoop name list fuel idx = some r →
      ∃ i, idx < i ∧ i ≤ idx + fuel ∧ r = alternativeName name i ∧
        alternativeName name i ∉ list ∧
        ∀ j, idx < j → j < i → alternativeName name j ∈ list := by
  intro fuel
  induction fuel with
  | zero => intro idx r h; simp [selectAlternativeLoop] at h
  | succ f ih =>
    intro idx r h
    simp only [selectAlternativeLoop] at h
    by_cases hc : list.contains (alternativeName name (idx + 1)) = true
    · rw [if_pos hc] at h
      obtain ⟨i, h1, h2, h3, h4, h5⟩ := ih (idx + 1) r h
      refine ⟨i, by omega, by omega, h3, h4, fun j hj1 hj2 => ?_⟩
      by_cases hj : j = idx + 1
      · subst hj; simpa using hc
      · exact h5 j (by omega) hj2
    · rw [if_neg hc] at h
      simp only [Option.some.injEq] at h
      refine ⟨idx + 1, by omega, by omega, h.symm, by simpa using hc, fun j hj1 hj2 => ?_⟩
      omega

/-- The loop ends: one round more than the list has entries is enough. -/
theorem selectAlternativeLoop_terminates (name : QString) (list : List QString) :
    ∃ r, selectAlternativeLoop name list (list.length + 1) 0 = some r := by
  cases h : selectAlternativeLoop name list (list.length + 1) 0 with
  | some r => exact ⟨r, rfl⟩
  | none =>
    exfalso
    have hall := selectAlternativeLoop_none name list _ _ h
    have hnodup : ((List.range (list.length + 1)).map
        (fun j => alternativeName name (j + 1))).Nodup := by
      apply List.Nodup.map _ (List.nodup_range _)
      intro a b hab
      have := alternativeName_injective name hab
      omega
    have hsub : (List.range (list.length + 1)).map
        (fun j => alternativeName name (j + 1)) ⊆ list := by
      intro x hx
      obtain ⟨j, hj, rfl⟩ := List.mem_map.mp hx
      have hj2 := List.mem_range.mp hj
      exact hall (j + 1) (by omega) (by omega)
    have hlen := (List.subperm_of_subset hnodup hsub).length_le
    simp at hlen

/-- What `selectAlternativeDomainNameFor` returns: the first candidate, counted
from 1, that is not in the list. -/
theorem selectAlternativeDomainNameFor_spec (name : QString) (list : List QString) :
    ∃ i, 1 ≤ i ∧ selectAlternativeDomainNameFor name list = alternativeName name i ∧
      alternativeName name i ∉ list ∧
      ∀ j, 1 ≤ j → j < i → alternativeName name j ∈ list := by
  obtain ⟨r, hr⟩ := selectAlternativeLoop_terminates name list
  obtain ⟨i, h1, _, h3, h4, h5⟩ := selectAlternativeLoop_some name list _ _ r hr
  refine ⟨i, by omega, ?_, h4, fun j hj1 hj2 => h5 j (by omega) hj2⟩
  simp [selectAlternativeDomainNameFor, hr, h3]

/-- For a domain name without a percent sign the result is the name with the
smallest positive number in parentheses that makes it a string not in the list. -/
theorem selectAlternativeDomainNameFor_plain (name : QString) (list : List QString)
    (h : '%' ∉ name) :
    ∃ i, 1 ≤ i ∧
      selectAlternativeDomainNameFor name list =
        name ++ " (".toList ++ number i ++ ")".toList ∧
      name ++ " (".toList ++ number i ++ ")".toList ∉ list ∧
      ∀ j, 1 ≤ j → j < i → name ++ " (".toList ++ number j ++ ")".toList ∈ list := by
  obtain ⟨i, h1, h2, h3, h4⟩ := selectAlternativeDomainNameFor_spec name list
  refine ⟨i, h1, ?_, ?_, fun j hj1 hj2 => ?_⟩
  · rw [h2, alternativeName_plain name h]
  · rw [← alternativeName_plain name h]; exact h3
  · rw [← alternativeName_plain name h]; exact h4 j hj1 hj2

/-! ## Names -/

theorem sameName_refl (a : QString) : sameName a a = true := by simp [sameName]

theorem sameName_comm (a b : QString) : sameName a b = sameName b a := by
  simp only [sameName]
  exact Bool.beq_comm

theorem sameName_congr_left {a b : QString} (h : sameName a b = true) (c : QString) :
    sameName a c = sameName b c := by
  have hf : foldCase a = foldCase b := by simpa [sameName] using h
  simp [sameName, hf]

theorem sameName_congr_right {a b : QString} (h : sameName a b = true) (c : QString) :
    sameName c a = sameName c b := by
  rw [sameName_comm c a, sameName_comm c b]
  exact sameName_congr_left h c

theorem sameName_nil_left (a : QString) : sameName [] a = true ↔ a = [] := by
  cases a <;> simp [sameName, foldCase]

theorem sameName_nil_right (a : QString) : sameName a [] = true ↔ a = [] := by
  rw [sameName_comm]; exact sameName_nil_left a

theorem mem_removeDuplicates (x : QString) (l : List QString) :
    x ∈ removeDuplicates l ↔ x ∈ l := by
  induction l with
  | nil => simp [removeDuplicates]
  | cons y ys ih =>
    simp only [removeDuplicates, List.mem_cons, List.mem_filter, ih]
    by_cases hxy : x = y <;> simp [hxy]

/-! ## The domain store -/

theorem isEmpty_empty : DomainSettings.empty.isEmpty = true := rfl

theorem find_upsert (r : DomainSettings) (n : QString) (ds : List DomainSettings) :
    (upsert r ds).find? (fun d => sameName d.domainName n) =
      if sameName r.domainName n then some r
      else ds.find? (fun d => sameName d.domainName n) := by
  induction ds with
  | nil =>
    simp only [upsert, List.find?]
    cases sameName r.domainName n <;> rfl
  | cons d ds ih =>
    by_cases hdr : sameName d.domainName r.domainName = true
    · have hc := sameName_congr_left hdr n
      by_cases hrn : sameName r.domainName n = true
      · simp [upsert, hdr, hrn, List.find?]
      · have hdn : sameName d.domainName n = false := by
          rw [hc]; simpa using hrn
        simp [upsert, hdr, hrn, List.find?, hdn]
    · by_cases hdn : sameName d.domainName n = true
      · have hrn : sameName r.domainName n = false := by
          cases h : sameName r.domainName n with
          | false => rfl
          | true =>
            exfalso; apply hdr
            rw [sameName_congr_right (a := r.domainName) (b := n) h, hdn]
        simp [upsert, hdr, List.find?, hdn, hrn]
      · simp [upsert, hdr, List.find?, hdn, ih]

namespace DomainSettingsList

theorem atName_congr (l : DomainSettingsList) {m n : QString} (h : sameName m n = true) :
    l.atName m = l.atName n := by
  have : (fun d : DomainSettings => sameName d.domainName m) =
      (fun d : DomainSettings => sameName d.domainName n) := by
    funext d; exact sameName_congr_right h _
  simp only [atName, this]

theorem atName_validAt (l : DomainSettingsList) (n : QString) : ValidAt n (l.atName n) := by
  unfold atName ValidAt
  cases h : l.items.find? (fun d => sameName d.domainName n) with
  | none => exact Or.inl rfl
  | some d =>
    have h2 : sameName d.domainName n = true :=
      @List.find?_some _ (fun d => sameName d.domainName n) d l.items h
    exact Or.inr h2

theorem atName_mem (l : DomainSettingsList) (n : QString) :
    l.atName n = DomainSettings.empty ∨ l.atName n ∈ l.items := by
  unfold atName
  cases h : l.items.find? (fun d => sameName d.domainName n) with
  | none => exact Or.inl rfl
  | some d => exact Or.inr (List.mem_of_find?_eq_some h)

theorem atName_updateWith (l : DomainSettingsList) (r : DomainSettings) (n : QString) :
    (l.updateWith r).atName n = if sameName r.domainName n then r else l.atName n := by
  simp only [atName, updateWith, find_upsert]
  by_cases h : sameName r.domainName n = true <;> simp [h]

theorem atName_remove (l : DomainSettingsList) (m n : QString) :
    (l.remove m).atName n = if sameName m n then DomainSettings.empty else l.atName n := by
  simp only [atName, remove, List.find?_filter]
  by_cases h : sameName m n = true
  · have hnone : l.items.find? (fun a => decide ((!sameName a.domainName m) = true ∧
        sameName a.domainName n = true)) = none := by
      rw [List.find?_eq_none]
      intro x _
      simp only [decide_eq_true_eq, not_and, Bool.not_eq_true', Bool.not_eq_true]
      intro h1
      rw [← sameName_congr_right h x.domainName, h1]
    rw [hnone]
    simp [h]
  · have hfun : (fun a : DomainSettings => decide ((!sameName a.domainName m) = true ∧
        sameName a.domainName n = true)) = (fun a => sameName a.domainName n) := by
      funext a
      by_cases han : sameName a.domainName n = true
      · have : sameName a.domainName m = false := by
          cases hm : sameName a.domainName m with
          | false => rfl
          | true =>
            exfalso; apply h
            rw [← sameName_congr_left hm n, han]
        simp [han, this]
      · simp [han]
    rw [hfun]
    simp [h]

end DomainSettingsList

theorem ValidAt.isEmpty_false {n : QString} {x : DomainSettings} (hx : ValidAt n x)
    (h : x.isEmpty = false) : sameName x.domainName n = true := by
  rcases hx with hx | hx
  · rw [hx, isEmpty_empty] at h; exact absurd h (by simp)
  · exact hx

theorem ValidAt.eq_empty {n : QString} {x : DomainSettings} (hx : ValidAt n x)
    (hn : n ≠ []) (h : x.isEmpty = true) : x = DomainSettings.empty := by
  rcases hx with hx | hx
  · exact hx
  · exfalso
    have hnil : x.domainName = [] := by simpa [DomainSettings.isEmpty] using h
    rw [hnil, sameName_nil_left] at hx
    exact hn hx

/-! ## One round of the merge -/

theorem convertToLegacyPassword_domainName (g : Generator) (d : MainWindowPrivate)
    (ds : DomainSettings) : (convertToLegacyPassword g d ds).domainName = ds.domainName := by
  unfold convertToLegacyPassword
  split <;> [split; skip] <;> rfl

theorem convertToLegacyPassword_modifiedDate (g : Generator) (d : MainWindowPrivate)
    (ds : DomainSettings) :
    (convertToLegacyPassword g d ds).modifiedDate = ds.modifiedDate := by
  unfold convertToLegacyPassword
  split <;> [split; skip] <;> rfl

theorem convertToLegacyPassword_deleted (g : Generator) (d : MainWindowPrivate)
    (ds : DomainSettings) : (convertToLegacyPassword g d ds).deleted = ds.deleted := by
  unfold convertToLegacyPassword
  split <;> [split; skip] <;> rfl

theorem convertToLegacyPassword_congr (g : Generator) (d e : MainWindowPrivate)
    (h : d.masterPassword = e.masterPassword) (ds : DomainSettings) :
    convertToLegacyPassword g d ds = convertToLegacyPassword g e ds := by
  simp only [convertToLegacyPassword, h]

theorem pushedWhenLocalOnly_domainName (g : Generator) (d : MainWindowPrivate)
    (ds : DomainSettings) : (pushedWhenLocalOnly g d ds).domainName = ds.domainName := by
  unfold pushedWhenLocalOnly
  split
  · exact convertToLegacyPassword_domainName g d ds
  · rfl

theorem pushedWhenLocalOnly_modifiedDate (g : Generator) (d : MainWindowPrivate)
    (ds : DomainSettings) : (pushedWhenLocalOnly g d ds).modifiedDate = ds.modifiedDate := by
  unfold pushedWhenLocalOnly
  split
  · exact convertToLegacyPassword_modifiedDate g d ds
  · rfl

theorem pushedWhenLocalOnly_congr (g : Generator) (d e : MainWindowPrivate)
    (h1 : d.doConvertLocalToLegacy = e.doConvertLocalToLegacy)
    (h2 : d.masterPassword = e.masterPassword) (ds : DomainSettings) :
    pushedWhenLocalOnly g d ds = pushedWhenLocalOnly g e ds := by
  simp only [pushedWhenLocalOnly, h1, convertToLegacyPassword_congr g d e h2]

theorem pushedWhenLocalWins_renamed (g : Generator) (d : MainWindowPrivate) (m : QString)
    (ds : DomainSettings) (hf : d.doConvertLocalToLegacy = true) (hd : ds.deleted = false) :
    ∃ i, 1 ≤ i ∧ alternativeName m i ∉ d.domains.keys ∧
      pushedWhenLocalWins g d m ds =
        { convertToLegacyPassword g d ds with domainName := alternativeName m i } := by
  obtain ⟨i, h1, h2, h3, _⟩ := selectAlternativeDomainNameFor_spec m d.domains.keys
  refine ⟨i, h1, h3, ?_⟩
  simp only [pushedWhenLocalWins, hf, hd, and_self, if_true, h2]

theorem pushedWhenLocalWins_same (g : Generator) (d : MainWindowPrivate) (m : QString)
    (ds : DomainSettings) (h : ¬ (d.doConvertLocalToLegacy = true ∧ ds.deleted = false)) :
    pushedWhenLocalWins g d m ds = ds := by
  simp only [pushedWhenLocalWins, h, if_false]

theorem mergeStep_doConvertLocalToLegacy (g : Generator) (d : MainWindowPrivate)
    (m : QString) :
    (mergeStep g d m).doConvertLocalToLegacy = d.doConvertLocalToLegacy := by
  unfold mergeStep
  simp only
  split_ifs <;> rfl

theorem mergeStep_masterPassword (g : Generator) (d : MainWindowPrivate) (m : QString) :
    (mergeStep g d m).masterPassword = d.masterPassword := by
  unfold mergeStep
  simp only
  split_ifs <;> rfl

theorem keyStep_congr (g : Generator) (d e : MainWindowPrivate)
    (h1 : d.doConvertLocalToLegacy = e.doConvertLocalToLegacy)
    (h2 : d.masterPassword = e.masterPassword) (n : QString)
    (p : DomainSettings × DomainSettings) : keyStep g d n p = keyStep g e n p := by
  simp only [keyStep, h1, pushedWhenLocalOnly_congr g d e h1 h2]

theorem ValidAt.sameName_other {m n : QString} {x : DomainSettings} (hx : ValidAt m x)
    (hn : n ≠ []) (hmn : sameName m n = false) : sameName x.domainName n = false := by
  rcases hx with hx | hx
  · cases h : sameName x.domainName n with
    | false => rfl
    | true =>
      rw [hx] at h
      exact absurd ((sameName_nil_left n).mp h) hn
  · rw [sameName_congr_left hx n, hmn]

/-- A round for a name that matches `n` acts on the pair held under `n` as `keyStep` says. -/
theorem mergeStep_pairAt_same (g : Generator) (d : MainWindowPrivate) (m n : QString)
    (hmn : sameName m n = true)
    (hside : d.doConvertLocalToLegacy = false ∨
      ∀ i, sameName (alternativeName m i) n = false) :
    pairAt (mergeStep g d m) n = keyStep g d n (pairAt d n) := by
  have hl := d.domains.atName_congr hmn
  have hr := d.remoteDomains.atName_congr hmn
  have vl := d.domains.atName_validAt n
  have vr := d.remoteDomains.atName_validAt n
  unfold mergeStep keyStep pairAt
  simp only [hl, hr]
  by_cases hA : (d.domains.atName n).isEmpty = false ∧ (d.remoteDomains.atName n).isEmpty = false
  · have hln := vl.isEmpty_false hA.1
    have hrn := vr.isEmpty_false hA.2
    rw [if_pos hA, if_pos hA]
    by_cases h1 : (d.remoteDomains.atName n).modifiedDate > (d.domains.atName n).modifiedDate
    · rw [if_pos h1, if_pos h1]
      simp only [DomainSettingsList.atName_updateWith, hrn, if_true]
    · rw [if_neg h1, if_neg h1]
      by_cases h2 : (d.remoteDomains.atName n).modifiedDate < (d.domains.atName n).modifiedDate
      · rw [if_pos h2, if_pos h2]
        by_cases h3 : d.doConvertLocalToLegacy = true ∧ (d.domains.atName n).deleted = false
        · rw [if_pos h3]
          obtain ⟨i, _, _, hp⟩ := pushedWhenLocalWins_renamed g d m (d.domains.atName n) h3.1 h3.2
          have hsn : sameName (alternativeName m i) n = false := by
            rcases hside with hs | hs
            · rw [h3.1] at hs; exact absurd hs (by simp)
            · exact hs i
          simp only [DomainSettingsList.atName_updateWith, hp, hsn]
          simp
        · rw [if_neg h3, pushedWhenLocalWins_same g d m _ h3]
          simp only [DomainSettingsList.atName_updateWith, hln, if_true]
      · rw [if_neg h2, if_neg h2]
  · rw [if_neg hA, if_neg hA]
    by_cases hB : (d.remoteDomains.atName n).isEmpty = true
    · rw [if_pos hB, if_pos hB]
      by_cases hd : (d.domains.atName n).deleted = false
      · rw [if_pos hd, if_pos hd]
        simp only [DomainSettingsList.atName_updateWith, pushedWhenLocalOnly_domainName]
      · rw [if_neg hd, if_neg hd]
        simp only [DomainSettingsList.atName_remove, hmn, if_true]
    · rw [if_neg hB, if_neg hB]
      have hrn := vr.isEmpty_false (by simpa using hB)
      simp only [DomainSettingsList.atName_updateWith, hrn, if_true]

/-- A round for a name that does not match `n` leaves the pair held under `n` as it is. -/
theorem mergeStep_pairAt_other (g : Generator) (d : MainWindowPrivate) (m n : QString)
    (hn : n ≠ []) (hmn : sameName m n = false)
    (hside : d.doConvertLocalToLegacy = false ∨
      ∀ i, sameName (alternativeName m i) n = false) :
    pairAt (mergeStep g d m) n = pairAt d n := by
  have vl := (d.domains.atName_validAt m).sameName_other hn hmn
  have vr := (d.remoteDomains.atName_validAt m).sameName_other hn hmn
  unfold mergeStep pairAt
  simp only
  split_ifs with hA h1 h2 hB hd
  · simp only [DomainSettingsList.atName_updateWith, vr]
    simp
  · by_cases h3 : d.doConvertLocalToLegacy = true ∧ (d.domains.atName m).deleted = false
    · obtain ⟨i, _, _, hp⟩ := pushedWhenLocalWins_renamed g d m (d.domains.atName m) h3.1 h3.2
      have hsn : sameName (alternativeName m i) n = false := by
        rcases hside with hs | hs
        · rw [h3.1] at hs; exact absurd hs (by simp)
        · exact hs i
      simp only [DomainSettingsList.atName_updateWith, hp, hsn]
      simp
    · rw [pushedWhenLocalWins_same g d m _ h3]
      simp only [DomainSettingsList.atName_updateWith, vl]
      simp
  · rfl
  · simp only [DomainSettingsList.atName_updateWith, pushedWhenLocalOnly_domainName, vl]
    simp
  · simp only [DomainSettingsList.atName_remove, hmn]
    simp
  · simp only [DomainSettingsList.atName_updateWith, vr]
    simp

/-! ## The whole merge, seen from one name -/

theorem sameName_nil_false {n : QString} (hn : n ≠ []) : sameName [] n = false := by
  cases h : sameName [] n with
  | false => rfl
  | true => exact absurd ((sameName_nil_left n).mp h) hn

theorem keyStep_settled (g : Generator) (d : MainWindowPrivate) (n : QString)
    (x y : DomainSettings) (hx : x.isEmpty = false) (hy : y.isEmpty = false)
    (hd : x.modifiedDate = y.modifiedDate) : keyStep g d n (x, y) = (x, y) := by
  simp [keyStep, hx, hy, hd]

theorem keyStep_empty (g : Generator) (d : MainWindowPrivate) (n : QString) (hn : n ≠ []) :
    keyStep g d n (DomainSettings.empty, DomainSettings.empty) =
      (DomainSettings.empty, DomainSettings.empty) := by
  have h0 : sameName DomainSettings.empty.domainName n = false := sameName_nil_false hn
  simp [keyStep, isEmpty_empty, h0]

/-- A second round for the same name changes nothing. -/
theorem keyStep_idem (g : Generator) (d : MainWindowPrivate) (n : QString) (hn : n ≠ [])
    (p : DomainSettings × DomainSettings) (vl : ValidAt n p.1) (vr : ValidAt n p.2) :
    keyStep g d n (keyStep g d n p) = keyStep g d n p := by
  obtain ⟨l, r⟩ := p
  simp only at vl vr
  by_cases hA : l.isEmpty = false ∧ r.isEmpty = false
  · by_cases h1 : r.modifiedDate > l.modifiedDate
    · have e : keyStep g d n (l, r) = (r, r) := by simp [keyStep, hA, h1]
      rw [e]; exact keyStep_settled g d n r r hA.2 hA.2 rfl
    · by_cases h2 : r.modifiedDate < l.modifiedDate
      · by_cases h3 : d.doConvertLocalToLegacy = true ∧ l.deleted = false
        · have e : keyStep g d n (l, r) = (l, r) := by simp [keyStep, hA, h1, h2, h3]
          rw [e, e]
        · have e : keyStep g d n (l, r) = (l, l) := by
            simp only [keyStep, hA, h1, h2, h3, and_self, if_true, if_false]
          rw [e]; exact keyStep_settled g d n l l hA.1 hA.1 rfl
      · have e : keyStep g d n (l, r) = (l, r) := by simp [keyStep, hA, h1, h2]
        rw [e, e]
  · by_cases hB : r.isEmpty = true
    · have hr : r = DomainSettings.empty := vr.eq_empty hn hB
      subst hr
      by_cases hd : l.deleted = false
      · by_cases hl : l.isEmpty = true
        · have hle : l = DomainSettings.empty := vl.eq_empty hn hl
          subst hle
          rw [keyStep_empty g d n hn, keyStep_empty g d n hn]
        · have hl2 : l.isEmpty = false := by simpa using hl
          have hln := vl.isEmpty_false hl2
          have e : keyStep g d n (l, DomainSettings.empty) =
              (l, pushedWhenLocalOnly g d l) := by
            simp [keyStep, hl2, isEmpty_empty, hd, hln]
          rw [e]
          apply keyStep_settled g d n _ _ hl2
          · simp only [DomainSettings.isEmpty, pushedWhenLocalOnly_domainName]
            exact hl2
          · rw [pushedWhenLocalOnly_modifiedDate]
      · have e : keyStep g d n (l, DomainSettings.empty) =
            (DomainSettings.empty, DomainSettings.empty) := by
          simp [keyStep, isEmpty_empty, hd]
        rw [e, keyStep_empty g d n hn]
    · have hr2 : r.isEmpty = false := by simpa using hB
      have hl2 : l.isEmpty = true := by
        cases h : l.isEmpty with
        | true => rfl
        | false => exact absurd ⟨h, hr2⟩ hA
      have e : keyStep g d n (l, r) = (r, r) := by
        simp [keyStep, hl2, hr2]
      rw [e]; exact keyStep_settled g d n r r hr2 hr2 rfl

/-- The pair of records held under the name `n` after the rounds for the names
`names`: one application of `keyStep` if one of the names matches `n`. -/
theorem foldl_mergeStep_pairAt (g : Generator) (n : QString) (hn : n ≠ []) :
    ∀ (names : List QString) (d : MainWindowPrivate),
      (∀ m ∈ names, d.doConvertLocalToLegacy = false ∨
        ∀ i, sameName (alternativeName m i) n = false) →
      pairAt (names.foldl (mergeStep g) d) n =
        if names.any (fun m => sameName m n) = true then keyStep g d n (pairAt d n)
        else pairAt d n := by
  intro names
  induction names with
  | nil => intro d _; simp
  | cons m ms ih =>
    intro d hside
    have hm := hside m (List.mem_cons_self _ _)
    have hflag := mergeStep_doConvertLocalToLegacy g d m
    have hmp := mergeStep_masterPassword g d m
    have hrest : ∀ k ∈ ms, (mergeStep g d m).doConvertLocalToLegacy = false ∨
        ∀ i, sameName (alternativeName k i) n = false := by
      intro k hk
      rw [hflag]
      exact hside k (List.mem_cons_of_mem _ hk)
    rw [List.foldl_cons, ih (mergeStep g d m) hrest, keyStep_congr g _ d hflag hmp]
    by_cases hmn : sameName m n = true
    · rw [mergeStep_pairAt_same g d m n hmn hm]
      have hidem := keyStep_idem g d n hn (pairAt d n)
        (d.domains.atName_validAt n) (d.remoteDomains.atName_validAt n)
      simp only [List.any_cons, hmn, Bool.true_or, if_true, hidem, ite_self]
    · have hmn2 : sameName m n = false := by simpa using hmn
      rw [mergeStep_pairAt_other g d m n hn hmn2 hm]
      simp only [List.any_cons, hmn2, Bool.false_or]

theorem any_allDomainNames_of_mem (d : MainWindowPrivate) (n : QString) (x : DomainSettings)
    (hx : x ∈ d.domains.items ∨ x ∈ d.remoteDomains.items)
    (hn : sameName x.domainName n = true) :
    (allDomainNames d).any (fun m => sameName m n) = true := by
  rw [List.any_eq_true]
  refine ⟨x.domainName, ?_, hn⟩
  rw [allDomainNames, mem_removeDuplicates, List.mem_append]
  rcases hx with hx | hx
  · exact Or.inr (List.mem_map.mpr ⟨x, hx, rfl⟩)
  · exact Or.inl (List.mem_map.mpr ⟨x, hx, rfl⟩)

theorem any_allDomainNames_of_local (d : MainWindowPrivate) (n : QString)
    (h : (d.domains.atName n).isEmpty = false) :
    (allDomainNames d).any (fun m => sameName m n) = true := by
  have hv := (d.domains.atName_validAt n).isEmpty_false h
  rcases d.domains.atName_mem n with he | hm
  · rw [he, isEmpty_empty] at h; exact absurd h (by simp)
  · exact any_allDomainNames_of_mem d n _ (Or.inl hm) hv

theorem any_allDomainNames_of_remote (d : MainWindowPrivate) (n : QString)
    (h : (d.remoteDomains.atName n).isEmpty = false) :
    (allDomainNames d).any (fun m => sameName m n) = true := by
  have hv := (d.remoteDomains.atName_validAt n).isEmpty_false h
  rcases d.remoteDomains.atName_mem n with he | hm
  · rw [he, isEmpty_empty] at h; exact absurd h (by simp)
  · exact any_allDomainNames_of_mem d n _ (Or.inr hm) hv

theorem ValidAt.name_ne_nil {n : QString} {x : DomainSettings} (hx : ValidAt n x)
    (h : x.isEmpty = false) : n ≠ [] := by
  intro hn
  have h1 := hx.isEmpty_false h
  rw [hn, sameName_nil_right] at h1
  simp [DomainSettings.isEmpty, h1] at h

/-- The pair of records held under a name after the merge, when one of the
stores has a record for the name and no renamed record is stored under it. -/
theorem mergeLocalAndRemoteData_pairAt (g : Generator) (d : MainWindowPrivate) (n : QString)
    (hn : n ≠ [])
    (hside : ∀ m ∈ allDomainNames d, d.doConvertLocalToLegacy = false ∨
      ∀ i, sameName (alternativeName m i) n = false)
    (hpres : (allDomainNames d).any (fun m => sameName m n) = true) :
    pairAt (mergeLocalAndRemoteData g d) n = keyStep g d n (pairAt d n) := by
  unfold mergeLocalAndRemoteData
  rw [foldl_mergeStep_pairAt g n hn (allDomainNames d) d hside, if_pos hpres]

/-! ## Disambiguated names end in a closing parenthesis -/

theorem toLower_eq_paren (c : Char) (h : c.toLower = ')') : c = ')' := by
  unfold Char.toLower at h
  simp only at h
  split at h
  · rename_i hr
    exfalso
    have hall : ∀ k, k < 91 → 65 ≤ k → Char.ofNat (k + 32) ≠ ')' := by decide
    exact hall c.toNat (by omega) hr.1 h
  · exact h

theorem sameName_getLast {a b : QString} (h : sameName a b = true)
    (ha : a.getLast? = some ')') : b.getLast? = some ')' := by
  have hf : foldCase a = foldCase b := by simpa [sameName] using h
  have hg := congrArg List.getLast? hf
  simp only [foldCase, List.getLast?_map, ha, Option.map_some'] at hg
  cases hb : b.getLast? with
  | none => rw [hb] at hg; simp at hg
  | some c =>
    rw [hb] at hg
    simp only [Option.map_some', Option.some.injEq] at hg
    have hp : (')' : Char).toLower = ')' := by decide
    rw [hp] at hg
    rw [toLower_eq_paren c hg.symm]

/-- A name that does not end in a closing parenthesis matches no disambiguated name. -/
theorem sameName_alternativeName_false (m n : QString) (i : Nat)
    (h : n.getLast? ≠ some ')') : sameName (alternativeName m i) n = false := by
  cases hs : sameName (alternativeName m i) n with
  | false => rfl
  | true => exact absurd (sameName_getLast hs (alternativeName_getLast m i)) h

/-! ## Facts used for the claims on a flagged KGK mismatch -/

theorem atName_eq_empty_no_match (l : DomainSettingsList) (n : QString) (hn : n ≠ [])
    (h : l.atName n = DomainSettings.empty) :
    ∀ x ∈ l.items, sameName x.domainName n = false := by
  unfold DomainSettingsList.atName at h
  cases hf : l.items.find? (fun d => sameName d.domainName n) with
  | none =>
    intro x hx
    have := List.find?_eq_none.mp hf x hx
    simpa using this
  | some e =>
    exfalso
    rw [hf] at h
    simp only at h
    have h2 : sameName e.domainName n = true :=
      @List.find?_some _ (fun d => sameName d.domainName n) e l.items hf
    rw [h] at h2
    exact hn ((sameName_nil_left n).mp h2)

theorem convertToLegacyPassword_legacyPassword (g : Generator) (d : MainWindowPrivate)
    (ds : DomainSettings) (hmp : d.masterPassword ≠ []) :
    convertToLegacyPassword g d ds =
      if ds.legacyPassword = [] then
        { ds with legacyPassword := g (toUtf8 d.masterPassword) ds }
      else ds := by
  unfold convertToLegacyPassword
  by_cases hl : ds.legacyPassword = []
  · simp [hl, hmp]
  · simp [hl]

theorem convertToLegacyPassword_ne_nil (g : Generator) (d : MainWindowPrivate)
    (ds : DomainSettings) (hmp : d.masterPassword ≠ []) (hgen : ∀ key x, g key x ≠ []) :
    (convertToLegacyPassword g d ds).legacyPassword ≠ [] := by
  rw [convertToLegacyPassword_legacyPassword g d ds hmp]
  by_cases hl : ds.legacyPassword = []
  · simp [hl, hgen]
  · simp [hl]

theorem foldl_mergeStep_doConvertLocalToLegacy (g : Generator) :
    ∀ (names : List QString) (d : MainWindowPrivate),
      (names.foldl (mergeStep g) d).doConvertLocalToLegacy = d.doConvertLocalToLegacy := by
  intro names
  induction names with
  | nil => intro d; rfl
  | cons m ms ih =>
    intro d
    rw [List.foldl_cons, ih, mergeStep_doConvertLocalToLegacy]

theorem foldl_mergeStep_masterPassword (g : Generator) :
    ∀ (names : List QString) (d : MainWindowPrivate),
      (names.foldl (mergeStep g) d).masterPassword = d.masterPassword := by
  intro names
  induction names with
  | nil => intro d; rfl
  | cons m ms ih =>
    intro d
    rw [List.foldl_cons, ih, mergeStep_masterPassword]

/-- With the KGK mismatch flagged, a round for a name that does not match `c`
leaves a non-empty legacy password under `c` non-empty. -/
theorem mergeStep_legacy_kept (g : Generator) (d : MainWindowPrivate) (m c : QString)
    (hflag : d.doConvertLocalToLegacy = true) (hmp : d.masterPassword ≠ [])
    (hgen : ∀ key x, g key x ≠ []) (hmc : sameName m c = false)
    (h : (d.remoteDomains.atName c).legacyPassword ≠ []) :
    ((mergeStep g d m).remoteDomains.atName c).legacyPassword ≠ [] := by
  have vl := d.domains.atName_validAt m
  unfold mergeStep
  simp only
  split_ifs with hA h1 h2 hB hd
  · exact h
  · by_cases h3 : d.doConvertLocalToLegacy = true ∧ (d.domains.atName m).deleted = false
    · obtain ⟨i, _, _, hp⟩ := pushedWhenLocalWins_renamed g d m (d.domains.atName m) h3.1 h3.2
      simp only [DomainSettingsList.atName_updateWith, hp]
      split
      · exact convertToLegacyPassword_ne_nil g d _ hmp hgen
      · exact h
    · rw [pushedWhenLocalWins_same g d m _ h3]
      have hn : sameName (d.domains.atName m).domainName c = false := by
        rw [sameName_congr_left (vl.isEmpty_false hA.1) c, hmc]
      simp only [DomainSettingsList.atName_updateWith, hn]
      simpa using h
  · exact h
  · simp only [DomainSettingsList.atName_updateWith, pushedWhenLocalOnly, hflag, if_true]
    split
    · exact convertToLegacyPassword_ne_nil g d _ hmp hgen
    · exact h
  · exact h
  · exact h

theorem foldl_mergeStep_legacy_kept (g : Generator) (c : QString)
    (hgen : ∀ key x, g key x ≠ []) :
    ∀ (names : List QString) (d : MainWindowPrivate),
      d.doConvertLocalToLegacy = true → d.masterPassword ≠ [] →
      (∀ m ∈ names, sameName m c = false) →
      (d.remoteDomains.atName c).legacyPassword ≠ [] →
      ((names.foldl (mergeStep g) d).remoteDomains.atName c).legacyPassword ≠ [] := by
  intro names
  induction names with
  | nil => intro d _ _ _ h; exact h
  | cons m ms ih =>
    intro d hflag hmp hnames h
    rw [List.foldl_cons]
    apply ih
    · rw [mergeStep_doConvertLocalToLegacy]; exact hflag
    · rw [mergeStep_masterPassword]; exact hmp
    · intro k hk; exact hnames k (List.mem_cons_of_mem _ hk)
    · exact mergeStep_legacy_kept g d m c hflag hmp hgen
        (hnames m (List.mem_cons_self _ _)) h

/-- With the KGK mismatch flagged, the round for a name whose local record is
newer and not deleted pushes the frozen copy under a disambiguated name. -/
theorem mergeStep_pushes_renamed (g : Generator) (d : MainWindowPrivate) (n : QString)
    (l r : DomainSettings) (hp : pairAt d n = (l, r))
    (hflag : d.doConvertLocalToLegacy = true)
    (hl : l.isEmpty = false) (hr : r.isEmpty = false) (hdel : l.deleted = false)
    (hdate : r.modifiedDate < l.modifiedDate) :
    ∃ i, 1 ≤ i ∧ (mergeStep g d n).remoteDomains.atName (alternativeName n i) =
      { convertToLegacyPassword g d l with domainName := alternativeName n i } := by
  have h1 : d.domains.atName n = l := congrArg Prod.fst hp
  have h2 : d.remoteDomains.atName n = r := congrArg Prod.snd hp
  obtain ⟨i, hi, _, hpush⟩ := pushedWhenLocalWins_renamed g d n l hflag hdel
  refine ⟨i, hi, ?_⟩
  have hnot : ¬ r.modifiedDate > l.modifiedDate := not_lt.mpr (le_of_lt hdate)
  unfold mergeStep
  simp only [h1, h2, hl, hr, and_self, if_true, hnot, if_false, hdate, hpush,
    DomainSettingsList.atName_updateWith, sameName_refl]

/-! ## Where tombstone propagation and adoption of remote records hold -/

/-- Tombstone propagation where it holds: take a domain name whose local record
is a tombstone and for which the remote store has no record, and let no KGK
mismatch be flagged or no disambiguated form of a name of the stores match the
name. After the merge neither the local nor the remote store holds a record
under that name. -/
theorem mergeLocalAndRemoteData_drops_tombstone (g : Generator) (d : MainWindowPrivate)
    (n : QString)
    (hside : d.doConvertLocalToLegacy = false ∨
      ∀ m ∈ allDomainNames d, ∀ i, sameName (alternativeName m i) n = false)
    (hl : (d.domains.atName n).isEmpty = false)
    (hdel : (d.domains.atName n).deleted = true)
    (hr : (d.remoteDomains.atName n).isEmpty = true) :
    (∀ x ∈ (mergeLocalAndRemoteData g d).domains.items, sameName x.domainName n = false) ∧
    (∀ x ∈ (mergeLocalAndRemoteData g d).remoteDomains.items,
      sameName x.domainName n = false) := by
  have hn := (d.domains.atName_validAt n).name_ne_nil hl
  have hre := (d.remoteDomains.atName_validAt n).eq_empty hn hr
  have hp := mergeLocalAndRemoteData_pairAt g d n hn
    (fun m hm => hside.imp id (fun h => h m hm)) (any_allDomainNames_of_local d n hl)
  have hks : keyStep g d n (pairAt d n) = (DomainSettings.empty, DomainSettings.empty) := by
    simp [keyStep, pairAt, hl, hdel, hre, isEmpty_empty]
  rw [hks] at hp
  exact ⟨atName_eq_empty_no_match _ n hn (congrArg Prod.fst hp),
    atName_eq_empty_no_match _ n hn (congrArg Prod.snd hp)⟩

/-- A worked instance with the KGK mismatch flagged: the tombstone
`gone.example` is dropped while the frozen copy of `x` is pushed as `x (1)`. -/
theorem mergeLocalAndRemoteData_drops_tombstone_instance :
    sampleTombstone.doConvertLocalToLegacy = true ∧
    (sampleTombstone.domains.atName "gone.example".toList).deleted = true ∧
    ((∀ x ∈ (mergeLocalAndRemoteData sampleGenerate sampleTombstone).domains.items,
      sameName x.domainName "gone.example".toList = false) ∧
    (∀ x ∈ (mergeLocalAndRemoteData sampleGenerate sampleTombstone).remoteDomains.items,
      sameName x.domainName "gone.example".toList = false)) :=
  ⟨by decide, by decide,
    mergeLocalAndRemoteData_drops_tombstone sampleGenerate sampleTombstone
      "gone.example".toList
      (Or.inr (fun m _ i => sameName_alternativeName_false m _ i (by decide)))
      (by decide) (by decide) (by decide)⟩

/-- Adoption of a remote record where it holds: take a domain name for which
only the remote store has a record, and let no KGK mismatch be flagged or no
disambiguated form of a name of the stores match the name. After the merge the
local store holds the remote record under that name and the remote store
holds it as before. -/
theorem mergeLocalAndRemoteData_adopts_remote (g : Generator) (d : MainWindowPrivate)
    (n : QString)
    (hside : d.doConvertLocalToLegacy = false ∨
      ∀ m ∈ allDomainNames d, ∀ i, sameName (alternativeName m i) n = false)
    (hl : (d.domains.atName n).isEmpty = true)
    (hr : (d.remoteDomains.atName n).isEmpty = false) :
    (mergeLocalAndRemoteData g d).domains.atName n = d.remoteDomains.atName n ∧
    (mergeLocalAndRemoteData g d).remoteDomains.atName n = d.remoteDomains.atName n := by
  have hn := (d.remoteDomains.atName_validAt n).name_ne_nil hr
  have hp := mergeLocalAndRemoteData_pairAt g d n hn
    (fun m hm => hside.imp id (fun h => h m hm)) (any_allDomainNames_of_remote d n hr)
  have hks : keyStep g d n (pairAt d n) =
      (d.remoteDomains.atName n, d.remoteDomains.atName n) := by
    simp [keyStep, pairAt, hl, hr]
  rw [hks] at hp
  exact ⟨congrArg Prod.fst hp, congrArg Prod.snd hp⟩

/-- The case-sensitive test of the disambiguated name, at work on a record
that is not deleted: the local record `X (1)` has no remote counterpart, and
yet after the merge the frozen copy of `x`, pushed as `x (1)`, has replaced it
in both stores. -/
theorem localRecord_replaced_by_case_variant :
    (sampleRecordVariant.domains.atName "X (1)".toList).isEmpty = false ∧
    (sampleRecordVariant.domains.atName "X (1)".toList).deleted = false ∧
    (sampleRecordVariant.remoteDomains.atName "X (1)".toList).isEmpty = true ∧
    (mergeLocalAndRemoteData sampleGenerate sampleRecordVariant).domains.atName
      "X (1)".toList ≠ sampleRecordVariant.domains.atName "X (1)".toList ∧
    ((mergeLocalAndRemoteData sampleGenerate sampleRecordVariant).remoteDomains.atName
      "X (1)".toList).domainName = "x (1)".toList := by
  decide

/-! ## Keys, salts and the persisted entries -/

/-- The call `d->kgk()` changes the KGK and the count of random draws only. -/
theorem kgk_fst (env : Collaborators) (w : MainWindow) :
    (kgk env w).1 =
      { w with d := { w.d with KGK := (kgk env w).2 }, entropy := (kgk env w).1.entropy } := by
  unfold kgk
  split
  · rfl
  · next h =>
    cases w with
    | mk d c o f fw sp ec b e =>
      cases d
      simp

/-- The encoder call records its arguments and changes, besides that, what
`d->kgk()` changes. -/
theorem encodeWithCredentials_fst (env : Collaborators) (w : MainWindow) (payload : QByteArray) :
    (encodeWithCredentials env w payload).1 =
      { w with
        d := { w.d with KGK := (kgk env w).2 },
        entropy := (kgk env w).1.entropy,
        encodeCalls :=
          { key := w.d.masterKey, IV := w.d.IV, salt := w.d.salt, KGK := (kgk env w).2,
            payload := payload } :: w.encodeCalls } := by
  unfold encodeWithCredentials
  simp only []
  rw [kgk_fst]

/-- The ciphertext of the encoder call. -/
theorem encodeWithCredentials_snd (env : Collaborators) (w : MainWindow) (payload : QByteArray) :
    (encodeWithCredentials env w payload).2 =
      env.encode w.d.masterKey w.d.IV w.d.salt (kgk env w).2 payload := by
  unfold encodeWithCredentials
  simp only []
  rw [kgk_fst]

/-- With invalid credentials `saveAllDomainDataToSettings` changes nothing and
calls no encoder. -/
theorem saveAllDomainDataToSettings_invalid (env : Collaborators) (w : MainWindow)
    (h : validCredentials w = false) : saveAllDomainDataToSettings env w = w := by
  unfold saveAllDomainDataToSettings
  split
  · rfl
  · simp [h]

/-- With invalid credentials `saveSyncDataToSettings` calls no encoder and
stores the empty ciphertext as `sync/param`. -/
theorem saveSyncDataToSettings_invalid (env : Collaborators) (w : MainWindow)
    (h : validCredentials w = false) :
    saveSyncDataToSettings env w =
      { w with d := { w.d with settings := { w.d.settings with syncParam := [] } } } := by
  simp [saveSyncDataToSettings, h]

/-- A save that stores a ciphertext while no master password change is in
progress: the window afterwards. -/
theorem saveAllDomainDataToSettings_stored (env : Collaborators) (w : MainWindow)
    (cipher : QByteArray) (hstep : w.d.masterPasswordChangeStep = 0)
    (hvalid : validCredentials w = true)
    (henc : (encodeWithCredentials env w (env.toJson w.d.domains.items)).2 = some cipher)
    (hc : cipher ≠ []) :
    saveAllDomainDataToSettings env w =
      generateSaltKeyIV env
        (if w.optionsDialog.writeBackups then
          writeBackupFile
            { (encodeWithCredentials env w (env.toJson w.d.domains.items)).1 with
              d := { (encodeWithCredentials env w (env.toJson w.d.domains.items)).1.d with
                settings := { w.d.settings with syncDomains := cipher } } }
        else
          { (encodeWithCredentials env w (env.toJson w.d.domains.items)).1 with
            d := { (encodeWithCredentials env w (env.toJson w.d.domains.items)).1.d with
              settings := { w.d.settings with syncDomains := cipher } } }) := by
  have hkey : w.d.masterKey.isEmpty = false := by
    simp only [validCredentials, Bool.and_eq_true, Bool.not_eq_true'] at hvalid
    exact hvalid.1
  have hce : cipher.isEmpty = false := by
    cases cipher with
    | nil => exact absurd rfl hc
    | cons _ _ => rfl
  unfold saveAllDomainDataToSettings
  rw [if_neg (by simp [hkey]), if_pos hvalid, henc]
  simp only [hce, Bool.false_eq_true, if_false]
  rw [encodeWithCredentials_fst]
  simp [hstep]

/-- Generating salt, key and IV leaves the record of encoder calls alone. -/
theorem generateSaltKeyIV_encodeCalls (env : Collaborators) (w : MainWindow) :
    (generateSaltKeyIV env w).encodeCalls = w.encodeCalls := by
  unfold generateSaltKeyIV generateSaltKeyIVThread
  split <;> rfl

/-- With valid credentials `saveAllDomainDataToSettings` calls the encoder
once, with the salt held at that time. -/
theorem saveAllDomainDataToSettings_salts (env : Collaborators) (w : MainWindow)
    (hvalid : validCredentials w = true) :
    (saveAllDomainDataToSettings env w).encodeCalls.map EncodeCall.salt =
      w.d.salt :: w.encodeCalls.map EncodeCall.salt := by
  have hkey : w.d.masterKey.isEmpty = false := by
    simp only [validCredentials, Bool.and_eq_true, Bool.not_eq_true'] at hvalid
    exact hvalid.1
  unfold saveAllDomainDataToSettings
  rw [if_neg (by simp [hkey]), if_pos hvalid]
  cases henc : (encodeWithCredentials env w (env.toJson w.d.domains.items)).2 with
  | none => simp only [encodeWithCredentials_fst, List.map_cons]
  | some cipher =>
    simp only [encodeWithCredentials_fst]
    by_cases hc : cipher.isEmpty = true
    · simp only [hc, if_true, List.map_cons]
    · simp only [hc, Bool.false_eq_true, if_false]
      split
      · rw [generateSaltKeyIV_encodeCalls]
        split
        · rfl
        · rfl
      · rfl

/-- Generating salt, key and IV with a master password: the new salt is the
next draw, key and IV are derived from the master password and that salt. -/
theorem generateSaltKeyIV_spec (env : Collaborators) (w : MainWindow)
    (hmp : w.d.masterPassword ≠ []) :
    generateSaltKeyIV env w =
      { w with
        d := { w.d with
          salt := env.generateSalt w.entropy,
          masterKey :=
            (env.makeKeyAndIVFromPassword (toUtf8 w.d.masterPassword)
              (env.generateSalt w.entropy)).1,
          IV :=
            (env.makeKeyAndIVFromPassword (toUtf8 w.d.masterPassword)
              (env.generateSalt w.entropy)).2 },
        entropy := w.entropy + 1 } := by
  have h : w.d.masterPassword.isEmpty = false := by
    cases hm : w.d.masterPassword with
    | nil => exact absurd hm hmp
    | cons _ _ => rfl
  unfold generateSaltKeyIV generateSaltKeyIVThread
  rw [if_neg (by simp [h])]

/-! ## What the merge and the decoding block leave alone -/

/-- One round of the merge changes the two stores only. -/
theorem mergeStep_frame (g : Generator) (d : MainWindowPrivate) (m : QString) :
    ∃ a b, mergeStep g d m = { d with domains := a, remoteDomains := b } := by
  unfold mergeStep
  simp only
  split_ifs
  all_goals first
    | exact ⟨_, d.remoteDomains, rfl⟩
    | exact ⟨d.domains, _, rfl⟩

theorem foldl_mergeStep_frame (g : Generator) :
    ∀ (names : List QString) (d : MainWindowPrivate),
      ∃ a b, names.foldl (mergeStep g) d = { d with domains := a, remoteDomains := b } := by
  intro names
  induction names with
  | nil => intro d; exact ⟨d.domains, d.remoteDomains, rfl⟩
  | cons m ms ih =>
    intro d
    obtain ⟨a, b, h⟩ := mergeStep_frame g d m
    rw [List.foldl_cons, h]
    obtain ⟨a1, b1, h1⟩ := ih { d with domains := a, remoteDomains := b }
    exact ⟨a1, b1, h1⟩

/-- The merge changes the two stores only. -/
theorem mergeLocalAndRemoteData_frame (g : Generator) (d : MainWindowPrivate) :
    mergeLocalAndRemoteData g d =
      { d with domains := (mergeLocalAndRemoteData g d).domains,
               remoteDomains := (mergeLocalAndRemoteData g d).remoteDomains } := by
  obtain ⟨a, b, h⟩ := foldl_mergeStep_frame g (allDomainNames d) d
  unfold mergeLocalAndRemoteData
  rw [h]

/-- A decryption failure, with the current master password and, during a master
password change, with the new password too: the decoding block gives up, and
only the flag has been reset. -/
theorem syncWithDecode_aborted (decode : Decoder) (d : MainWindowPrivate) (enc : QByteArray)
    (hne : enc ≠ [])
    (h1 : decode (toUtf8 d.masterPassword) enc = none)
    (h2 : d.masterPasswordChangeStep ≠ 0 → decode (toUtf8 d.newPassword) enc = none) :
    syncWithDecode decode d enc = Decoding.aborted { d with doConvertLocalToLegacy := false } := by
  have he : enc.isEmpty = false := by
    cases enc with
    | nil => exact absurd rfl hne
    | cons _ _ => rfl
  unfold syncWithDecode
  simp only [he, Bool.false_eq_true, if_false, h1]
  by_cases hs : d.masterPasswordChangeStep = 0
  · simp [hs]
  · simp [hs, h2 hs]

/-- A payload that the current master password opens: the decoding block
replaces a differing KGK and raises the flag when the local store has records. -/
theorem syncWithDecode_decoded (decode : Decoder) (d : MainWindowPrivate)
    (enc baDomains K : QByteArray) (hne : enc ≠ [])
    (hdec : decode (toUtf8 d.masterPassword) enc = some (baDomains, K)) :
    syncWithDecode decode d enc =
      Decoding.decoded
        { d with
          doConvertLocalToLegacy := decide (d.KGK ≠ K) && !d.domains.isEmpty,
          KGK := K } baDomains := by
  have he : enc.isEmpty = false := by
    cases enc with
    | nil => exact absurd rfl hne
    | cons _ _ => rfl
  unfold syncWithDecode
  simp only [he, Bool.false_eq_true, if_false, hdec]
  by_cases hk : d.KGK = K
  · simp [hk]
  · simp [hk]

/-- The decoding block changes the flag and the KGK only. -/
theorem syncWithDecode_frame (decode : Decoder) (d : MainWindowPrivate) (enc : QByteArray) :
    (∃ f k, syncWithDecode decode d enc =
      Decoding.aborted { d with doConvertLocalToLegacy := f, KGK := k }) ∨
    (∃ f k ba, syncWithDecode decode d enc =
      Decoding.decoded { d with doConvertLocalToLegacy := f, KGK := k } ba) := by
  unfold syncWithDecode
  simp only
  by_cases he : enc.isEmpty = true
  · rw [if_pos he]
    exact Or.inr ⟨false, d.KGK, [], rfl⟩
  · rw [if_neg he]
    cases h1 : decode (toUtf8 d.masterPassword) enc with
    | some p =>
      obtain ⟨ba, K⟩ := p
      simp only
      by_cases hk : d.KGK ≠ K
      · rw [if_pos hk]
        exact Or.inr ⟨_, _, _, rfl⟩
      · rw [if_neg hk]
        exact Or.inr ⟨false, d.KGK, _, rfl⟩
    | none =>
      simp only
      by_cases hs : d.masterPasswordChangeStep = 0
      · rw [if_pos hs]
        exact Or.inl ⟨false, d.KGK, rfl⟩
      · rw [if_neg hs]
        cases h2 : decode (toUtf8 d.newPassword) enc with
        | some p =>
          obtain ⟨ba, K⟩ := p
          simp only
          by_cases hk : d.KGK ≠ K ∧ d.domains.isEmpty = false
          · rw [if_pos hk]
            exact Or.inr ⟨_, _, _, rfl⟩
          · rw [if_neg hk]
            exact Or.inr ⟨false, d.KGK, _, rfl⟩
        | none => exact Or.inl ⟨false, d.KGK, rfl⟩

/-- Up to the merge, `syncWith` changes the two stores, the flag and the KGK
only. -/
theorem syncWithUntilMerged_frame (decode : Decoder) (fromJson : JsonReader) (g : Generator)
    (d : MainWindowPrivate) (enc : QByteArray) :
    ∃ a b f k, syncWithUntilMerged decode fromJson g d enc =
      { d with domains := a, remoteDomains := b, doConvertLocalToLegacy := f, KGK := k } := by
  unfold syncWithUntilMerged
  rcases syncWithDecode_frame decode d enc with ⟨f, k, h⟩ | ⟨f, k, ba, h⟩
  · rw [h]
    exact ⟨d.domains, d.remoteDomains, f, k, rfl⟩
  · rw [h]
    simp only
    rw [mergeLocalAndRemoteData_frame]
    exact ⟨_, _, f, k, rfl⟩

/-- The merged window has the key, the IV, the salt, the settings and the master
password of the window before. -/
theorem mergedWindow_frame (env : Collaborators) (w : MainWindow) (enc : QByteArray) :
    ∃ a b f k, mergedWindow env w enc =
      { w with d := { w.d with domains := a, remoteDomains := b,
                               doConvertLocalToLegacy := f, KGK := k } } := by
  obtain ⟨a, b, f, k, h⟩ := syncWithUntilMerged_frame env.decode env.fromJson env.generate w.d enc
  exact ⟨a, b, f, k, by unfold mergedWindow; rw [h]⟩

/-- Saving the store to the settings touches neither the stores nor the peers. -/
theorem saveAllDomainDataToSettings_frame (env : Collaborators) (w : MainWindow) :
    ∃ k key iv salt settings calls backups entropy,
      saveAllDomainDataToSettings env w =
        { w with
          d := { w.d with KGK := k, masterKey := key, IV := iv, salt := salt,
                          settings := settings },
          encodeCalls := calls, backups := backups, entropy := entropy } := by
  have hid : ∃ k key iv salt settings calls backups entropy,
      w = { w with
          d := { w.d with KGK := k, masterKey := key, IV := iv, salt := salt,
                          settings := settings },
          encodeCalls := calls, backups := backups, entropy := entropy } :=
    ⟨_, _, _, _, _, _, _, _, rfl⟩
  unfold saveAllDomainDataToSettings
  split
  · exact hid
  · split
    · cases henc : (encodeWithCredentials env w (env.toJson w.d.domains.items)).2 with
      | none =>
        simp only [encodeWithCredentials_fst]
        exact ⟨_, _, _, _, _, _, _, _, rfl⟩
      | some cipher =>
        simp only [encodeWithCredentials_fst]
        split
        · exact ⟨_, _, _, _, _, _, _, _, rfl⟩
        · split
          · unfold generateSaltKeyIV generateSaltKeyIVThread writeBackupFile
            split <;> split <;> exact ⟨_, _, _, _, _, _, _, _, rfl⟩
          · exact ⟨_, _, _, _, _, _, _, _, rfl⟩
    · exact hid

/-- Restoring the store from the settings touches the local store, the KGK and
the combo box only. -/
theorem restoreDomainDataFromSettings_frame (env : Collaborators) (w : MainWindow) :
    ∃ a k items,
      (restoreDomainDataFromSettings env w).1 =
        { w with d := { w.d with domains := a, KGK := k }, domainsComboBox := items } := by
  unfold restoreDomainDataFromSettings makeDomainComboBox
  simp only
  split
  · exact ⟨_, w.d.KGK, _, rfl⟩
  · split
    · exact ⟨w.d.domains, w.d.KGK, w.domainsComboBox, rfl⟩
    · exact ⟨_, _, _, rfl⟩

/-! ## Writing the remote store to the peers -/

/-- With valid credentials the ciphertext of the remote store is what the
encoder returns for its JSON text, the empty ciphertext when the encoder throws. -/
theorem cryptedRemoteDomains_valid (env : Collaborators) (w : MainWindow)
    (hvalid : validCredentials w = true) :
    (cryptedRemoteDomains env w).2 =
      (env.encode w.d.masterKey w.d.IV w.d.salt (kgk env w).2
        (env.toJson w.d.remoteDomains.items)).getD [] := by
  unfold cryptedRemoteDomains
  rw [if_pos hvalid, encodeWithCredentials_snd]

/-- Encoding the remote store touches neither the stores nor the peers. -/
theorem cryptedRemoteDomains_frame (env : Collaborators) (w : MainWindow) :
    ∃ k calls entropy,
      (cryptedRemoteDomains env w).1 =
        { w with d := { w.d with KGK := k }, encodeCalls := calls, entropy := entropy } := by
  unfold cryptedRemoteDomains
  split
  · simp only [encodeWithCredentials_fst]
    exact ⟨_, _, _, rfl⟩
  · exact ⟨w.d.KGK, w.encodeCalls, w.entropy, rfl⟩

/-- What `writeToRemote` sends when the ciphertext of the remote store is not
empty: the ciphertext goes to the sync file if `syncPeer` has the flag of the
file, file sync is enabled and the file can be written, and to the sync server
if `syncPeer` has the flag of the server and server sync is enabled. -/
theorem writeToRemote_sent (env : Collaborators) (w : MainWindow) (syncPeer : SyncPeer)
    (cipher : QByteArray) (hcipher : (cryptedRemoteDomains env w).2 = cipher)
    (hc : cipher ≠ []) :
    (writeToRemote env w syncPeer).fileWrites =
      (if (syncPeer &&& SyncPeerFile) = SyncPeerFile ∧ w.optionsDialog.syncToFileEnabled = true ∧
          w.syncFile.writable = true
        then cipher :: w.fileWrites else w.fileWrites) ∧
    (writeToRemote env w syncPeer).serverPosts =
      (if (syncPeer &&& SyncPeerServer) = SyncPeerServer ∧
          w.optionsDialog.syncToServerEnabled = true
        then cipher :: w.serverPosts else w.serverPosts) := by
  have hce : cipher.isEmpty = false := by
    cases cipher with
    | nil => exact absurd rfl hc
    | cons _ _ => rfl
  obtain ⟨k, calls, entropy, hw⟩ := cryptedRemoteDomains_frame env w
  unfold writeToRemote
  simp only [hcipher, hce, Bool.false_eq_true, if_false]
  rw [hw]
  unfold writeToSyncFile sendToSyncServer
  simp only
  by_cases hf : (syncPeer &&& SyncPeerFile) = SyncPeerFile <;>
  by_cases hs : (syncPeer &&& SyncPeerServer) = SyncPeerServer <;>
  cases hfe : w.optionsDialog.syncToFileEnabled <;>
  cases hse : w.optionsDialog.syncToServerEnabled <;>
  cases hwr : w.syncFile.writable <;>
  simp [hf, hs, hfe, hse, hwr]

/-- After the merge, `syncWith` sends to the peers what `writeToRemote` sends:
saving and restoring the local store sends nothing. -/
theorem syncWithAfterMerge_sent (env : Collaborators) (w : MainWindow) (syncPeer : SyncPeer) :
    (syncWithAfterMerge env w syncPeer).fileWrites =
      (if w.d.remoteDomains.dirty then writeToRemote env w syncPeer else w).fileWrites ∧
    (syncWithAfterMerge env w syncPeer).serverPosts =
      (if w.d.remoteDomains.dirty then writeToRemote env w syncPeer else w).serverPosts := by
  unfold syncWithAfterMerge
  simp only
  generalize (if w.d.remoteDomains.dirty = true then writeToRemote env w syncPeer else w) = w1
  by_cases hd : w1.d.domains.dirty = true
  · obtain ⟨k, key, iv, salt, settings, calls, backups, entropy, hs⟩ :=
      saveAllDomainDataToSettings_frame env w1
    obtain ⟨a, k1, items, hr⟩ :=
      restoreDomainDataFromSettings_frame env (saveAllDomainDataToSettings env w1)
    rw [if_pos hd, hr, hs]
    exact ⟨rfl, rfl⟩
  · rw [if_neg hd]
    exact ⟨rfl, rfl⟩

/-! ## The combo box and saving a record -/

/-- Sorting keeps the names. -/
theorem any_sortCaseInsensitive (names : List QString) (p : QString → Bool) :
    (sortCaseInsensitive names).any p = names.any p := by
  have hperm : (sortCaseInsensitive names).Perm names :=
    List.perm_insertionSort _ names
  rw [Bool.eq_iff_iff, List.any_eq_true, List.any_eq_true]
  constructor
  · rintro ⟨x, hx, hp⟩
    exact ⟨x, hperm.mem_iff.mp hx, hp⟩
  · rintro ⟨x, hx, hp⟩
    exact ⟨x, hperm.mem_iff.mpr hx, hp⟩

/-- The combo box that `makeDomainComboBox` builds holds a name, compared
without regard to case, exactly if a record of the store that is not deleted
has it. -/
theorem makeDomainComboBox_any (w : MainWindow) (n : QString) :
    (makeDomainComboBox w).domainsComboBox.any (fun m => sameName m n) =
      w.d.domains.items.any (fun x => !x.deleted && sameName x.domainName n) := by
  unfold makeDomainComboBox
  simp only
  rw [any_sortCaseInsensitive, Bool.eq_iff_iff]
  simp only [List.any_eq_true, List.mem_map, List.mem_filter, Bool.and_eq_true]
  constructor
  · rintro ⟨m, ⟨x, ⟨hx, hd⟩, rfl⟩, hm⟩
    exact ⟨x, hx, hd, hm⟩
  · rintro ⟨x, hx, hd, hm⟩
    exact ⟨x.domainName, ⟨x, ⟨hx, hd⟩, rfl⟩, hm⟩

/-- The record that `saveDomainSettings` stores is found under its name; its
dates follow from whether the combo box holds the name. -/
theorem saveDomainSettings_atName (env : Collaborators) (now : Int) (w : MainWindow)
    (ds : DomainSettings) :
    (saveDomainSettings env now w ds).d.domains.atName ds.domainName =
      if w.domainsComboBox.any (fun n => sameName n ds.domainName) then
        { ds with modifiedDate := now }
      else { ds with createdDate := now, modifiedDate := 0 } := by
  unfold saveDomainSettings
  simp only
  generalize hds1 : (if w.domainsComboBox.any (fun n => sameName n ds.domainName) = true then
      ({ ds with modifiedDate := now } : DomainSettings)
    else { ds with createdDate := now, modifiedDate := 0 }) = ds1
  have hname : ds1.domainName = ds.domainName := by
    rw [← hds1]
    split <;> rfl
  generalize hw1 : { w with d := { w.d with domains := w.d.domains.updateWith ds1 } } = w1
  have hdom : w1.d.domains = w.d.domains.updateWith ds1 := by rw [← hw1]
  obtain ⟨k, key, iv, salt, settings, calls, backups, entropy, hs⟩ :=
    saveAllDomainDataToSettings_frame env (makeDomainComboBox w1)
  rw [hs]
  unfold makeDomainComboBox
  simp only
  rw [hdom, DomainSettingsList.atName_updateWith, hname, sameName_refl]
  rfl

/-! ## The search in the combo box returns -/

/-- The index in the middle lies within one half of the sum, whichever way the
division rounds. -/
theorem tdiv_two_bounds (x : Int) : x - 1 ≤ 2 * Int.tdiv x 2 ∧ 2 * Int.tdiv x 2 ≤ x + 1 := by
  by_cases h : 0 ≤ x
  · rw [Int.tdiv_eq_ediv h (by decide)]
    omega
  · have hx : x = -(-x) := by omega
    rw [hx, Int.neg_tdiv, Int.tdiv_eq_ediv (by omega) (by decide)]
    omega

/-- The recursion of `findDomainInComboBox` returns within as many calls as the
range from `lo` to `hi` has indices, and one more. -/
theorem findDomainInComboBoxWithin_isSome (items : List QString) (domain : QString) :
    ∀ (fuel : Nat) (lo hi : Int), (hi - lo + 1).toNat < fuel →
      (findDomainInComboBoxWithin items domain fuel lo hi).isSome = true := by
  intro fuel
  induction fuel with
  | zero => intro lo hi h; omega
  | succ fuel ih =>
    intro lo hi h
    unfold findDomainInComboBoxWithin
    by_cases hlt : hi < lo
    · rw [if_pos hlt]; rfl
    · rw [if_neg hlt]
      have hb := tdiv_two_bounds (lo + hi)
      simp only
      split
      · exact ih _ _ (by omega)
      · split
        · exact ih _ _ (by omega)
        · rfl

/-- The function `findDomainInComboBox(domain, lo, hi)` returns what its
recursion returns: the bound on the number of calls is never used up. -/
theorem findDomainInComboBoxIn_spec (items : List QString) (domain : QString) (lo hi : Int) :
    findDomainInComboBoxWithin items domain ((hi - lo + 1).toNat + 1) lo hi =
      some (findDomainInComboBoxIn items domain lo hi) := by
  have h := findDomainInComboBoxWithin_isSome items domain ((hi - lo + 1).toNat + 1) lo hi
    (Nat.lt_succ_self _)
  unfold findDomainInComboBoxIn
  cases hr : findDomainInComboBoxWithin items domain ((hi - lo + 1).toNat + 1) lo hi with
  | none => rw [hr] at h; exact absurd h (by decide)
  | some i => rfl

/-! ## The loop of `selectAlternativeDomainNameFor(domainName)` ends -/

theorem digitChar_toLower : ∀ n, n < 10 → (Nat.digitChar n).toLower = Nat.digitChar n := by
  decide

theorem foldCase_digitsRev (fuel n : Nat) : foldCase (digitsRev fuel n) = digitsRev fuel n := by
  induction fuel generalizing n with
  | zero => rfl
  | succ f ih =>
    unfold digitsRev
    split
    · rename_i h
      simp [foldCase, digitChar_toLower n h]
    · have h10 : n % 10 < 10 := Nat.mod_lt _ (by decide)
      have := ih (n / 10)
      simp only [foldCase] at this
      simp [foldCase, digitChar_toLower _ h10, this]

/-- Decimal numbers have no letters. -/
theorem foldCase_number (n : Nat) : foldCase (number n) = number n := by
  have h := foldCase_digitsRev (n + 1) n
  unfold number
  simp only [foldCase] at h ⊢
  rw [List.map_reverse, h]

theorem foldCase_fillPieces (m : Nat) (a : QString) (ps : List ArgPiece) :
    foldCase (fillPieces m a ps) = fillPieces m (foldCase a) (ps.map foldPiece) := by
  induction ps with
  | nil => rfl
  | cons p ps ih =>
    simp only [fillPieces, List.map_cons]
    rw [← ih]
    cases p with
    | text c => simp [foldCase, fillPiece, foldPiece]
    | escape n raw =>
      by_cases hn : n = m <;> simp [foldCase, fillPiece, foldPiece, hn]

theorem escapeCount_foldPiece (m : Nat) (ps : List ArgPiece) :
    escapeCount m (ps.map foldPiece) = escapeCount m ps := by
  induction ps with
  | nil => rfl
  | cons p ps ih =>
    cases p with
    | text c => simpa [escapeCount, foldPiece] using ih
    | escape n raw => simp [escapeCount, foldPiece, ih]

/-- Two candidates with different numbers differ, also without regard to case. -/
theorem foldCase_alternativeName_injective (name : QString) (i j : Nat)
    (h : foldCase (alternativeName name i) = foldCase (alternativeName name j)) : i = j := by
  obtain ⟨ps, m, hc, hfill⟩ := alternativeName_eq_fill name
  rw [hfill i, hfill j, foldCase_fillPieces, foldCase_fillPieces, foldCase_number,
    foldCase_number] at h
  exact number_injective
    (fillPieces_injective m _ (by rw [escapeCount_foldPiece]; exact hc) _ _ h)

theorem compareFolded_eq_zero : ∀ a b : List Char, compareFolded a b = 0 → a = b := by
  intro a
  induction a with
  | nil =>
    intro b h
    cases b with
    | nil => rfl
    | cons _ _ => simp [compareFolded] at h
  | cons x xs ih =>
    intro b h
    cases b with
    | nil => simp [compareFolded] at h
    | cons y ys =>
      unfold compareFolded at h
      split at h
      · exact absurd h (by decide)
      · split at h
        · exact absurd h (by decide)
        · have hxy : x = y := by
            apply Char.ext
            apply UInt32.ext
            rename_i h1 h2
            have : x.toNat = y.toNat := by omega
            exact this
          rw [hxy, ih ys h]

/-- Texts that compare as equal are the same name. -/
theorem sameName_of_compare (a b : QString) (h : compare a b = 0) : sameName a b = true := by
  unfold compare at h
  have := compareFolded_eq_zero _ _ h
  simp [sameName, this]

/-- An index that the recursion of `findDomainInComboBox` returns lies in the
range searched, and the text there is the domain up to case. -/
theorem findDomainInComboBoxWithin_found (items : List QString) (domain : QString) :
    ∀ (fuel : Nat) (lo hi i : Int),
      findDomainInComboBoxWithin items domain fuel lo hi = some i → i ≠ NotFound →
      lo ≤ i ∧ i ≤ hi ∧ compare (itemText items i) domain = 0 := by
  intro fuel
  induction fuel with
  | zero => intro lo hi i h; simp [findDomainInComboBoxWithin] at h
  | succ fuel ih =>
    intro lo hi i h hne
    unfold findDomainInComboBoxWithin at h
    by_cases hlt : hi < lo
    · rw [if_pos hlt] at h
      simp only [Option.some.injEq] at h
      exact absurd h.symm hne
    · rw [if_neg hlt] at h
      have hb := tdiv_two_bounds (lo + hi)
      simp only at h
      split at h
      · obtain ⟨h1, h2, h3⟩ := ih _ _ _ h hne
        exact ⟨h1, by omega, h3⟩
      · split at h
        · obtain ⟨h1, h2, h3⟩ := ih _ _ _ h hne
          exact ⟨by omega, h2, h3⟩
        · simp only [Option.some.injEq] at h
          subst h
          exact ⟨by omega, by omega, by omega⟩

/-- A domain that is found in the combo box and is not empty is, up to case, one
of the texts of the combo box. -/
theorem findDomainInComboBox_found (items : List QString) (domain : QString)
    (hd : domain ≠ []) (h : findDomainInComboBox items domain ≠ NotFound) :
    ∃ x ∈ items, sameName x domain = true := by
  unfold findDomainInComboBox at h
  have hspec := findDomainInComboBoxIn_spec items domain 0 items.length
  obtain ⟨h1, h2, h3⟩ := findDomainInComboBoxWithin_found items domain _ _ _ _ hspec h
  generalize findDomainInComboBoxIn items domain 0 items.length = i at h1 h2 h3
  have hs := sameName_of_compare _ _ h3
  unfold itemText at hs
  rw [if_neg (by omega)] at hs
  by_cases hi : i.toNat < items.length
  · refine ⟨items.getD i.toNat [], ?_, hs⟩
    rw [List.getD_eq_getElem _ _ hi]
    exact List.getElem_mem hi
  · exfalso
    rw [List.getD_eq_default _ _ (by omega)] at hs
    have : foldCase domain = [] := by
      have := hs
      simp only [sameName, foldCase, List.map_nil, beq_iff_eq] at this
      exact this.symm
    cases domain with
    | nil => exact hd rfl
    | cons _ _ => simp [foldCase] at this

theorem selectAlternativeInComboBox_none (items : List QString) (domainName : QString) :
    ∀ (fuel idx : Nat) (cur : QString),
      selectAlternativeInComboBox items domainName fuel idx cur = none →
      (0 < fuel → findDomainInComboBox items cur ≠ NotFound) ∧
      ∀ j, idx < j → j < idx + fuel →
        findDomainInComboBox items (alternativeName domainName j) ≠ NotFound := by
  intro fuel
  induction fuel with
  | zero => intro idx cur _; exact ⟨fun h => absurd h (by decide), fun j h1 h2 => by omega⟩
  | succ f ih =>
    intro idx cur h
    unfold selectAlternativeInComboBox at h
    by_cases hc : findDomainInComboBox items cur ≠ NotFound
    · rw [if_pos hc] at h
      obtain ⟨h1, h2⟩ := ih (idx + 1) _ h
      refine ⟨fun _ => hc, fun j hj1 hj2 => ?_⟩
      by_cases hj : j = idx + 1
      · subst hj
        exact h1 (by omega)
      · exact h2 j (by omega) (by omega)
    · rw [if_neg hc] at h
      exact absurd h (by simp)

theorem selectAlternativeInComboBox_some (items : List QString) (domainName : QString) :
    ∀ (fuel idx : Nat) (cur r : QString),
      selectAlternativeInComboBox items domainName fuel idx cur = some r →
      findDomainInComboBox items r = NotFound ∧
      (r = cur ∨ ∃ i, idx < i ∧ r = alternativeName domainName i) := by
  intro fuel
  induction fuel with
  | zero => intro idx cur r h; simp [selectAlternativeInComboBox] at h
  | succ f ih =>
    intro idx cur r h
    unfold selectAlternativeInComboBox at h
    by_cases hc : findDomainInComboBox items cur ≠ NotFound
    · rw [if_pos hc] at h
      obtain ⟨h1, h2⟩ := ih (idx + 1) _ r h
      refine ⟨h1, Or.inr ?_⟩
      rcases h2 with h2 | ⟨i, hi, h2⟩
      · exact ⟨idx + 1, by omega, h2⟩
      · exact ⟨i, by omega, h2⟩
    · rw [if_neg hc] at h
      simp only [Option.some.injEq] at h
      subst h
      exact ⟨by simpa using hc, Or.inl rfl⟩

theorem alternativeName_ne_nil (name : QString) (i : Nat) : alternativeName name i ≠ [] := by
  intro h
  have := alternativeName_getLast name i
  rw [h] at this
  simp at this

/-- The loop of `selectAlternativeDomainNameFor(domainName)` ends within two
rounds more than the combo box has texts: it returns the domain name or one of
the candidates `alternativeName domainName i`, and what it returns is not found
in the combo box. -/
theorem selectAlternativeDomainNameFor_comboBox_returns (w : MainWindow)
    (domainName : QString) :
    ∃ r, w.selectAlternativeDomainNameFor domainName = some r ∧
      findDomainInComboBox w.domainsComboBox r = NotFound ∧
      (r = domainName ∨ ∃ i, 0 < i ∧ r = alternativeName domainName i) := by
  unfold MainWindow.selectAlternativeDomainNameFor
  cases h : selectAlternativeInComboBox w.domainsComboBox domainName
      (w.domainsComboBox.length + 2) 0 domainName with
  | some r =>
    exact ⟨r, rfl, selectAlternativeInComboBox_some _ _ _ _ _ _ h⟩
  | none =>
    exfalso
    have hall := (selectAlternativeInComboBox_none _ _ _ _ _ h).2
    have hnodup : ((List.range (w.domainsComboBox.length + 1)).map
        (fun j => foldCase (alternativeName domainName (j + 1)))).Nodup := by
      apply List.Nodup.map _ (List.nodup_range _)
      intro a b hab
      have := foldCase_alternativeName_injective domainName _ _ hab
      omega
    have hsub : (List.range (w.domainsComboBox.length + 1)).map
        (fun j => foldCase (alternativeName domainName (j + 1))) ⊆
          w.domainsComboBox.map foldCase := by
      intro x hx
      obtain ⟨j, hj, rfl⟩ := List.mem_map.mp hx
      have hj2 := List.mem_range.mp hj
      obtain ⟨y, hy, hs⟩ := findDomainInComboBox_found w.domainsComboBox _
        (alternativeName_ne_nil domainName (j + 1)) (hall (j + 1) (by omega) (by omega))
      have hf : foldCase y = foldCase (alternativeName domainName (j + 1)) := by
        simpa [sameName] using hs
      rw [← hf]
      exact List.mem_map_of_mem _ hy
    have hlen := (List.subperm_of_subset hnodup hsub).length_le
    simp at hlen

/-- The import loop returns for every list of source records. -/
theorem importDomains_returns :
    ∀ (readerDomains : List DomainSettings) (w : MainWindow) (renamed : List (QString × QString)),
      ∃ r, importDomains w renamed readerDomains = some r := by
  intro readerDomains
  induction readerDomains with
  | nil => intro w renamed; exact ⟨_, rfl⟩
  | cons ds rest ih =>
    intro w renamed
    obtain ⟨n, hn, _⟩ := selectAlternativeDomainNameFor_comboBox_returns w ds.domainName
    unfold importDomains
    rw [hn]
    exact ih _ _

/-! ## Entering the master password and restoring -/

/-- Restoring the sync settings touches the KGK and the options dialog only. -/
theorem restoreSyncSettings_frame (env : Collaborators) (w : MainWindow) :
    ∃ k o, (restoreSyncSettings env w).1 =
      { w with d := { w.d with KGK := k }, optionsDialog := o } := by
  unfold restoreSyncSettings
  simp only
  split
  · exact ⟨w.d.KGK, w.optionsDialog, rfl⟩
  · split
    · exact ⟨w.d.KGK, w.optionsDialog, rfl⟩
    · exact ⟨_, _, rfl⟩

/-- A persisted store that the master password does not open: nothing is
restored and the window stays as it is. -/
theorem restoreDomainDataFromSettings_rejected (env : Collaborators) (w : MainWindow)
    (hne : w.d.settings.syncDomains ≠ [])
    (hdec : env.decode (toUtf8 w.d.masterPassword) w.d.settings.syncDomains = none) :
    restoreDomainDataFromSettings env w = (w, false) := by
  have he : w.d.settings.syncDomains.isEmpty = false := by
    cases h : w.d.settings.syncDomains with
    | nil => exact absurd h hne
    | cons _ _ => rfl
  unfold restoreDomainDataFromSettings
  simp only [he, Bool.false_eq_true, if_false, hdec]

/-! ## The combo box shows the records that are not deleted -/

/-- The combo box that `makeDomainComboBox` builds is a rearrangement of the
names of the records that are not deleted. -/
theorem makeDomainComboBox_perm (w : MainWindow) :
    (makeDomainComboBox w).domainsComboBox.Perm
      ((w.d.domains.items.filter (fun ds => !ds.deleted)).map (fun ds => ds.domainName)) := by
  unfold makeDomainComboBox sortCaseInsensitive
  exact List.perm_insertionSort _ _

/-- A name is in the combo box exactly if a record that is not deleted has it. -/
theorem mem_makeDomainComboBox (w : MainWindow) (n : QString) :
    n ∈ (makeDomainComboBox w).domainsComboBox ↔
      ∃ x ∈ w.d.domains.items, x.deleted = false ∧ x.domainName = n := by
  rw [(makeDomainComboBox_perm w).mem_iff]
  simp only [List.mem_map, List.mem_filter, Bool.not_eq_true']
  constructor
  · rintro ⟨x, ⟨hx, hd⟩, rfl⟩
    exact ⟨x, hx, hd, rfl⟩
  · rintro ⟨x, hx, hd, rfl⟩
    exact ⟨x, ⟨hx, hd⟩, rfl⟩

/-! ## Legacy passwords -/

/-- A record with a legacy password is exported without a call of the password
generator. -/
theorem DomainSettingsToTextConverter_calls (generate : Generator)
    (expired : DomainSettings → Bool) (groupHierarchy : DomainSettings → QString)
    (kgk : QByteArray) (ds : DomainSettings) (hl : ds.legacyPassword ≠ []) :
    (DomainSettingsToTextConverter generate expired groupHierarchy kgk ds).2 = [] := by
  have he : ds.legacyPassword.isEmpty = false := by
    cases h : ds.legacyPassword with
    | nil => exact absurd h hl
    | cons _ _ => rfl
  unfold DomainSettingsToTextConverter
  simp only [he, Bool.false_eq_true, if_false]
  split <;> rfl

/-- While the legacy password field holds text, `updatePassword` starts no
generation. -/
theorem updatePassword_legacy (w : MainWindow) (legacyPasswordLineEdit : QString)
    (ds : DomainSettings) (hl : legacyPasswordLineEdit ≠ []) :
    updatePassword w legacyPasswordLineEdit ds = none := by
  have he : legacyPasswordLineEdit.isEmpty = false := by
    cases legacyPasswordLineEdit with
    | nil => exact absurd rfl hl
    | cons _ _ => rfl
  unfold updatePassword
  simp [he]

theorem arg_exportTemplate (name : QString) :
    arg "[%1]\npwd = %2\n".toList name = '[' :: (name ++ "]\npwd = %2\n".toList) := rfl

/-- The head of the exported text for a domain name without a percent sign. -/
theorem arg_exportTemplate_plain (name pwd : QString) (h : '%' ∉ name) :
    arg (arg "[%1]\npwd = %2\n".toList name) pwd =
      '[' :: (name ++ "]\npwd = ".toList ++ pwd ++ "\n".toList) := by
  rw [arg_exportTemplate]
  unfold arg
  have h1 : argPieces 0 ('[' :: (name ++ "]\npwd = %2\n".toList)) =
      ArgPiece.text '[' :: argPieces 0 (name ++ "]\npwd = %2\n".toList) := by
    simp [argPieces]
  rw [h1, argPieces_plain name _ h]
  have hp : argPieces 0 "]\npwd = %2\n".toList =
      "]\npwd = ".toList.map ArgPiece.text ++
        [ArgPiece.escape 2 ['%', '2'], ArgPiece.text (Char.ofNat 10)] := by decide
  rw [hp]
  have hm : minEscape (ArgPiece.text '[' :: (name.map ArgPiece.text ++
      ("]\npwd = ".toList.map ArgPiece.text ++
        [ArgPiece.escape 2 ['%', '2'], ArgPiece.text (Char.ofNat 10)]))) = some 2 := by
    simp only [minEscape]
    rw [minEscape_plain, minEscape_plain]
    rfl
  rw [hm]
  simp only [fillPieces, fillPiece]
  rw [fillPieces_plain, fillPieces_plain]
  simp [fillPieces, fillPiece]

/-- For a record that is neither deleted nor expired, with a legacy password and
a domain name without a percent sign, the exported text begins with the domain
name in brackets and the line `pwd = ` with the legacy password. -/
theorem DomainSettingsToTextConverter_plain (generate : Generator)
    (expired : DomainSettings → Bool) (groupHierarchy : DomainSettings → QString)
    (kgk : QByteArray) (ds : DomainSettings) (hd : ds.deleted = false)
    (hx : expired ds = false) (hl : ds.legacyPassword ≠ []) (hp : '%' ∉ ds.domainName) :
    ∃ rest, (DomainSettingsToTextConverter generate expired groupHierarchy kgk ds).1 =
      toUtf8 ('[' :: (ds.domainName ++ "]\npwd = ".toList ++ ds.legacyPassword ++ "\n".toList))
        ++ rest := by
  have he : ds.legacyPassword.isEmpty = false := by
    cases h : ds.legacyPassword with
    | nil => exact absurd h hl
    | cons _ _ => rfl
  unfold DomainSettingsToTextConverter
  simp only [hd, hx, he, Bool.not_false, Bool.and_self, Bool.false_eq_true, if_true, if_false]
  rw [arg_exportTemplate_plain _ _ hp]
  split <;> split <;> split <;> split <;>
    first
      | exact ⟨[], (List.append_nil _).symm⟩
      | exact ⟨_, by simp only [List.append_assoc]; rfl⟩

/-! ## The two decode paths of `syncWith` -/

/-- The fallback decode during a master password change: the current master
password does not open the payload, the new password does. -/
theorem syncWithDecode_fallback (decode : Decoder) (d : MainWindowPrivate)
    (enc baDomains K : QByteArray) (hne : enc ≠ [])
    (hstep : d.masterPasswordChangeStep ≠ 0)
    (h1 : decode (toUtf8 d.masterPassword) enc = none)
    (h2 : decode (toUtf8 d.newPassword) enc = some (baDomains, K)) :
    syncWithDecode decode d enc =
      Decoding.decoded
        (if d.KGK ≠ K ∧ d.domains.isEmpty = false then
          { d with doConvertLocalToLegacy := true, KGK := K }
        else { d with doConvertLocalToLegacy := false }) baDomains := by
  have he : enc.isEmpty = false := by
    cases enc with
    | nil => exact absurd rfl hne
    | cons _ _ => rfl
  unfold syncWithDecode
  simp only [he, Bool.false_eq_true, if_false, h1, hstep, h2]
  split <;> rfl

/-- The two decode paths agree when the local store has records or the KGK of
the payload is the held one: the fallback decode leaves the flag and the held
KGK as the normal decode leaves them. -/
theorem syncWithDecode_paths_agree (decode decode2 : Decoder) (d : MainWindowPrivate)
    (enc baDomains K : QByteArray) (hne : enc ≠ [])
    (hstep : d.masterPasswordChangeStep ≠ 0)
    (hagree : d.domains.isEmpty = false ∨ d.KGK = K)
    (hnormal : decode (toUtf8 d.masterPassword) enc = some (baDomains, K))
    (h1 : decode2 (toUtf8 d.masterPassword) enc = none)
    (h2 : decode2 (toUtf8 d.newPassword) enc = some (baDomains, K)) :
    syncWithDecode decode2 d enc = syncWithDecode decode d enc := by
  rw [syncWithDecode_fallback decode2 d enc baDomains K hne hstep h1 h2,
    syncWithDecode_decoded decode d enc baDomains K hne hnormal]
  by_cases hk : d.KGK = K
  · simp [hk]
  · rcases hagree with hl | hl
    · simp [hk, hl]
    · exact absurd hl hk

/-! ## The KGK at the first start and the key of the persisted store -/

/-- The key generation leaves the persisted entries, the master password and
the held KGK as they are. -/
theorem generateSaltKeyIV_keeps (env : Collaborators) (w : MainWindow) :
    (generateSaltKeyIV env w).d.settings = w.d.settings ∧
    (generateSaltKeyIV env w).d.masterPassword = w.d.masterPassword ∧
    (generateSaltKeyIV env w).d.KGK = w.d.KGK := by
  unfold generateSaltKeyIV generateSaltKeyIVThread
  split
  · exact ⟨rfl, rfl, rfl⟩
  · exact ⟨rfl, rfl, rfl⟩

/-- The function `changeMasterPassword` without a sync peer: the persisted
entries afterwards are the ones that `saveAllDomainDataToSettings` wrote while
the old master password and the key derived from it were still held; the
master password afterwards is the new one. -/
theorem changeMasterPassword_settings (env : Collaborators) (w : MainWindow)
    (hserver : w.optionsDialog.syncToServerEnabled = false)
    (hfile : w.optionsDialog.syncToFileEnabled = false) :
    (changeMasterPassword env w true w.d.masterPassword).1.d.settings =
      (saveAllDomainDataToSettings env w).d.settings ∧
    (changeMasterPassword env w true w.d.masterPassword).1.d.masterPassword =
      w.d.newPassword ∧
    (changeMasterPassword env w true w.d.masterPassword).2 = false := by
  unfold changeMasterPassword
  simp only [and_self, if_true, hserver, hfile, Bool.or_self, Bool.false_eq_true, if_false]
  exact ⟨(generateSaltKeyIV_keeps env _).1, (generateSaltKeyIV_keeps env _).2.1, trivial⟩

/-- The function `updatePassword` with a master password and an empty legacy
password field starts a generation with the field `d->KGK` as it is, empty or
not. -/
theorem updatePassword_KGK (w : MainWindow) (ds : DomainSettings)
    (hmp : w.d.masterPassword ≠ []) : updatePassword w [] ds = some (w.d.KGK, ds) := by
  have h : w.d.masterPassword.isEmpty = false := by
    cases hm : w.d.masterPassword with
    | nil => exact absurd hm hmp
    | cons _ _ => rfl
  simp [updatePassword, h]

/-- With neither `sync/param` nor `sync/domains` persisted,
`onMasterPasswordEntered` succeeds and leaves the held KGK as it is. -/
theorem onMasterPasswordEntered_first_start (env : Collaborators) (w : MainWindow)
    (masterPwd : QString) (repeatedPasswordEntry : Bool)
    (hparam : w.d.settings.syncParam = []) (hdomains : w.d.settings.syncDomains = []) :
    (onMasterPasswordEntered env w masterPwd repeatedPasswordEntry).ok = true ∧
    (onMasterPasswordEntered env w masterPwd repeatedPasswordEntry).window.d.KGK = w.d.KGK := by
  unfold onMasterPasswordEntered
  by_cases hp : masterPwd.isEmpty = true
  · rw [if_pos hp]; exact ⟨rfl, rfl⟩
  · rw [if_neg hp]
    have h1 : restoreSettings env { w with d := { w.d with masterPassword := masterPwd } } =
        ({ w with d := { w.d with masterPassword := masterPwd } }, true) := by
      simp [restoreSettings, restoreSyncSettings, hparam]
    have h2 : (restoreDomainDataFromSettings env
        { w with d := { w.d with masterPassword := masterPwd } }).2 = true := by
      simp [restoreDomainDataFromSettings, hdomains]
    have h3 : (restoreDomainDataFromSettings env
        { w with d := { w.d with masterPassword := masterPwd } }).1.d.KGK = w.d.KGK := by
      simp [restoreDomainDataFromSettings, hdomains, makeDomainComboBox]
    simp only [h1, h2, if_true]
    exact ⟨trivial, ((generateSaltKeyIV_keeps env _).2.2).trans h3⟩

/-! ## The order of `compare` -/

theorem compareFolded_refl (a : List Char) : compareFolded a a = 0 := by
  induction a with
  | nil => rfl
  | cons x xs ih => simp [compareFolded, ih]

theorem compareFolded_swap : ∀ a b : List Char, compareFolded b a = -compareFolded a b := by
  intro a
  induction a with
  | nil =>
    intro b
    cases b <;> rfl
  | cons x xs ih =>
    intro b
    cases b with
    | nil => rfl
    | cons y ys =>
      simp only [compareFolded]
      by_cases h1 : x.toNat < y.toNat
      · have h2 : ¬ y.toNat < x.toNat := by omega
        simp [h1, h2]
      · by_cases h2 : y.toNat < x.toNat
        · simp [h1, h2]
        · simp [h1, h2, ih ys]

theorem compareFolded_trans : ∀ a b c : List Char,
    compareFolded a b ≤ 0 → compareFolded b c ≤ 0 →
    compareFolded a c ≤ 0 ∧
      (compareFolded a b < 0 ∨ compareFolded b c < 0 → compareFolded a c < 0) := by
  intro a
  induction a with
  | nil =>
    intro b c h1 h2
    cases c with
    | nil =>
      cases b with
      | nil => simp [compareFolded]
      | cons y ys => simp [compareFolded] at h2
    | cons z zs => simp [compareFolded]
  | cons x xs ih =>
    intro b c h1 h2
    cases b with
    | nil => simp [compareFolded] at h1
    | cons y ys =>
      cases c with
      | nil => simp [compareFolded] at h2
      | cons z zs =>
        simp only [compareFolded] at h1 h2 ⊢
        by_cases hxy : x.toNat < y.toNat
        · simp only [hxy, if_true] at h1 ⊢
          by_cases hyz : y.toNat < z.toNat
          · have hxz : x.toNat < z.toNat := by omega
            simp [hxz]
          · by_cases hzy : z.toNat < y.toNat
            · simp [hyz, hzy] at h2
            · have hxz : x.toNat < z.toNat := by omega
              simp [hxz]
        · by_cases hyx : y.toNat < x.toNat
          · simp [hxy, hyx] at h1
          · simp only [hxy, hyx, if_false] at h1 ⊢
            by_cases hyz : y.toNat < z.toNat
            · have hxz : x.toNat < z.toNat := by omega
              simp [hxz]
            · by_cases hzy : z.toNat < y.toNat
              · simp [hyz, hzy] at h2
              · simp only [hyz, hzy, if_false] at h2 ⊢
                have hxz : ¬ x.toNat < z.toNat := by omega
                have hzx : ¬ z.toNat < x.toNat := by omega
                simp only [hxz, hzx, if_false]
                exact ih ys zs h1 h2

theorem compare_refl (a : QString) : compare a a = 0 := compareFolded_refl _

theorem compare_swap (a b : QString) : compare b a = -compare a b := compareFolded_swap _ _

theorem compare_trans (a b c : QString) (h1 : compare a b ≤ 0) (h2 : compare b c ≤ 0) :
    compare a c ≤ 0 ∧ (compare a b < 0 ∨ compare b c < 0 → compare a c < 0) :=
  compareFolded_trans _ _ _ h1 h2

/-- The comparison reports equality exactly for the same name. -/
theorem compare_eq_zero_iff (a b : QString) : compare a b = 0 ↔ sameName a b = true := by
  constructor
  · exact sameName_of_compare a b
  · intro h
    have hf : foldCase a = foldCase b := by simpa [sameName] using h
    unfold compare
    rw [hf]
    exact compareFolded_refl _

/-- The empty text comes before every other text. -/
theorem compare_nil_lt (domain : QString) (hd : domain ≠ []) : compare [] domain < 0 := by
  cases domain with
  | nil => exact absurd rfl hd
  | cons c cs => simp [compare, foldCase, compareFolded]

/-- The combo box that `makeDomainComboBox` builds is sorted. -/
theorem makeDomainComboBox_sorted (w : MainWindow) :
    (makeDomainComboBox w).domainsComboBox.Pairwise (fun a b => compare a b ≤ 0) := by
  unfold makeDomainComboBox sortCaseInsensitive
  have htotal : IsTotal QString (fun a b => compare a b ≤ 0) :=
    ⟨fun a b => by
      have := compare_swap a b
      omega⟩
  have htrans : IsTrans QString (fun a b => compare a b ≤ 0) :=
    ⟨fun a b c h1 h2 => (compare_trans a b c h1 h2).1⟩
  exact @List.sorted_insertionSort _ (fun a b => compare a b ≤ 0) _ htotal htrans _

/-! ## The binary search in a sorted combo box -/

theorem sorted_getD (items : List QString)
    (hsorted : items.Pairwise (fun a b => compare a b ≤ 0)) (i j : Nat) (hij : i ≤ j)
    (hj : j < items.length) : compare (items.getD i []) (items.getD j []) ≤ 0 := by
  rcases Nat.lt_or_eq_of_le hij with h | h
  · rw [List.getD_eq_getElem _ _ (by omega : i < items.length), List.getD_eq_getElem _ _ hj]
    exact List.pairwise_iff_getElem.mp hsorted i j (by omega) hj h
  · rw [h, compare_refl]

/-- In a sorted combo box the recursion of `findDomainInComboBox` returns
`NotFound` only if no text is the domain up to case, provided every such text
lies in the range searched. -/
theorem findDomainInComboBoxWithin_notFound (items : List QString) (domain : QString)
    (hsorted : items.Pairwise (fun a b => compare a b ≤ 0)) :
    ∀ (fuel : Nat) (lo hi : Int), 0 ≤ lo → hi ≤ items.length →
      (∀ j : Nat, j < items.length → compare (items.getD j []) domain = 0 →
        lo ≤ j ∧ (j : Int) ≤ hi) →
      findDomainInComboBoxWithin items domain fuel lo hi = some NotFound →
      ∀ j : Nat, j < items.length → compare (items.getD j []) domain ≠ 0 := by
  intro fuel
  induction fuel with
  | zero => intro lo hi _ _ _ h; simp [findDomainInComboBoxWithin] at h
  | succ fuel ih =>
    intro lo hi hlo hhi hinv h j hj hm
    unfold findDomainInComboBoxWithin at h
    by_cases hlt : hi < lo
    · have := hinv j hj hm
      omega
    · rw [if_neg hlt] at h
      have hdiv : Int.tdiv (lo + hi) 2 = (lo + hi) / 2 :=
        Int.tdiv_eq_ediv (by omega) (by decide)
      simp only [hdiv] at h
      have hidx0 : 0 ≤ (lo + hi) / 2 := by omega
      have hitem : itemText items ((lo + hi) / 2) = items.getD ((lo + hi) / 2).toNat [] := by
        unfold itemText
        rw [if_neg (by omega)]
      rw [hitem] at h
      split at h
      · rename_i hc
        refine ih lo ((lo + hi) / 2 - 1) hlo (by omega) ?_ h j hj hm
        intro k hk hkm
        have hr := hinv k hk hkm
        refine ⟨hr.1, ?_⟩
        by_contra hcon
        have hle : ((lo + hi) / 2).toNat ≤ k := by omega
        have h1 := sorted_getD items hsorted _ k hle hk
        have h2 := (compare_trans _ _ _ h1 (le_of_eq hkm)).1
        omega
      · split at h
        · rename_i hc1 hc
          refine ih ((lo + hi) / 2 + 1) hi (by omega) hhi ?_ h j hj hm
          intro k hk hkm
          have hr := hinv k hk hkm
          refine ⟨?_, hr.2⟩
          by_contra hcon
          have hle : k ≤ ((lo + hi) / 2).toNat := by omega
          by_cases hin : ((lo + hi) / 2).toNat < items.length
          · have h1 := sorted_getD items hsorted k _ hle hin
            have h0 : compare domain (items.getD k []) ≤ 0 := by
              have := compare_swap (items.getD k []) domain
              omega
            have h2 := (compare_trans _ _ _ h0 h1).1
            have h3 := compare_swap domain (items.getD ((lo + hi) / 2).toNat [])
            omega
          · omega
        · simp only [Option.some.injEq] at h
          unfold NotFound at h
          omega

/-- In a sorted combo box, for a domain that is not empty: what
`findDomainInComboBox` returns. -/
theorem findDomainInComboBox_sorted (items : List QString) (domain : QString)
    (hsorted : items.Pairwise (fun a b => compare a b ≤ 0)) (hd : domain ≠ []) :
    (findDomainInComboBox items domain = NotFound ∧
      ∀ x ∈ items, sameName x domain = false) ∨
    (0 ≤ findDomainInComboBox items domain ∧
      findDomainInComboBox items domain < items.length ∧
      sameName (itemText items (findDomainInComboBox items domain)) domain = true) := by
  have hspec := findDomainInComboBoxIn_spec items domain 0 items.length
  by_cases hr : findDomainInComboBox items domain = NotFound
  · left
    refine ⟨hr, fun x hx => ?_⟩
    unfold findDomainInComboBox at hr
    rw [hr] at hspec
    have hno := findDomainInComboBoxWithin_notFound items domain hsorted _ 0 items.length
      (le_refl _) (le_refl _) (fun j hj _ => ⟨by omega, by omega⟩) hspec
    obtain ⟨n, hn, rfl⟩ := List.mem_iff_getElem.mp hx
    have h1 := hno n hn
    rw [List.getD_eq_getElem _ _ hn] at h1
    cases hs : sameName items[n] domain with
    | false => rfl
    | true => exact absurd ((compare_eq_zero_iff _ _).mpr hs) h1
  · right
    have hr2 := hr
    unfold findDomainInComboBox at hr2
    obtain ⟨h1, h2, h3⟩ := findDomainInComboBoxWithin_found items domain _ _ _ _ hspec hr2
    have hi : findDomainInComboBox items domain = findDomainInComboBoxIn items domain 0
        items.length := rfl
    rw [← hi] at h1 h2 h3
    refine ⟨h1, ?_, (compare_eq_zero_iff _ _).mp h3⟩
    by_contra hcon
    have heq : findDomainInComboBox items domain = items.length := by omega
    rw [heq] at h3
    unfold itemText at h3
    rw [if_neg (by omega), List.getD_eq_default _ _ (by simp)] at h3
    have := compare_nil_lt domain hd
    omega

/-! ## The names held after a merge without a KGK mismatch -/

/-- One round of the merge without a KGK mismatch, seen from the pair of
records under a name: afterwards both stores hold a record or neither does;
they hold one unless neither did before or the local record was a tombstone
without remote counterpart; and then the two records have the same
modification time. -/
theorem keyStep_no_flag (g : Generator) (d : MainWindowPrivate) (n : QString) (hn : n ≠ [])
    (hflag : d.doConvertLocalToLegacy = false)
    (p : DomainSettings × DomainSettings) (vl : ValidAt n p.1) (vr : ValidAt n p.2) :
    ((keyStep g d n p).1.isEmpty = false ↔ (keyStep g d n p).2.isEmpty = false) ∧
    ((keyStep g d n p).1.isEmpty = false ↔
      (p.1.isEmpty = false ∨ p.2.isEmpty = false) ∧
        ¬ (p.2.isEmpty = true ∧ p.1.deleted = true)) ∧
    ((keyStep g d n p).1.isEmpty = false →
      (keyStep g d n p).1.modifiedDate = (keyStep g d n p).2.modifiedDate) := by
  obtain ⟨l, r⟩ := p
  simp only at vl vr
  by_cases hA : l.isEmpty = false ∧ r.isEmpty = false
  · by_cases h1 : r.modifiedDate > l.modifiedDate
    · have e : keyStep g d n (l, r) = (r, r) := by simp [keyStep, hA, h1]
      rw [e]; simp [hA]
    · by_cases h2 : r.modifiedDate < l.modifiedDate
      · have e : keyStep g d n (l, r) = (l, l) := by
          simp [keyStep, hA, h1, h2, hflag]
        rw [e]; simp [hA]
      · have e : keyStep g d n (l, r) = (l, r) := by simp [keyStep, hA, h1, h2]
        rw [e]
        simp only [hA, true_or, true_and, Bool.false_eq_true, false_and, not_false_eq_true,
          iff_true, and_self, forall_const]
        omega
  · by_cases hB : r.isEmpty = true
    · have hr : r = DomainSettings.empty := vr.eq_empty hn hB
      subst hr
      by_cases hd : l.deleted = false
      · by_cases hl : l.isEmpty = true
        · have hle : l = DomainSettings.empty := vl.eq_empty hn hl
          subst hle
          rw [keyStep_empty g d n hn]
          simp [isEmpty_empty]
        · have hl2 : l.isEmpty = false := by simpa using hl
          have hln := vl.isEmpty_false hl2
          have e : keyStep g d n (l, DomainSettings.empty) = (l, l) := by
            simp [keyStep, hl2, isEmpty_empty, hd, hln, pushedWhenLocalOnly, hflag]
          rw [e]
          simp [hl2, hd]
      · have hd2 : l.deleted = true := by simpa using hd
        have e : keyStep g d n (l, DomainSettings.empty) =
            (DomainSettings.empty, DomainSettings.empty) := by
          simp [keyStep, isEmpty_empty, hd]
        rw [e]
        simp [isEmpty_empty, hd2]
    · have hr2 : r.isEmpty = false := by simpa using hB
      have hl : l.isEmpty = true := by
        cases h : l.isEmpty with
        | true => rfl
        | false => exact absurd ⟨h, hr2⟩ hA
      have e : keyStep g d n (l, r) = (r, r) := by
        simp [keyStep, hl, hr2]
      rw [e]
      simp [hr2]

/-- No record is held under the empty name. -/
theorem atName_nil_isEmpty (l : DomainSettingsList) : (l.atName []).isEmpty = true := by
  rcases l.atName_validAt [] with h | h
  · rw [h]; rfl
  · have := (sameName_nil_right _).mp h
    simp [DomainSettings.isEmpty, this]

/-- The pair of records held under a name after a merge without a KGK
mismatch. -/
theorem mergeLocalAndRemoteData_pairAt_no_flag (g : Generator) (d : MainWindowPrivate)
    (hflag : d.doConvertLocalToLegacy = false) (n : QString) (hn : n ≠ []) :
    pairAt (mergeLocalAndRemoteData g d) n =
      if (allDomainNames d).any (fun m => sameName m n) = true then keyStep g d n (pairAt d n)
      else pairAt d n := by
  unfold mergeLocalAndRemoteData
  exact foldl_mergeStep_pairAt g n hn (allDomainNames d) d (fun _ _ => Or.inl hflag)

/-! ## A second merge changes nothing -/

theorem mem_upsert (r x : DomainSettings) :
    ∀ l : List DomainSettings, x ∈ upsert r l → x = r ∨ x ∈ l := by
  intro l
  induction l with
  | nil => intro h; simpa [upsert] using h
  | cons y ys ih =>
    intro h
    unfold upsert at h
    split at h
    · rcases List.mem_cons.mp h with h | h
      · exact Or.inl h
      · exact Or.inr (List.mem_cons_of_mem _ h)
    · rcases List.mem_cons.mp h with h | h
      · exact Or.inr (h ▸ List.mem_cons_self _ _)
      · rcases ih h with h | h
        · exact Or.inl h
        · exact Or.inr (List.mem_cons_of_mem _ h)

/-- The names of the local store have to differ as the store compares them:
with a tombstone `a` in front of a record `A` in the local store and an empty
remote store, the first merge removes both local records in the round for `a`
and stores a record without a name in the remote store in the round for `A`;
the second merge stores that record again. -/
theorem mergeLocalAndRemoteData_case_variants :
    (mergeLocalAndRemoteData sampleGenerate sampleCaseVariants).remoteDomains.items =
      [DomainSettings.empty] ∧
    (mergeLocalAndRemoteData sampleGenerate
      (clearDirty (mergeLocalAndRemoteData sampleGenerate sampleCaseVariants))).remoteDomains.dirty
        = true := by
  exact ⟨by decide, by decide⟩

/-! ## The frozen copy of a record that wins against the remote side -/

/-- A round for a name that matches `n` acts on the pair held under `n` as
`keyStep` says, when the name that the round selects for a renamed copy does
not match `n`. -/
theorem mergeStep_pairAt_same_selected (g : Generator) (d : MainWindowPrivate) (m n : QString)
    (hmn : sameName m n = true)
    (hside : d.doConvertLocalToLegacy = false ∨
      sameName (selectAlternativeDomainNameFor m d.domains.keys) n = false) :
    pairAt (mergeStep g d m) n = keyStep g d n (pairAt d n) := by
  have hl := d.domains.atName_congr hmn
  have hr := d.remoteDomains.atName_congr hmn
  have vl := d.domains.atName_validAt n
  have vr := d.remoteDomains.atName_validAt n
  unfold mergeStep keyStep pairAt
  simp only [hl, hr]
  by_cases hA : (d.domains.atName n).isEmpty = false ∧ (d.remoteDomains.atName n).isEmpty = false
  · have hln := vl.isEmpty_false hA.1
    have hrn := vr.isEmpty_false hA.2
    rw [if_pos hA, if_pos hA]
    by_cases h1 : (d.remoteDomains.atName n).modifiedDate > (d.domains.atName n).modifiedDate
    · rw [if_pos h1, if_pos h1]
      simp only [DomainSettingsList.atName_updateWith, hrn, if_true]
    · rw [if_neg h1, if_neg h1]
      by_cases h2 : (d.remoteDomains.atName n).modifiedDate < (d.domains.atName n).modifiedDate
      · rw [if_pos h2, if_pos h2]
        by_cases h3 : d.doConvertLocalToLegacy = true ∧ (d.domains.atName n).deleted = false
        · rw [if_pos h3]
          have hp : pushedWhenLocalWins g d m (d.domains.atName n) =
              { convertToLegacyPassword g d (d.domains.atName n) with
                domainName := selectAlternativeDomainNameFor m d.domains.keys } := by
            simp only [pushedWhenLocalWins, h3, and_self, if_true]
          have hsn : sameName (selectAlternativeDomainNameFor m d.domains.keys) n = false := by
            rcases hside with hs | hs
            · rw [h3.1] at hs; exact absurd hs (by simp)
            · exact hs
          simp only [DomainSettingsList.atName_updateWith, hp, hsn]
          simp
        · rw [if_neg h3, pushedWhenLocalWins_same g d m _ h3]
          simp only [DomainSettingsList.atName_updateWith, hln, if_true]
      · rw [if_neg h2, if_neg h2]
  · rw [if_neg hA, if_neg hA]
    by_cases hB : (d.remoteDomains.atName n).isEmpty = true
    · rw [if_pos hB, if_pos hB]
      by_cases hd : (d.domains.atName n).deleted = false
      · rw [if_pos hd, if_pos hd]
        simp only [DomainSettingsList.atName_updateWith, pushedWhenLocalOnly_domainName]
      · rw [if_neg hd, if_neg hd]
        simp only [DomainSettingsList.atName_remove, hmn, if_true]
    · rw [if_neg hB, if_neg hB]
      have hrn := vr.isEmpty_false (by simpa using hB)
      simp only [DomainSettingsList.atName_updateWith, hrn, if_true]

/-- A round for a name that does not match `n` leaves the pair held under `n`
as it is, when the name that the round selects for a renamed copy does not
match `n`. -/
theorem mergeStep_pairAt_other_selected (g : Generator) (d : MainWindowPrivate) (m n : QString)
    (hn : n ≠ []) (hmn : sameName m n = false)
    (hside : d.doConvertLocalToLegacy = false ∨
      sameName (selectAlternativeDomainNameFor m d.domains.keys) n = false) :
    pairAt (mergeStep g d m) n = pairAt d n := by
  have vl := (d.domains.atName_validAt m).sameName_other hn hmn
  have vr := (d.remoteDomains.atName_validAt m).sameName_other hn hmn
  unfold mergeStep pairAt
  simp only
  split_ifs with hA h1 h2 hB hd
  · simp only [DomainSettingsList.atName_updateWith, vr]
    simp
  · by_cases h3 : d.doConvertLocalToLegacy = true ∧ (d.domains.atName m).deleted = false
    · have hp : pushedWhenLocalWins g d m (d.domains.atName m) =
          { convertToLegacyPassword g d (d.domains.atName m) with
            domainName := selectAlternativeDomainNameFor m d.domains.keys } := by
        simp only [pushedWhenLocalWins, h3, and_self, if_true]
      have hsn : sameName (selectAlternativeDomainNameFor m d.domains.keys) n = false := by
        rcases hside with hs | hs
        · rw [h3.1] at hs; exact absurd hs (by simp)
        · exact hs
      simp only [DomainSettingsList.atName_updateWith, hp, hsn]
      simp
    · rw [pushedWhenLocalWins_same g d m _ h3]
      simp only [DomainSettingsList.atName_updateWith, vl]
      simp
  · rfl
  · simp only [DomainSettingsList.atName_updateWith, pushedWhenLocalOnly_domainName, vl]
    simp
  · simp only [DomainSettingsList.atName_remove, hmn]
    simp
  · simp only [DomainSettingsList.atName_updateWith, vr]
    simp

/-- A record that a lookup returns and that is not empty is a record of the
store. -/
theorem atName_mem_of_isEmpty (l : DomainSettingsList) (n : QString)
    (h : (l.atName n).isEmpty = false) : l.atName n ∈ l.items := by
  rcases l.atName_mem n with he | hm
  · rw [he, isEmpty_empty] at h; exact absurd h (by simp)
  · exact hm

/-- The name selected for a renamed copy in the round for `m` does not match a
name `n` under which the local store holds a record, when a disambiguated form
of `m` that matches `n` up to case is the name of that record. -/
theorem selectAlternativeDomainNameFor_not_sameName (s : MainWindowPrivate) (m n : QString)
    (hl : (s.domains.atName n).isEmpty = false)
    (hone : ∀ i, sameName (alternativeName m i) n = true →
      alternativeName m i = (s.domains.atName n).domainName) :
    sameName (selectAlternativeDomainNameFor m s.domains.keys) n = false := by
  obtain ⟨i, _, hsel, hnot, _⟩ := selectAlternativeDomainNameFor_spec m s.domains.keys
  rw [hsel]
  cases hs : sameName (alternativeName m i) n with
  | false => rfl
  | true =>
    exfalso
    apply hnot
    rw [hone i hs]
    exact List.mem_map.mpr ⟨_, atName_mem_of_isEmpty _ n hl, rfl⟩

/-- The rounds of the merge leave the pair held under `n` as it is, when the
local record is not deleted and newer than the remote one and the KGK mismatch
is flagged: the renamed copies go to other names. -/
theorem foldl_mergeStep_pair_kept (g : Generator) (n : QString) (hn : n ≠ [])
    (l r : DomainSettings)
    (hl : l.isEmpty = false) (hr : r.isEmpty = false) (hdel : l.deleted = false)
    (hdate : r.modifiedDate < l.modifiedDate) :
    ∀ (rest : List QString) (s : MainWindowPrivate),
      (∀ m ∈ rest, ∀ i, sameName (alternativeName m i) n = true →
        alternativeName m i = l.domainName) →
      s.doConvertLocalToLegacy = true → pairAt s n = (l, r) →
      pairAt (rest.foldl (mergeStep g) s) n = (l, r) := by
  intro rest
  induction rest with
  | nil => intro s _ _ hp; exact hp
  | cons m ms ih =>
    intro s hms hflag hp
    have h1 : s.domains.atName n = l := congrArg Prod.fst hp
    have hside : s.doConvertLocalToLegacy = false ∨
        sameName (selectAlternativeDomainNameFor m s.domains.keys) n = false :=
      Or.inr (selectAlternativeDomainNameFor_not_sameName s m n (by rw [h1]; exact hl)
        (by rw [h1]; exact hms m (List.mem_cons_self _ _)))
    rw [List.foldl_cons]
    apply ih _ (fun k hk => hms k (List.mem_cons_of_mem _ hk))
    · rw [mergeStep_doConvertLocalToLegacy]; exact hflag
    · by_cases hmn : sameName m n = true
      · rw [mergeStep_pairAt_same_selected g s m n hmn hside, hp]
        have hnot : ¬ r.modifiedDate > l.modifiedDate := not_lt.mpr (le_of_lt hdate)
        simp [keyStep, hl, hr, hnot, hdate, hflag, hdel]
      · have hmn2 : sameName m n = false := by simpa using hmn
        rw [mergeStep_pairAt_other_selected g s m n hn hmn2 hside, hp]

/-- The tombstones of the stores are records that the stores held at the
start of the merge, round by round: a round copies records from one store to
the other, and the records it changes are not deleted. -/
theorem mergeStep_tombstonesFrom (g : Generator) (d s : MainWindowPrivate) (m : QString)
    (h : TombstonesFrom d s) : TombstonesFrom d (mergeStep g s m) := by
  have hl : ∀ x ∈ s.domains.items, x.deleted = true →
      x ∈ d.domains.items ∨ x ∈ d.remoteDomains.items := fun x hx => h x (Or.inl hx)
  have hr : ∀ x ∈ s.remoteDomains.items, x.deleted = true →
      x ∈ d.domains.items ∨ x ∈ d.remoteDomains.items := fun x hx => h x (Or.inr hx)
  have hlocal : (s.domains.atName m).deleted = true →
      s.domains.atName m ∈ d.domains.items ∨ s.domains.atName m ∈ d.remoteDomains.items := by
    intro hd
    rcases s.domains.atName_mem m with he | hmem
    · rw [he] at hd; exact absurd hd (by decide)
    · exact hl _ hmem hd
  have hremote : (s.remoteDomains.atName m).deleted = true →
      s.remoteDomains.atName m ∈ d.domains.items ∨
        s.remoteDomains.atName m ∈ d.remoteDomains.items := by
    intro hd
    rcases s.remoteDomains.atName_mem m with he | hmem
    · rw [he] at hd; exact absurd hd (by decide)
    · exact hr _ hmem hd
  have hupl : ∀ x ∈ (s.domains.updateWith (s.remoteDomains.atName m)).items,
      x.deleted = true → x ∈ d.domains.items ∨ x ∈ d.remoteDomains.items := by
    intro x hx hd
    rcases mem_upsert _ x s.domains.items hx with e | e
    · rw [e] at hd ⊢; exact hremote hd
    · exact hl x e hd
  have hupr : ∀ p : DomainSettings,
      (p.deleted = true → p ∈ d.domains.items ∨ p ∈ d.remoteDomains.items) →
      ∀ x ∈ (s.remoteDomains.updateWith p).items, x.deleted = true →
        x ∈ d.domains.items ∨ x ∈ d.remoteDomains.items := by
    intro p hp x hx hd
    rcases mem_upsert p x s.remoteDomains.items hx with e | e
    · rw [e] at hd ⊢; exact hp hd
    · exact hr x e hd
  have key : (∀ x ∈ (mergeStep g s m).domains.items, x.deleted = true →
        x ∈ d.domains.items ∨ x ∈ d.remoteDomains.items) ∧
      (∀ x ∈ (mergeStep g s m).remoteDomains.items, x.deleted = true →
        x ∈ d.domains.items ∨ x ∈ d.remoteDomains.items) := by
    unfold mergeStep
    simp only
    by_cases hA : (s.domains.atName m).isEmpty = false ∧
        (s.remoteDomains.atName m).isEmpty = false
    · rw [if_pos hA]
      by_cases h1 : (s.remoteDomains.atName m).modifiedDate > (s.domains.atName m).modifiedDate
      · rw [if_pos h1]
        exact ⟨hupl, hr⟩
      · rw [if_neg h1]
        by_cases h2 : (s.remoteDomains.atName m).modifiedDate < (s.domains.atName m).modifiedDate
        · rw [if_pos h2]
          refine ⟨hl, hupr _ ?_⟩
          by_cases h3 : s.doConvertLocalToLegacy = true ∧ (s.domains.atName m).deleted = false
          · intro hd
            exfalso
            have hp : (pushedWhenLocalWins g s m (s.domains.atName m)).deleted =
                (convertToLegacyPassword g s (s.domains.atName m)).deleted := by
              simp only [pushedWhenLocalWins, h3, and_self, if_true]
            rw [hp, convertToLegacyPassword_deleted, h3.2] at hd
            exact absurd hd (by decide)
          · rw [pushedWhenLocalWins_same g s m _ h3]
            exact hlocal
        · rw [if_neg h2]
          exact ⟨hl, hr⟩
    · rw [if_neg hA]
      by_cases hB : (s.remoteDomains.atName m).isEmpty = true
      · rw [if_pos hB]
        by_cases hd : (s.domains.atName m).deleted = false
        · rw [if_pos hd]
          refine ⟨hl, hupr _ ?_⟩
          intro hd2
          exfalso
          have hq : (pushedWhenLocalOnly g s (s.domains.atName m)).deleted =
              (s.domains.atName m).deleted := by
            unfold pushedWhenLocalOnly
            split
            · exact convertToLegacyPassword_deleted g s _
            · rfl
          rw [hq, hd] at hd2
          exact absurd hd2 (by decide)
        · rw [if_neg hd]
          exact ⟨fun x hx => hl x (List.mem_of_mem_filter hx), hr⟩
      · rw [if_neg hB]
        exact ⟨hupl, hr⟩
  intro x hx hd
  rcases hx with hx | hx
  · exact key.1 x hx hd
  · exact key.2 x hx hd

theorem foldl_mergeStep_tombstonesFrom (g : Generator) (d : MainWindowPrivate) :
    ∀ (rest : List QString) (s : MainWindowPrivate),
      TombstonesFrom d s → TombstonesFrom d (rest.foldl (mergeStep g) s) := by
  intro rest
  induction rest with
  | nil => intro s h; exact h
  | cons m ms ih =>
    intro s h
    rw [List.foldl_cons]
    exact ih _ (mergeStep_tombstonesFrom g d s m h)

/-- A round of the merge with the KGK mismatch flagged keeps a frozen copy: if
the remote store holds under `k` a record with a legacy password that is not
deleted, and the local store holds under `k` no tombstone, then both are so
after the round. -/
theorem mergeStep_frozen_kept (g : Generator) (s : MainWindowPrivate) (m k : QString)
    (hgen : ∀ key x, g key x ≠ [])
    (hflag : s.doConvertLocalToLegacy = true) (hmp : s.masterPassword ≠ [])
    (h1 : (s.remoteDomains.atName k).legacyPassword ≠ [] ∧
      (s.remoteDomains.atName k).deleted = false)
    (h3 : (s.domains.atName k).isEmpty = true ∨ (s.domains.atName k).deleted = false) :
    (((mergeStep g s m).remoteDomains.atName k).legacyPassword ≠ [] ∧
      ((mergeStep g s m).remoteDomains.atName k).deleted = false) ∧
    (((mergeStep g s m).domains.atName k).isEmpty = true ∨
      ((mergeStep g s m).domains.atName k).deleted = false) := by
  have vl := s.domains.atName_validAt m
  have vr := s.remoteDomains.atName_validAt m
  -- the remote record of the round, stored in the local store
  have hadopt : (s.remoteDomains.atName m).isEmpty = false →
      (((s.domains.updateWith (s.remoteDomains.atName m)).atName k).isEmpty = true ∨
        ((s.domains.updateWith (s.remoteDomains.atName m)).atName k).deleted = false) := by
    intro hne
    rw [DomainSettingsList.atName_updateWith]
    by_cases hs : sameName (s.remoteDomains.atName m).domainName k = true
    · rw [if_pos hs]
      have hmk : sameName m k = true := by
        rw [← sameName_congr_left (vr.isEmpty_false hne) k]; exact hs
      rw [s.remoteDomains.atName_congr hmk]
      exact Or.inr h1.2
    · rw [if_neg hs]; exact h3
  -- a converted record, stored in the remote store
  have hconv : ∀ x : DomainSettings, x.legacyPassword ≠ [] → x.deleted = false →
      (((s.remoteDomains.updateWith x).atName k).legacyPassword ≠ [] ∧
        ((s.remoteDomains.updateWith x).atName k).deleted = false) := by
    intro x hx1 hx2
    rw [DomainSettingsList.atName_updateWith]
    by_cases hs : sameName x.domainName k = true
    · rw [if_pos hs]; exact ⟨hx1, hx2⟩
    · rw [if_neg hs]; exact h1
  unfold mergeStep
  simp only
  by_cases hA : (s.domains.atName m).isEmpty = false ∧ (s.remoteDomains.atName m).isEmpty = false
  · rw [if_pos hA]
    by_cases hd1 : (s.remoteDomains.atName m).modifiedDate > (s.domains.atName m).modifiedDate
    · rw [if_pos hd1]
      exact ⟨h1, hadopt hA.2⟩
    · rw [if_neg hd1]
      by_cases hd2 : (s.remoteDomains.atName m).modifiedDate < (s.domains.atName m).modifiedDate
      · rw [if_pos hd2]
        refine ⟨?_, h3⟩
        by_cases hdel : (s.domains.atName m).deleted = false
        · have hp : pushedWhenLocalWins g s m (s.domains.atName m) =
              { convertToLegacyPassword g s (s.domains.atName m) with
                domainName := selectAlternativeDomainNameFor m s.domains.keys } := by
            simp only [pushedWhenLocalWins, hflag, hdel, and_self, if_true]
          rw [hp]
          apply hconv
          · exact convertToLegacyPassword_ne_nil g s _ hmp hgen
          · show (convertToLegacyPassword g s (s.domains.atName m)).deleted = false
            rw [convertToLegacyPassword_deleted]; exact hdel
        · rw [pushedWhenLocalWins_same g s m _ (fun hc => hdel hc.2)]
          rw [DomainSettingsList.atName_updateWith]
          by_cases hs : sameName (s.domains.atName m).domainName k = true
          · exfalso
            have hmk : sameName m k = true := by
              rw [← sameName_congr_left (vl.isEmpty_false hA.1) k]; exact hs
            rw [← s.domains.atName_congr hmk] at h3
            rcases h3 with e | e
            · rw [hA.1] at e; exact absurd e (by decide)
            · exact hdel e
          · rw [if_neg hs]; exact h1
      · rw [if_neg hd2]
        exact ⟨h1, h3⟩
  · rw [if_neg hA]
    by_cases hB : (s.remoteDomains.atName m).isEmpty = true
    · rw [if_pos hB]
      by_cases hd : (s.domains.atName m).deleted = false
      · rw [if_pos hd]
        refine ⟨?_, h3⟩
        have hq : pushedWhenLocalOnly g s (s.domains.atName m) =
            convertToLegacyPassword g s (s.domains.atName m) := by
          simp only [pushedWhenLocalOnly, hflag, if_true]
        rw [hq]
        apply hconv
        · exact convertToLegacyPassword_ne_nil g s _ hmp hgen
        · rw [convertToLegacyPassword_deleted]; exact hd
      · rw [if_neg hd]
        refine ⟨h1, ?_⟩
        rw [DomainSettingsList.atName_remove]
        by_cases hs : sameName m k = true
        · rw [if_pos hs]; exact Or.inl isEmpty_empty
        · rw [if_neg hs]; exact h3
    · rw [if_neg hB]
      exact ⟨h1, hadopt (by simpa using hB)⟩

/-- The rounds of the merge with the KGK mismatch flagged keep a frozen copy. -/
theorem foldl_mergeStep_frozen_kept (g : Generator) (k : QString)
    (hgen : ∀ key x, g key x ≠ []) :
    ∀ (rest : List QString) (s : MainWindowPrivate),
      s.doConvertLocalToLegacy = true → s.masterPassword ≠ [] →
      ((s.remoteDomains.atName k).legacyPassword ≠ [] ∧
        (s.remoteDomains.atName k).deleted = false) →
      ((s.domains.atName k).isEmpty = true ∨ (s.domains.atName k).deleted = false) →
      ((rest.foldl (mergeStep g) s).remoteDomains.atName k).legacyPassword ≠ [] := by
  intro rest
  induction rest with
  | nil => intro s _ _ h1 _; exact h1.1
  | cons m ms ih =>
    intro s hflag hmp h1 h3
    have hstep := mergeStep_frozen_kept g s m k hgen hflag hmp h1 h3
    rw [List.foldl_cons]
    apply ih _ _ _ hstep.1 hstep.2
    · rw [mergeStep_doConvertLocalToLegacy]; exact hflag
    · rw [mergeStep_masterPassword]; exact hmp

/-- With the KGK mismatch flagged, the round for a name whose local record is
newer and not deleted leaves the local store as it is and pushes the frozen
copy under a disambiguated name that no local record has. -/
theorem mergeStep_pushes_selected (g : Generator) (d : MainWindowPrivate) (n : QString)
    (l r : DomainSettings) (hp : pairAt d n = (l, r))
    (hflag : d.doConvertLocalToLegacy = true)
    (hl : l.isEmpty = false) (hr : r.isEmpty = false) (hdel : l.deleted = false)
    (hdate : r.modifiedDate < l.modifiedDate) :
    ∃ i, 1 ≤ i ∧ alternativeName n i ∉ d.domains.keys ∧
      (mergeStep g d n).domains = d.domains ∧
      (mergeStep g d n).remoteDomains.atName (alternativeName n i) =
        { convertToLegacyPassword g d l with domainName := alternativeName n i } := by
  have h1 : d.domains.atName n = l := congrArg Prod.fst hp
  have h2 : d.remoteDomains.atName n = r := congrArg Prod.snd hp
  obtain ⟨i, hi, hnot2, hpush⟩ := pushedWhenLocalWins_renamed g d n l hflag hdel
  refine ⟨i, hi, hnot2, ?_, ?_⟩
  · have hnot : ¬ r.modifiedDate > l.modifiedDate := not_lt.mpr (le_of_lt hdate)
    unfold mergeStep
    simp only [h1, h2, hl, hr, and_self, if_true, hnot, if_false, hdate]
  · have hnot : ¬ r.modifiedDate > l.modifiedDate := not_lt.mpr (le_of_lt hdate)
    unfold mergeStep
    simp only [h1, h2, hl, hr, and_self, if_true, hnot, if_false, hdate, hpush,
      DomainSettingsList.atName_updateWith, sameName_refl]

/-- A tombstone must not match a disambiguated form of the name up to case
only: the local tombstone `X (1)` matches the disambiguated form `x (1)` of `x`
and is not that form. The frozen copy of `x` is pushed as `x (1)`, and the
round for `X (1)` stores the tombstone in its place: after the merge no record
of the remote store has a legacy password. -/
theorem mergeLocalAndRemoteData_frozen_copy_lost :
    sameName (alternativeName "x".toList 1) "X (1)".toList = true ∧
    alternativeName "x".toList 1 ≠ "X (1)".toList ∧
    sampleFrozenLost.doConvertLocalToLegacy = true ∧
    (sampleFrozenLost.domains.atName "x".toList).deleted = false ∧
    (sampleFrozenLost.remoteDomains.atName "x".toList).modifiedDate <
      (sampleFrozenLost.domains.atName "x".toList).modifiedDate ∧
    (mergeLocalAndRemoteData sampleGenerate sampleFrozenLost).remoteDomains.items.all
      (fun x => x.legacyPassword.isEmpty) = true := by
  exact ⟨by decide, by decide, by decide, by decide, by decide, by decide⟩

/-- A disambiguated form of another name must not match the name up to case
only: the name `x (1)`, which the local store holds as `X (1)`, matches the
disambiguated form `x (1)` of `x`, which no local record has. The frozen copy
of `x` is pushed as `x (1)` and replaces the remote record of that name; after
the merge the remote store holds that copy under `x (1)`, not the older remote
record, and no record under a disambiguated form of `x (1)`. -/
theorem mergeLocalAndRemoteData_frozen_copy_misplaced :
    sampleFormTaken.doConvertLocalToLegacy = true ∧
    sampleFormTaken.domains.atName "x (1)".toList = record "X (1)" 3 ∧
    sampleFormTaken.remoteDomains.atName "x (1)".toList = record "x (1)" 2 ∧
    sameName (alternativeName "x".toList 1) "x (1)".toList = true ∧
    alternativeName "x".toList 1 ≠ "X (1)".toList ∧
    (mergeLocalAndRemoteData sampleGenerate sampleFormTaken).remoteDomains.atName
      "x (1)".toList ≠ record "x (1)" 2 ∧
    (mergeLocalAndRemoteData sampleGenerate sampleFormTaken).remoteDomains.keys =
      ["x".toList, "x (1)".toList] := by
  exact ⟨by decide, by decide, by decide, by decide, by decide, by decide, by decide⟩

/-- The same for a tombstone of the remote store: the round for `X (1)` copies
the tombstone to the local store, the frozen copy of `x` is pushed as `x (1)`,
and the round for `x (1)` stores the tombstone in its place. -/
theorem mergeLocalAndRemoteData_frozen_copy_lost_remote :
    sampleFrozenLostRemote.doConvertLocalToLegacy = true ∧
    (sampleFrozenLostRemote.domains.atName "x".toList).deleted = false ∧
    (sampleFrozenLostRemote.remoteDomains.atName "x".toList).modifiedDate <
      (sampleFrozenLostRemote.domains.atName "x".toList).modifiedDate ∧
    (mergeLocalAndRemoteData sampleGenerate sampleFrozenLostRemote).remoteDomains.items.all
      (fun x => x.legacyPassword.isEmpty) = true := by
  exact ⟨by decide, by decide, by decide, by decide⟩

/-! ## Where the date rule, the combo box and the names after a merge are as stated -/

/-- During a master password change a save with valid credentials stores the
ciphertext and does nothing else after the encoder call. -/
theorem saveAllDomainDataToSettings_stored_changing (env : Collaborators) (w : MainWindow)
    (cipher : QByteArray) (hstep : w.d.masterPasswordChangeStep ≠ 0)
    (hvalid : validCredentials w = true)
    (henc : (encodeWithCredentials env w (env.toJson w.d.domains.items)).2 = some cipher)
    (hc : cipher ≠ []) :
    saveAllDomainDataToSettings env w =
      { (encodeWithCredentials env w (env.toJson w.d.domains.items)).1 with
        d := { (encodeWithCredentials env w (env.toJson w.d.domains.items)).1.d with
          settings := { w.d.settings with syncDomains := cipher } } } := by
  have hkey : w.d.masterKey.isEmpty = false := by
    simp only [validCredentials, Bool.and_eq_true, Bool.not_eq_true'] at hvalid
    exact hvalid.1
  have hce : cipher.isEmpty = false := by
    cases cipher with
    | nil => exact absurd rfl hc
    | cons _ _ => rfl
  unfold saveAllDomainDataToSettings
  rw [if_neg (by simp [hkey]), if_pos hvalid, henc]
  simp only [hce, Bool.false_eq_true, if_false, encodeWithCredentials_fst, hstep]

/-- Where the push of a record without remote counterpart holds: take a domain
name for which the local store has a non-deleted record and the remote store
has none, let the master password be non-empty if the KGK mismatch is flagged,
and let no KGK mismatch be flagged or no disambiguated form of a name of the
stores match the name. After the merge the remote store holds under that name
the local record, with what the generator makes of the master password as its
legacy password when the mismatch is flagged and the local record had none;
the local store still holds its record. -/
theorem mergeLocalAndRemoteData_local_only_pushed (g : Generator) (d : MainWindowPrivate) (n : QString)
    (hside : d.doConvertLocalToLegacy = false ∨
      ∀ m ∈ allDomainNames d, ∀ i, sameName (alternativeName m i) n = false)
    (hmp : d.doConvertLocalToLegacy = true → d.masterPassword ≠ [])
    (hl : (d.domains.atName n).isEmpty = false)
    (hdel : (d.domains.atName n).deleted = false)
    (hr : (d.remoteDomains.atName n).isEmpty = true) :
    (mergeLocalAndRemoteData g d).remoteDomains.atName n =
      (if d.doConvertLocalToLegacy = true ∧ (d.domains.atName n).legacyPassword = [] then
        { d.domains.atName n with
          legacyPassword := g (toUtf8 d.masterPassword) (d.domains.atName n) }
      else d.domains.atName n) ∧
    (mergeLocalAndRemoteData g d).domains.atName n = d.domains.atName n := by
  have hn := (d.domains.atName_validAt n).name_ne_nil hl
  have hln := (d.domains.atName_validAt n).isEmpty_false hl
  have hp := mergeLocalAndRemoteData_pairAt g d n hn
    (fun m hm => hside.imp id (fun h => h m hm)) (any_allDomainNames_of_local d n hl)
  have hks : keyStep g d n (pairAt d n) =
      (d.domains.atName n, pushedWhenLocalOnly g d (d.domains.atName n)) := by
    simp [keyStep, pairAt, hl, hr, hdel, hln]
  rw [hks] at hp
  refine ⟨?_, congrArg Prod.fst hp⟩
  have h2 : (mergeLocalAndRemoteData g d).remoteDomains.atName n =
      pushedWhenLocalOnly g d (d.domains.atName n) := congrArg Prod.snd hp
  rw [h2]
  unfold pushedWhenLocalOnly
  by_cases hf : d.doConvertLocalToLegacy = true
  · rw [if_pos hf, convertToLegacyPassword_legacyPassword g d _ (hmp hf)]
    simp [hf]
  · simp [hf]

/-- A worked instance with the KGK mismatch flagged: `new.example` is pushed with
a frozen password while the frozen copy of `x` goes to `x (1)`. -/
theorem mergeLocalAndRemoteData_local_only_pushed_instance :
    sampleNewRecord.doConvertLocalToLegacy = true ∧
    (sampleNewRecord.remoteDomains.atName "new.example".toList).isEmpty = true ∧
    (mergeLocalAndRemoteData sampleGenerate sampleNewRecord).remoteDomains.atName
      "new.example".toList =
        { record "new.example" 1 with legacyPassword := "new.example#mp".toList } ∧
    (mergeLocalAndRemoteData sampleGenerate sampleNewRecord).domains.atName
      "new.example".toList = record "new.example" 1 :=
  ⟨by decide, by decide,
    (mergeLocalAndRemoteData_local_only_pushed sampleGenerate sampleNewRecord "new.example".toList
      (Or.inr (fun m _ i => sameName_alternativeName_false m _ i (by decide)))
      (fun _ => by decide) (by decide) (by decide) (by decide)).1.trans (by decide),
    (mergeLocalAndRemoteData_local_only_pushed sampleGenerate sampleNewRecord "new.example".toList
      (Or.inr (fun m _ i => sameName_alternativeName_false m _ i (by decide)))
      (fun _ => by decide) (by decide) (by decide) (by decide)).2.trans (by decide)⟩

/-- The date rule that `saveDomainSettings` follows: let the combo box be the one
that `makeDomainComboBox` builds from the store. The record stored at the time
`now` is found under its domain name afterwards; it has `modifiedDate = now` if
a record of the store that is not deleted has that name, compared without
regard to case, and `createdDate = now` with a cleared `modifiedDate` otherwise,
also when the store holds the name as a tombstone. -/
theorem saveDomainSettings_date_rule (env : Collaborators) (now : Int) (w : MainWindow)
    (ds : DomainSettings)
    (hbox : w.domainsComboBox = (makeDomainComboBox w).domainsComboBox) :
    (saveDomainSettings env now w ds).d.domains.atName ds.domainName =
      if w.d.domains.items.any (fun x => !x.deleted && sameName x.domainName ds.domainName) then
        { ds with modifiedDate := now }
      else { ds with createdDate := now, modifiedDate := 0 } := by
  rw [saveDomainSettings_atName, hbox, makeDomainComboBox_any]

/-- A worked instance: the store holds the record `a.example`, which is not
deleted; saving `A.EXAMPLE` at the time `1000` stores the record with
`modifiedDate = 1000`. -/
theorem saveDomainSettings_date_rule_instance :
    sampleUnlocked.domainsComboBox = (makeDomainComboBox sampleUnlocked).domainsComboBox ∧
    (saveDomainSettings sampleCollaborators 1000 sampleUnlocked
      (record "A.EXAMPLE" 0)).d.domains.atName "A.EXAMPLE".toList = record "A.EXAMPLE" 1000 :=
  ⟨by decide,
    (saveDomainSettings_date_rule sampleCollaborators 1000 sampleUnlocked (record "A.EXAMPLE" 0)
      (by decide)).trans (by decide)⟩

/-- After `makeDomainComboBox` the combo box holds exactly the names of the
records with `deleted == false`, each as often as such records have it; and
when records of the same name agree on `deleted`, as they do in a store with
one record per name, the name of a record of the store is in the combo box if
and only if the record is not deleted. -/
theorem makeDomainComboBox_live_names (w : MainWindow)
    (hnames : ∀ x ∈ w.d.domains.items, ∀ y ∈ w.d.domains.items,
      x.domainName = y.domainName → x.deleted = y.deleted) :
    (makeDomainComboBox w).domainsComboBox.Perm
      ((w.d.domains.items.filter (fun ds => !ds.deleted)).map (fun ds => ds.domainName)) ∧
    (∀ n, n ∈ (makeDomainComboBox w).domainsComboBox →
      ∃ x ∈ w.d.domains.items, x.deleted = false ∧ x.domainName = n) ∧
    ∀ x ∈ w.d.domains.items,
      (x.domainName ∈ (makeDomainComboBox w).domainsComboBox ↔ x.deleted = false) := by
  refine ⟨makeDomainComboBox_perm w, fun n hn => (mem_makeDomainComboBox w n).mp hn,
    fun x hx => ?_⟩
  rw [mem_makeDomainComboBox]
  constructor
  · rintro ⟨y, hy, hd, hxy⟩
    rw [← hnames y hy x hx hxy]
    exact hd
  · intro hd
    exact ⟨x, hx, hd, rfl⟩

/-- A worked instance: of the four records of the store the combo box shows the
three that are not deleted, sorted without regard to case. -/
theorem makeDomainComboBox_live_names_instance :
    sampleFourRecords.d.domains.keys =
      ["b.example".toList, "gone.example".toList, "C.example".toList, "a.example".toList] ∧
    (makeDomainComboBox sampleFourRecords).domainsComboBox =
      ["a.example".toList, "b.example".toList, "C.example".toList] ∧
    ("gone.example".toList ∈ (makeDomainComboBox sampleFourRecords).domainsComboBox ↔
      (tombstone "gone.example" 2).deleted = false) :=
  ⟨by decide, by decide,
    (makeDomainComboBox_live_names sampleFourRecords (by decide)).2.2
      (tombstone "gone.example" 2) (by decide)⟩

/-- The names held after a merge, as the lookup of the stores sees them. After
`mergeLocalAndRemoteData` with no KGK mismatch flagged, for every domain name:
the local store holds a record under the name if and only if the remote store
does; this is so if and only if one of the two stores held a record under the
name before and the local record was not a tombstone without remote
counterpart. In particular a name that the remote store held, and a name under
which the lookup of the local store returned a record that is not deleted, is
still held. Names are compared as the stores compare them, without regard to
case. -/
theorem mergeLocalAndRemoteData_same_names (g : Generator) (d : MainWindowPrivate)
    (hflag : d.doConvertLocalToLegacy = false) (n : QString) :
    (((mergeLocalAndRemoteData g d).domains.atName n).isEmpty = false ↔
      ((mergeLocalAndRemoteData g d).remoteDomains.atName n).isEmpty = false) ∧
    (((mergeLocalAndRemoteData g d).domains.atName n).isEmpty = false ↔
      ((d.domains.atName n).isEmpty = false ∨ (d.remoteDomains.atName n).isEmpty = false) ∧
        ¬ ((d.remoteDomains.atName n).isEmpty = true ∧ (d.domains.atName n).deleted = true)) ∧
    ((d.remoteDomains.atName n).isEmpty = false →
      ((mergeLocalAndRemoteData g d).remoteDomains.atName n).isEmpty = false) ∧
    ((d.domains.atName n).isEmpty = false → (d.domains.atName n).deleted = false →
      ((mergeLocalAndRemoteData g d).domains.atName n).isEmpty = false) := by
  have key : (((mergeLocalAndRemoteData g d).domains.atName n).isEmpty = false ↔
      ((mergeLocalAndRemoteData g d).remoteDomains.atName n).isEmpty = false) ∧
    (((mergeLocalAndRemoteData g d).domains.atName n).isEmpty = false ↔
      ((d.domains.atName n).isEmpty = false ∨ (d.remoteDomains.atName n).isEmpty = false) ∧
        ¬ ((d.remoteDomains.atName n).isEmpty = true ∧
          (d.domains.atName n).deleted = true)) := by
    by_cases hn : n = []
    · subst hn
      simp [atName_nil_isEmpty]
    · have hp := mergeLocalAndRemoteData_pairAt_no_flag g d hflag n hn
      by_cases hany : (allDomainNames d).any (fun m => sameName m n) = true
      · rw [if_pos hany] at hp
        have hk := keyStep_no_flag g d n hn hflag (pairAt d n) (d.domains.atName_validAt n)
          (d.remoteDomains.atName_validAt n)
        rw [← hp] at hk
        exact ⟨hk.1, hk.2.1⟩
      · rw [if_neg hany] at hp
        have h1 : (d.domains.atName n).isEmpty = true := by
          cases h : (d.domains.atName n).isEmpty with
          | true => rfl
          | false => exact absurd (any_allDomainNames_of_local d n h) hany
        have h2 : (d.remoteDomains.atName n).isEmpty = true := by
          cases h : (d.remoteDomains.atName n).isEmpty with
          | true => rfl
          | false => exact absurd (any_allDomainNames_of_remote d n h) hany
        have h3 : (mergeLocalAndRemoteData g d).domains.atName n = d.domains.atName n :=
          congrArg Prod.fst hp
        have h4 : (mergeLocalAndRemoteData g d).remoteDomains.atName n =
            d.remoteDomains.atName n := congrArg Prod.snd hp
        rw [h3, h4]
        simp [h1, h2]
  refine ⟨key.1, key.2, fun h => ?_, fun h1 h2 => ?_⟩
  · rw [← key.1, key.2]
    exact ⟨Or.inr h, fun hc => by rw [h] at hc; exact absurd hc.1 (by decide)⟩
  · rw [key.2]
    exact ⟨Or.inl h1, fun hc => by rw [h2] at hc; exact absurd hc.2 (by decide)⟩

/-- A worked instance: after the merge of `sampleMergeNames` neither store holds
the tombstone `gone.example`, which the remote store never had, and both hold
`a.example`, `b.example` and `c.example`. -/
theorem mergeLocalAndRemoteData_same_names_instance :
    sampleMergeNames.doConvertLocalToLegacy = false ∧
    (mergeLocalAndRemoteData sampleGenerate sampleMergeNames).domains.keys =
      ["a.example".toList, "b.example".toList, "c.example".toList] ∧
    (mergeLocalAndRemoteData sampleGenerate sampleMergeNames).remoteDomains.keys =
      ["b.example".toList, "c.example".toList, "a.example".toList] ∧
    (((mergeLocalAndRemoteData sampleGenerate sampleMergeNames).domains.atName
        "gone.example".toList).isEmpty = false ↔
      ((mergeLocalAndRemoteData sampleGenerate sampleMergeNames).remoteDomains.atName
        "gone.example".toList).isEmpty = false) :=
  ⟨by decide, by decide, by decide,
    (mergeLocalAndRemoteData_same_names sampleGenerate sampleMergeNames (by decide)
      "gone.example".toList).1⟩

/-- A record of the local store that is not deleted and that the lookup returns
for its name, as it does in a store with one record per name, is not removed by
a merge without a KGK mismatch: the local store holds a record under its name
afterwards. -/
theorem mergeLocalAndRemoteData_keeps_live_record (g : Generator) (d : MainWindowPrivate)
    (hflag : d.doConvertLocalToLegacy = false) (x : DomainSettings)
    (hx : d.domains.atName x.domainName = x) (hn : x.domainName ≠ [])
    (hdel : x.deleted = false) :
    ((mergeLocalAndRemoteData g d).domains.atName x.domainName).isEmpty = false := by
  apply (mergeLocalAndRemoteData_same_names g d hflag x.domainName).2.2.2
  · rw [hx]
    cases hm : x.domainName with
    | nil => exact absurd hm hn
    | cons c cs => simp [DomainSettings.isEmpty, hm]
  · rw [hx]; exact hdel

/-! # The claims -/

/-- C1: last-writer-wins. With no KGK mismatch flagged, for a domain name that
has a non-empty record in both stores: if the remote record is the later one,
the local store holds it after the merge; if the local record is the later
one, the remote store holds it and the local record is unchanged; if the two
dates are equal, neither record is changed. -/
theorem C1_last_writer_wins (g : Generator) (d : MainWindowPrivate) (n : QString)
    (hflag : d.doConvertLocalToLegacy = false)
    (hl : (d.domains.atName n).isEmpty = false)
    (hr : (d.remoteDomains.atName n).isEmpty = false) :
    ((d.domains.atName n).modifiedDate < (d.remoteDomains.atName n).modifiedDate →
      (mergeLocalAndRemoteData g d).domains.atName n = d.remoteDomains.atName n) ∧
    ((d.remoteDomains.atName n).modifiedDate < (d.domains.atName n).modifiedDate →
      (mergeLocalAndRemoteData g d).remoteDomains.atName n = d.domains.atName n ∧
      (mergeLocalAndRemoteData g d).domains.atName n = d.domains.atName n) ∧
    ((d.remoteDomains.atName n).modifiedDate = (d.domains.atName n).modifiedDate →
      (mergeLocalAndRemoteData g d).domains.atName n = d.domains.atName n ∧
      (mergeLocalAndRemoteData g d).remoteDomains.atName n = d.remoteDomains.atName n) := by
  have hn := (d.domains.atName_validAt n).name_ne_nil hl
  have hp := mergeLocalAndRemoteData_pairAt g d n hn (fun _ _ => Or.inl hflag)
    (any_allDomainNames_of_local d n hl)
  have h1 := congrArg Prod.fst hp
  have h2 := congrArg Prod.snd hp
  simp only [pairAt] at h1 h2
  rw [h1, h2]
  refine ⟨fun h => ?_, fun h => ?_, fun h => ?_⟩
  · simp [keyStep, hl, hr, h]
  · have h3 : ¬ (d.domains.atName n).modifiedDate < (d.remoteDomains.atName n).modifiedDate :=
      not_lt.mpr (le_of_lt h)
    simp [keyStep, hl, hr, h, h3, hflag]
  · simp [keyStep, hl, hr, h]

/-- C1, a worked instance: `a.example` is newer on the remote side, `b.example`
newer on the local side, `c.example` has the same date on both sides. -/
theorem C1_last_writer_wins_witness :
    sampleLastWriter.doConvertLocalToLegacy = false ∧
    (sampleLastWriter.domains.atName "a.example".toList).isEmpty = false ∧
    (sampleLastWriter.remoteDomains.atName "a.example".toList).isEmpty = false ∧
    (mergeLocalAndRemoteData sampleGenerate sampleLastWriter).domains.atName
      "a.example".toList = record "a.example" 5 :=
  ⟨by decide, by decide, by decide,
    (C1_last_writer_wins sampleGenerate sampleLastWriter "a.example".toList
      (by decide) (by decide) (by decide)).1 (by decide)⟩

/-- C2, the code at the failing input: the held KGK (byte 2) differs from the
recovered one (byte 9) and the local store holds `b.example` without a legacy
password. After `syncWith` has merged, the flag is raised and the remote store
holds a frozen copy, but the record of the local store is the one it was: its
legacy password is still empty, and the local store is not dirty, so the rest
of `syncWith` does not touch it. -/
theorem C2_local_record_not_frozen :
    (syncWithUntilMerged sampleDecode sampleFromJson sampleGenerate sampleLocalOnly
      [1]).doConvertLocalToLegacy = true ∧
    (syncWithUntilMerged sampleDecode sampleFromJson sampleGenerate sampleLocalOnly
      [1]).KGK = [9] ∧
    (syncWithUntilMerged sampleDecode sampleFromJson sampleGenerate sampleLocalOnly
      [1]).domains.atName "b.example".toList = record "b.example" 3 ∧
    ((syncWithUntilMerged sampleDecode sampleFromJson sampleGenerate sampleLocalOnly
      [1]).domains.atName "b.example".toList).legacyPassword = [] ∧
    (syncWithUntilMerged sampleDecode sampleFromJson sampleGenerate sampleLocalOnly
      [1]).domains.dirty = false ∧
    ((syncWithUntilMerged sampleDecode sampleFromJson sampleGenerate sampleLocalOnly
      [1]).remoteDomains.atName "b.example".toList).legacyPassword ≠ [] := by
  decide

/-- C3, the code at the failing input: the held KGK is the byte 2, the
recovered one the byte 9, the master password `mp`. The literal frozen into the
pushed copy of `b.example` is what the generator makes of the master password,
not what it makes of the KGK held before the sync. -/
theorem C3_legacy_password_from_master_password :
    ((syncWithUntilMerged sampleDecode sampleFromJson sampleGenerate sampleLocalOnly
      [1]).remoteDomains.atName "b.example".toList).legacyPassword =
        sampleGenerate (toUtf8 sampleLocalOnly.masterPassword) (record "b.example" 3) ∧
    ((syncWithUntilMerged sampleDecode sampleFromJson sampleGenerate sampleLocalOnly
      [1]).remoteDomains.atName "b.example".toList).legacyPassword ≠
        sampleGenerate sampleLocalOnly.KGK (record "b.example" 3) := by
  decide

/-- C4, refuted as stated: with the KGK mismatch flagged and `bank.example`
held on both sides, non-deleted and newer on the local side, the record that
the remote store holds under that same name after the merge is still the
older remote record, with an empty legacy password. -/
theorem C4_same_name_not_frozen :
    sampleBank.doConvertLocalToLegacy = true ∧
    (sampleBank.domains.atName "bank.example".toList).isEmpty = false ∧
    (sampleBank.remoteDomains.atName "bank.example".toList).isEmpty = false ∧
    (sampleBank.domains.atName "bank.example".toList).deleted = false ∧
    (sampleBank.remoteDomains.atName "bank.example".toList).modifiedDate <
      (sampleBank.domains.atName "bank.example".toList).modifiedDate ∧
    ¬ ((mergeLocalAndRemoteData sampleGenerate sampleBank).remoteDomains.atName
      "bank.example".toList).legacyPassword ≠ [] := by
  decide

/-- C4, amended: with the KGK mismatch flagged, a non-empty master password and
a generator that returns non-empty passwords, take a domain name of the stores
that both sides hold, non-deleted and newer on the local side. Let the name not
be mixed up with disambiguated forms that differ in case only: a disambiguated
form of a name of the stores that matches the name up to case is the name of
the local record, and a tombstone of the stores whose name matches a
disambiguated form of the name up to case has that form as its name. After the
merge the remote store still holds the older remote record under that same
name, and it holds a record with a non-empty legacy password under a
disambiguated name `alternativeName n i`. -/
theorem C4_frozen_copy_under_alternative_name (g : Generator) (d : MainWindowPrivate)
    (n : QString)
    (hflag : d.doConvertLocalToLegacy = true)
    (hmp : d.masterPassword ≠ [])
    (hgen : ∀ key x, g key x ≠ [])
    (hkey : n ∈ allDomainNames d)
    (hl : (d.domains.atName n).isEmpty = false)
    (hr : (d.remoteDomains.atName n).isEmpty = false)
    (hdel : (d.domains.atName n).deleted = false)
    (hdate : (d.remoteDomains.atName n).modifiedDate < (d.domains.atName n).modifiedDate)
    (hforms : ∀ m ∈ allDomainNames d, ∀ i, sameName (alternativeName m i) n = true →
      alternativeName m i = (d.domains.atName n).domainName)
    (htomb : ∀ x, (x ∈ d.domains.items ∨ x ∈ d.remoteDomains.items) → x.deleted = true →
      ∀ i, sameName (alternativeName n i) x.domainName = true →
        alternativeName n i = x.domainName) :
    (mergeLocalAndRemoteData g d).remoteDomains.atName n = d.remoteDomains.atName n ∧
    ∃ i, 1 ≤ i ∧
      ((mergeLocalAndRemoteData g d).remoteDomains.atName
        (alternativeName n i)).legacyPassword ≠ [] := by
  have hn := (d.domains.atName_validAt n).name_ne_nil hl
  have hkept := foldl_mergeStep_pair_kept g n hn
    (d.domains.atName n) (d.remoteDomains.atName n) hl hr hdel hdate
  constructor
  · exact congrArg Prod.snd (hkept (allDomainNames d) d hforms hflag rfl)
  · obtain ⟨s, t, hst⟩ := List.append_of_mem hkey
    have hs : ∀ m ∈ s, m ∈ allDomainNames d := fun m hm => by
      rw [hst]; exact List.mem_append_left _ hm
    have hp1 := hkept s d (fun m hm => hforms m (hs m hm)) hflag rfl
    have hf1 : (s.foldl (mergeStep g) d).doConvertLocalToLegacy = true := by
      rw [foldl_mergeStep_doConvertLocalToLegacy]; exact hflag
    have hm1 : (s.foldl (mergeStep g) d).masterPassword ≠ [] := by
      rw [foldl_mergeStep_masterPassword]; exact hmp
    have hw1 : TombstonesFrom d (s.foldl (mergeStep g) d) :=
      foldl_mergeStep_tombstonesFrom g d s d (fun _ hx _ => hx)
    obtain ⟨i, hi, hfree, hdom, hpush⟩ := mergeStep_pushes_selected g (s.foldl (mergeStep g) d) n
      (d.domains.atName n) (d.remoteDomains.atName n) hp1 hf1 hl hr hdel hdate
    refine ⟨i, hi, ?_⟩
    unfold mergeLocalAndRemoteData
    rw [hst, List.foldl_append, List.foldl_cons]
    apply foldl_mergeStep_frozen_kept g (alternativeName n i) hgen t
    · rw [mergeStep_doConvertLocalToLegacy]; exact hf1
    · rw [mergeStep_masterPassword]; exact hm1
    · rw [hpush]
      refine ⟨convertToLegacyPassword_ne_nil g _ _ hm1 hgen, ?_⟩
      show (convertToLegacyPassword g _ (d.domains.atName n)).deleted = false
      rw [convertToLegacyPassword_deleted]; exact hdel
    · rw [hdom]
      cases he : ((s.foldl (mergeStep g) d).domains.atName (alternativeName n i)).isEmpty with
      | true => exact Or.inl rfl
      | false =>
        right
        cases hd : ((s.foldl (mergeStep g) d).domains.atName (alternativeName n i)).deleted with
        | false => rfl
        | true =>
          exfalso
          have hmem := atName_mem_of_isEmpty _ _ he
          have hv := (DomainSettingsList.atName_validAt _ (alternativeName n i)).isEmpty_false he
          rw [sameName_comm] at hv
          have hex := htomb _ (hw1 _ (Or.inl hmem) hd) hd i hv
          apply hfree
          rw [hex]
          exact List.mem_map.mpr ⟨_, hmem, rfl⟩

/-- C4 amended, a worked instance: `bank.example` on both sides, newer on the
local side, KGK mismatch flagged; the local store holds `bank.example (1)` too,
so that the frozen copy goes to `bank.example (2)`. -/
theorem C4_frozen_copy_under_alternative_name_witness :
    sampleBankTaken.doConvertLocalToLegacy = true ∧
    (sampleBankTaken.remoteDomains.atName "bank.example".toList).modifiedDate <
      (sampleBankTaken.domains.atName "bank.example".toList).modifiedDate ∧
    ((mergeLocalAndRemoteData sampleGenerate sampleBankTaken).remoteDomains.atName
      "bank.example (2)".toList).legacyPassword = "bank.example#mp".toList ∧
    ((mergeLocalAndRemoteData sampleGenerate sampleBankTaken).remoteDomains.atName
      "bank.example".toList = sampleBankTaken.remoteDomains.atName "bank.example".toList ∧
    ∃ i, 1 ≤ i ∧
      ((mergeLocalAndRemoteData sampleGenerate sampleBankTaken).remoteDomains.atName
        (alternativeName "bank.example".toList i)).legacyPassword ≠ []) :=
  ⟨by decide, by decide, by decide,
    C4_frozen_copy_under_alternative_name sampleGenerate sampleBankTaken "bank.example".toList
      (by decide) (by decide) (by intro key x; simp [sampleGenerate]) (by decide)
      (by decide) (by decide) (by decide) (by decide)
      (fun m _ i h => by
        rw [sameName_alternativeName_false m _ i (by decide)] at h
        exact absurd h (by decide))
      (fun x hx hd => by
        exfalso
        have hall : (sampleBankTaken.domains.items ++ sampleBankTaken.remoteDomains.items).all
            (fun y => !y.deleted) = true := by decide
        have := List.all_eq_true.mp hall x (List.mem_append.mpr hx)
        rw [hd] at this
        exact absurd this (by decide))⟩

/-- C5, the code at the failing input: the KGK mismatch is flagged and the local
tombstone `X (1)` has no remote counterpart. The frozen copy of `x` is pushed
as `x (1)`, a name that the case-sensitive test against the local names lets
pass; the round for `X (1)` takes it for the remote counterpart and stores it
in place of the tombstone. After the merge the local store holds a record
under the name `X (1)`. -/
theorem C5_tombstone_kept :
    sampleTombstoneVariant.doConvertLocalToLegacy = true ∧
    (sampleTombstoneVariant.domains.atName "X (1)".toList).deleted = true ∧
    (sampleTombstoneVariant.remoteDomains.atName "X (1)".toList).isEmpty = true ∧
    ¬ ((mergeLocalAndRemoteData sampleGenerate sampleTombstoneVariant).domains.atName
      "X (1)".toList).isEmpty = true ∧
    ((mergeLocalAndRemoteData sampleGenerate sampleTombstoneVariant).domains.atName
      "X (1)".toList).domainName = "x (1)".toList := by
  decide

/-- C6, the code at the failing input: the KGK mismatch is flagged, the master
password is `mp`, the held KGK is the byte 2, and the local record
`new.example`, not deleted and without a legacy password, has no remote
counterpart. The copy that the remote store holds after the merge is the local
record with a legacy password that the generator made of the master password;
it is not the password that the generator makes of the KGK for the record. -/
theorem C6_literal_from_master_password :
    sampleNewRecord.doConvertLocalToLegacy = true ∧
    sampleNewRecord.masterPassword = "mp".toList ∧
    sampleNewRecord.KGK = [2] ∧
    sampleNewRecord.domains.atName "new.example".toList = record "new.example" 1 ∧
    (sampleNewRecord.remoteDomains.atName "new.example".toList).isEmpty = true ∧
    (mergeLocalAndRemoteData sampleGenerate sampleNewRecord).remoteDomains.atName
      "new.example".toList =
        { record "new.example" 1 with
          legacyPassword := sampleGenerate (toUtf8 "mp".toList) (record "new.example" 1) } ∧
    sampleGenerate (toUtf8 "mp".toList) (record "new.example" 1) ≠
      sampleGenerate [2] (record "new.example" 1) :=
  ⟨by decide, by decide, by decide, by decide, by decide, by decide, by decide⟩

/-- C7, the code at the failing input: only the remote store has a record
`a (1)`. The frozen copy of the local record `a` is pushed under the name
`a (1)` and replaces it, so after the merge neither store holds the remote
record `a (1)`. -/
theorem C7_remote_record_overwritten :
    (sampleCollision.domains.atName "a (1)".toList).isEmpty = true ∧
    sampleCollision.remoteDomains.atName "a (1)".toList = record "a (1)" 2 ∧
    (mergeLocalAndRemoteData sampleGenerate sampleCollision).domains.atName "a (1)".toList ≠
      record "a (1)" 2 ∧
    (mergeLocalAndRemoteData sampleGenerate sampleCollision).remoteDomains.atName
      "a (1)".toList ≠ record "a (1)" 2 := by
  decide

/-- C8, refuted as stated: with no KGK mismatch flagged, `a.example` is held on
both sides with the same date and different user names; after the merge the
two stores hold different records under that name. -/
theorem C8_not_converged :
    sampleEqualDates.doConvertLocalToLegacy = false ∧
    "a.example".toList ∈ allDomainNames sampleEqualDates ∧
    ¬ ((mergeLocalAndRemoteData sampleGenerate sampleEqualDates).domains.atName
          "a.example".toList =
        (mergeLocalAndRemoteData sampleGenerate sampleEqualDates).remoteDomains.atName
          "a.example".toList ∨
      (((mergeLocalAndRemoteData sampleGenerate sampleEqualDates).domains.atName
          "a.example".toList).isEmpty = true ∧
        ((mergeLocalAndRemoteData sampleGenerate sampleEqualDates).remoteDomains.atName
          "a.example".toList).isEmpty = true)) := by
  decide

/-- C8, amended: with no KGK mismatch flagged, for every domain name for which
one of the input stores has a record, after the merge both stores hold the same
record under that name or both hold none, unless the two sides held records
with equal modification dates: then each side keeps its own record. -/
theorem C8_converged_unless_equal_dates (g : Generator) (d : MainWindowPrivate) (n : QString)
    (hflag : d.doConvertLocalToLegacy = false)
    (hpres : (d.domains.atName n).isEmpty = false ∨
      (d.remoteDomains.atName n).isEmpty = false) :
    (mergeLocalAndRemoteData g d).domains.atName n =
      (mergeLocalAndRemoteData g d).remoteDomains.atName n ∨
    ((d.domains.atName n).isEmpty = false ∧ (d.remoteDomains.atName n).isEmpty = false ∧
      (d.remoteDomains.atName n).modifiedDate = (d.domains.atName n).modifiedDate ∧
      (mergeLocalAndRemoteData g d).domains.atName n = d.domains.atName n ∧
      (mergeLocalAndRemoteData g d).remoteDomains.atName n = d.remoteDomains.atName n) := by
  have vl := d.domains.atName_validAt n
  have vr := d.remoteDomains.atName_validAt n
  have hn : n ≠ [] := hpres.elim vl.name_ne_nil vr.name_ne_nil
  have hany : (allDomainNames d).any (fun m => sameName m n) = true :=
    hpres.elim (any_allDomainNames_of_local d n) (any_allDomainNames_of_remote d n)
  have hp := mergeLocalAndRemoteData_pairAt g d n hn (fun _ _ => Or.inl hflag) hany
  have h1 := congrArg Prod.fst hp
  have h2 := congrArg Prod.snd hp
  simp only [pairAt] at h1 h2
  rw [h1, h2]
  by_cases hA : (d.domains.atName n).isEmpty = false ∧ (d.remoteDomains.atName n).isEmpty = false
  · by_cases hgt : (d.remoteDomains.atName n).modifiedDate > (d.domains.atName n).modifiedDate
    · left; simp [keyStep, hA, hgt]
    · by_cases hlt : (d.remoteDomains.atName n).modifiedDate < (d.domains.atName n).modifiedDate
      · left; simp [keyStep, hA, hgt, hlt, hflag]
      · right
        refine ⟨hA.1, hA.2, le_antisymm (not_lt.mp hgt) (not_lt.mp hlt), ?_, ?_⟩ <;>
          simp [keyStep, hA, hgt, hlt]
  · left
    by_cases hB : (d.remoteDomains.atName n).isEmpty = true
    · have hl : (d.domains.atName n).isEmpty = false := by
        rcases hpres with h | h
        · exact h
        · rw [hB] at h; exact absurd h (by simp)
      have hln := vl.isEmpty_false hl
      have hre := vr.eq_empty hn hB
      by_cases hd : (d.domains.atName n).deleted = false
      · simp [keyStep, hl, hB, hd, hln, pushedWhenLocalOnly, hflag]
      · simp [keyStep, hl, hd, hre, isEmpty_empty]
    · have hr2 : (d.remoteDomains.atName n).isEmpty = false := by simpa using hB
      have hl2 : (d.domains.atName n).isEmpty = true := by
        cases h : (d.domains.atName n).isEmpty with
        | true => rfl
        | false => exact absurd ⟨h, hr2⟩ hA
      simp [keyStep, hl2, hr2]

/-- C8 amended, a worked instance: after the merge of the three names of
`sampleLastWriter` both stores hold the same record under `b.example`. -/
theorem C8_converged_unless_equal_dates_witness :
    sampleLastWriter.doConvertLocalToLegacy = false ∧
    (sampleLastWriter.domains.atName "b.example".toList).isEmpty = false ∧
    (mergeLocalAndRemoteData sampleGenerate sampleLastWriter).domains.atName
        "b.example".toList =
      (mergeLocalAndRemoteData sampleGenerate sampleLastWriter).remoteDomains.atName
        "b.example".toList :=
  ⟨by decide, by decide,
    (C8_converged_unless_equal_dates sampleGenerate sampleLastWriter "b.example".toList
      (by decide) (Or.inl (by decide))).elim id (fun h => absurd h.2.2.1 (by decide))⟩

/-- C9, the code at the failing input: the round of the merge for `a` picks the
name `a (1)`, which is free in the local store but taken in the remote store,
and the push replaces the remote record `a (1)`. -/
theorem C9_renamed_record_collides :
    selectAlternativeDomainNameFor "a".toList sampleCollision.domains.keys = "a (1)".toList ∧
    "a (1)".toList ∈ sampleCollision.remoteDomains.keys ∧
    sampleCollision.remoteDomains.atName "a (1)".toList = record "a (1)" 2 ∧
    (mergeStep sampleGenerate sampleCollision "a".toList).remoteDomains.atName "a (1)".toList =
      { record "a" 5 with domainName := "a (1)".toList, legacyPassword := "a#mp".toList } ∧
    (mergeStep sampleGenerate sampleCollision "a".toList).remoteDomains.keys =
      ["a".toList, "a (1)".toList] := by
  decide

/-- C10, the code at the failing input: for the domain name `%1` and an empty
list the result is `1 (%2)`, not `%1 (1)`: the second `arg` call fills the
marker that the domain name brought in. -/
theorem C10_marker_in_domain_name :
    selectAlternativeDomainNameFor "%1".toList [] = "1 (%2)".toList ∧
    selectAlternativeDomainNameFor "%1".toList [] ≠ "%1 (1)".toList := by
  decide

/-- C11, the code at the failing input: the store and the combo box are empty
and two different source records are both named `mail.com`. The combo box is
rebuilt only after the import loop, so the search finds neither of them: both
are stored under `mail.com`, no record is stored under `mail.com (1)`, and the
list `renamed` stays empty; the same holds for both import functions. -/
theorem C11_imported_twice_under_one_name :
    sampleEmptyWindow.d.domains.keys = [] ∧
    sampleEmptyWindow.domainsComboBox = [] ∧
    (onImportKeePass2XmlFile sampleEmptyWindow sampleImported).map
        (fun r => (r.1.d.domains.keys, r.2, r.1.domainsComboBox)) =
      some (["mail.com".toList, "mail.com".toList], [],
        ["mail.com".toList, "mail.com".toList]) ∧
    (onImportPasswordSafeFile sampleCollaborators sampleEmptyWindow sampleImported).map
        (fun r => (r.1.d.domains.keys, r.2, r.1.domainsComboBox)) =
      some (["mail.com".toList, "mail.com".toList], [],
        ["mail.com".toList, "mail.com".toList]) :=
  ⟨by decide, by decide, by decide, by decide⟩

/-- C12: KGK-mismatch detection. When the peer payload is not empty and the
current master password decodes it to a payload and a KGK `K`, the decoding
block of `syncWith` ends with the held KGK equal to `K` and with the flag
`doConvertLocalToLegacy` set exactly if the KGK held before differs from `K` and
the local store is not empty; both still hold when the merge has run, and with
equal KGKs the flag is off. -/
theorem C12_kgk_mismatch_detection (env : Collaborators) (w : MainWindow)
    (enc baDomains K : QByteArray) (hne : enc ≠ [])
    (hdec : env.decode (toUtf8 w.d.masterPassword) enc = some (baDomains, K)) :
    (∃ d1, syncWithDecode env.decode w.d enc = Decoding.decoded d1 baDomains ∧
      d1.KGK = K ∧
      (d1.doConvertLocalToLegacy = true ↔ w.d.KGK ≠ K ∧ w.d.domains.isEmpty = false)) ∧
    (mergedWindow env w enc).d.KGK = K ∧
    ((mergedWindow env w enc).d.doConvertLocalToLegacy = true ↔
      w.d.KGK ≠ K ∧ w.d.domains.isEmpty = false) ∧
    (w.d.KGK = K → (mergedWindow env w enc).d.doConvertLocalToLegacy = false) := by
  have h := syncWithDecode_decoded env.decode w.d enc baDomains K hne hdec
  have hm : (mergedWindow env w enc).d.KGK = K ∧
      (mergedWindow env w enc).d.doConvertLocalToLegacy =
        (decide (w.d.KGK ≠ K) && !w.d.domains.isEmpty) := by
    unfold mergedWindow syncWithUntilMerged
    simp only [h]
    rw [mergeLocalAndRemoteData_frame]
    exact ⟨rfl, rfl⟩
  refine ⟨⟨_, h, rfl, ?_⟩, hm.1, ?_, ?_⟩
  · simp
  · rw [hm.2]; simp
  · intro hk; rw [hm.2]; simp [hk]

/-- C12, a worked instance: the window holds the KGK `[2]` and one record, the
peer payload carries the KGK `[9]`; after the merge the held KGK is `[9]` and
the flag is set. -/
theorem C12_kgk_mismatch_detection_witness :
    samplePeerPayload ≠ [] ∧
    sampleCollaborators.decode (toUtf8 sampleUnlocked.d.masterPassword) samplePeerPayload =
      some (sampleToJson [], [9]) ∧
    sampleUnlocked.d.KGK = [2] ∧
    (mergedWindow sampleCollaborators sampleUnlocked samplePeerPayload).d.KGK = [9] ∧
    (mergedWindow sampleCollaborators sampleUnlocked samplePeerPayload).d.doConvertLocalToLegacy =
      true :=
  ⟨by decide, by decide, by decide,
    (C12_kgk_mismatch_detection sampleCollaborators sampleUnlocked samplePeerPayload
      (sampleToJson []) [9] (by decide) (by decide)).2.1,
    (C12_kgk_mismatch_detection sampleCollaborators sampleUnlocked samplePeerPayload
      (sampleToJson []) [9] (by decide) (by decide)).2.2.1.mpr ⟨by decide, by decide⟩⟩

/-- C13: a decryption failure aborts the sync. When the peer payload is not
empty and decoding fails with the current master password and, during a master
password change, with the new password too, `syncWith` returns the window it
was given with the flag `doConvertLocalToLegacy` reset: the local store, the
remote store, the held KGK, the persisted settings, the sync file and what has
been sent to the peers are as before. -/
theorem C13_decryption_failure_aborts (env : Collaborators) (w : MainWindow)
    (syncPeer : SyncPeer) (enc : QByteArray) (hne : enc ≠ [])
    (h1 : env.decode (toUtf8 w.d.masterPassword) enc = none)
    (h2 : w.d.masterPasswordChangeStep ≠ 0 → env.decode (toUtf8 w.d.newPassword) enc = none) :
    syncWith env w syncPeer enc = { w with d := { w.d with doConvertLocalToLegacy := false } } := by
  unfold syncWith
  rw [syncWithDecode_aborted env.decode w.d enc hne h1 h2]

/-- C13, a worked instance: a payload sealed with another password leaves the
window with a tombstone and a record as it was. -/
theorem C13_decryption_failure_aborts_witness :
    sampleForeignPayload ≠ [] ∧
    sampleCollaborators.decode (toUtf8 sampleWithTombstone.d.masterPassword)
      sampleForeignPayload = none ∧
    syncWith sampleCollaborators sampleWithTombstone SyncPeerFile sampleForeignPayload =
      sampleWithTombstone :=
  ⟨by decide, by decide,
    (C13_decryption_failure_aborts sampleCollaborators sampleWithTombstone SyncPeerFile
      sampleForeignPayload (by decide) (by decide) (fun h => absurd rfl h)).trans (by decide)⟩

/-- C14, the code at the failing input: the peer payload opens with the master
password, its KGK is the held one, and its content is not valid JSON. The
merge runs against an empty remote store: the tombstone `gone.example` is
removed from the local store, and the record `a.example` is written back to
the sync file. -/
theorem C14_merged_with_malformed_payload :
    sampleCollaborators.decode (toUtf8 sampleWithTombstone.d.masterPassword)
      sampleMalformedPayload = some ([1, 2, 3], [2]) ∧
    sampleCollaborators.fromJson [1, 2, 3] = none ∧
    sampleWithTombstone.d.domains.items = [tombstone "gone.example" 1, record "a.example" 5] ∧
    (syncWith sampleCollaborators sampleWithTombstone SyncPeerFile
      sampleMalformedPayload).d.domains.items = [record "a.example" 5] ∧
    (syncWith sampleCollaborators sampleWithTombstone SyncPeerFile
      sampleMalformedPayload).fileWrites =
        [(sampleEncode sampleWithTombstone.d.masterKey sampleWithTombstone.d.IV
          sampleWithTombstone.d.salt [2] (sampleToJson [record "a.example" 5])).getD []] :=
  ⟨by decide, by decide, by decide, by decide, by decide⟩

/-- C15, the code at the failing input: the sync file cannot be opened for
reading. `syncWithFile` goes on with no bytes: the merge runs against an empty
remote store, the tombstone `gone.example` is removed from the local store, and
a ciphertext is written to the sync file. -/
theorem C15_synced_with_unreadable_file :
    sampleUnreadableFile.syncFile.readable = false ∧
    sampleUnreadableFile.d.domains.items =
      [tombstone "gone.example" 1, record "a.example" 5] ∧
    (syncWithFile sampleCollaborators sampleUnreadableFile).d.domains.items =
      [record "a.example" 5] ∧
    (syncWithFile sampleCollaborators sampleUnreadableFile).fileWrites =
      [(sampleEncode sampleUnreadableFile.d.masterKey sampleUnreadableFile.d.IV
        sampleUnreadableFile.d.salt [2] (sampleToJson [record "a.example" 5])).getD []] ∧
    (syncWithFile sampleCollaborators sampleUnreadableFile).syncFile.content ≠ [] :=
  ⟨by decide, by decide, by decide, by decide, by decide⟩

/-- C16, refuted as stated: file sync and server sync are both enabled, and the
sync with the file leaves the remote store dirty (the record `a.example` is
new to the peer). The ciphertext is written to the sync file, and nothing is
posted to the sync server. -/
theorem C16_server_left_out :
    sampleUnlocked.optionsDialog.syncToFileEnabled = true ∧
    sampleUnlocked.optionsDialog.syncToServerEnabled = true ∧
    (mergedWindow sampleCollaborators sampleUnlocked []).d.remoteDomains.dirty = true ∧
    (syncWith sampleCollaborators sampleUnlocked SyncPeerFile []).fileWrites.length = 1 ∧
    (syncWith sampleCollaborators sampleUnlocked SyncPeerFile []).serverPosts = [] :=
  ⟨by decide, by decide, by decide, by decide, by decide⟩

/-- C16, amended: when the decoding block of `syncWith` does not give up, the
remote store is dirty after the merge, the credentials are valid and the
encoder returns a ciphertext that is not empty for the JSON text of the remote
store, then `syncWith` sends exactly that ciphertext, and only to the peers
that `syncPeer` names: to the sync file if `syncPeer` has the flag of the file,
file sync is enabled and the file can be written, to the sync server if
`syncPeer` has the flag of the server and server sync is enabled. -/
theorem C16_pushed_to_the_peer_of_the_sync (env : Collaborators) (w : MainWindow)
    (syncPeer : SyncPeer) (enc cipher : QByteArray)
    (hdec : ∃ d1 ba, syncWithDecode env.decode w.d enc = Decoding.decoded d1 ba)
    (hdirty : (mergedWindow env w enc).d.remoteDomains.dirty = true)
    (hvalid : validCredentials w = true)
    (henc : env.encode w.d.masterKey w.d.IV w.d.salt (kgk env (mergedWindow env w enc)).2
      (env.toJson (mergedWindow env w enc).d.remoteDomains.items) = some cipher)
    (hc : cipher ≠ []) :
    (syncWith env w syncPeer enc).fileWrites =
      (if (syncPeer &&& SyncPeerFile) = SyncPeerFile ∧ w.optionsDialog.syncToFileEnabled = true ∧
          w.syncFile.writable = true
        then cipher :: w.fileWrites else w.fileWrites) ∧
    (syncWith env w syncPeer enc).serverPosts =
      (if (syncPeer &&& SyncPeerServer) = SyncPeerServer ∧
          w.optionsDialog.syncToServerEnabled = true
        then cipher :: w.serverPosts else w.serverPosts) := by
  obtain ⟨d1, ba, hd⟩ := hdec
  obtain ⟨a, b, f, k, hm⟩ := mergedWindow_frame env w enc
  have hvalid1 : validCredentials (mergedWindow env w enc) = true := by
    rw [hm]; exact hvalid
  have hcipher : (cryptedRemoteDomains env (mergedWindow env w enc)).2 = cipher := by
    rw [cryptedRemoteDomains_valid env _ hvalid1]
    have h1 : (mergedWindow env w enc).d.masterKey = w.d.masterKey := by rw [hm]
    have h2 : (mergedWindow env w enc).d.IV = w.d.IV := by rw [hm]
    have h3 : (mergedWindow env w enc).d.salt = w.d.salt := by rw [hm]
    rw [h1, h2, h3, henc]
    rfl
  have hsent := writeToRemote_sent env (mergedWindow env w enc) syncPeer cipher hcipher hc
  have hafter := syncWithAfterMerge_sent env (mergedWindow env w enc) syncPeer
  rw [hdirty] at hafter
  simp only [if_true] at hafter
  have h4 : (mergedWindow env w enc).optionsDialog = w.optionsDialog := by rw [hm]
  have h5 : (mergedWindow env w enc).syncFile = w.syncFile := by rw [hm]
  have h6 : (mergedWindow env w enc).fileWrites = w.fileWrites := by rw [hm]
  have h7 : (mergedWindow env w enc).serverPosts = w.serverPosts := by rw [hm]
  rw [h4, h5, h6, h7] at hsent
  unfold syncWith
  rw [hd]
  simp only
  rw [hafter.1, hafter.2]
  exact hsent

/-- C16 amended, a worked instance: the sync with the server, for a window
whose record `a.example` is new to the peer, posts the ciphertext of the remote
store to the server and writes nothing to the sync file. -/
theorem C16_pushed_to_the_peer_of_the_sync_witness :
    (mergedWindow sampleCollaborators sampleUnlocked []).d.remoteDomains.dirty = true ∧
    validCredentials sampleUnlocked = true ∧
    (syncWith sampleCollaborators sampleUnlocked SyncPeerServer []).fileWrites = [] ∧
    (syncWith sampleCollaborators sampleUnlocked SyncPeerServer []).serverPosts =
      [(sampleEncode sampleUnlocked.d.masterKey sampleUnlocked.d.IV sampleUnlocked.d.salt [2]
        (sampleToJson [record "a.example" 5])).getD []] :=
  ⟨by decide, by decide,
    (C16_pushed_to_the_peer_of_the_sync sampleCollaborators sampleUnlocked SyncPeerServer []
      ((sampleEncode sampleUnlocked.d.masterKey sampleUnlocked.d.IV sampleUnlocked.d.salt [2]
        (sampleToJson [record "a.example" 5])).getD [])
      ⟨_, _, rfl⟩ (by decide) (by decide) (by decide) (by decide)).1.trans (by decide),
    (C16_pushed_to_the_peer_of_the_sync sampleCollaborators sampleUnlocked SyncPeerServer []
      ((sampleEncode sampleUnlocked.d.masterKey sampleUnlocked.d.IV sampleUnlocked.d.salt [2]
        (sampleToJson [record "a.example" 5])).getD [])
      ⟨_, _, rfl⟩ (by decide) (by decide) (by decide) (by decide)).2.trans (by decide)⟩

/-- C17, the code at the failing input: the master key and the IV are empty and
the entry `sync/param` holds `[4, 5, 6]`. `saveSyncDataToSettings` calls no
encoder and overwrites the entry with the empty ciphertext;
`saveAllDomainDataToSettings` changes nothing. -/
theorem C17_sync_param_overwritten :
    validCredentials sampleNoCredentials = false ∧
    sampleNoCredentials.d.settings.syncParam = [4, 5, 6] ∧
    (saveSyncDataToSettings sampleCollaborators sampleNoCredentials).encodeCalls = [] ∧
    (saveSyncDataToSettings sampleCollaborators sampleNoCredentials).d.settings.syncParam = [] ∧
    saveAllDomainDataToSettings sampleCollaborators sampleNoCredentials = sampleNoCredentials :=
  ⟨by decide, by decide, by decide, by decide, by decide⟩

/-- C18, the code at the failing input: after `invalidateMasterPassword` the
master password, the KGK and the master key are empty, and the IV still holds
the bytes it held before. -/
theorem C18_IV_not_erased :
    sampleUnlocked.d.IV = [7] ∧
    (invalidateMasterPassword sampleUnlocked true).d.masterPassword = [] ∧
    (invalidateMasterPassword sampleUnlocked true).d.KGK = [] ∧
    (invalidateMasterPassword sampleUnlocked true).d.masterKey = [] ∧
    (invalidateMasterPassword sampleUnlocked true).d.IV = [7] ∧
    (invalidateMasterPassword sampleUnlocked false).d.IV = [7] :=
  ⟨by decide, by decide, by decide, by decide, by decide, by decide⟩

/-- C19, the code at the failing input: the store holds `a.example` as a
tombstone of the time `5`, so the combo box does not show the name. Saving a
record under that name at the time `1000` stores it with `createdDate = 1000`
and a cleared `modifiedDate`, not with `modifiedDate = 1000`. At the next merge
with a peer that holds the tombstone, the record saved anew is the older one
and the tombstone takes its place. -/
theorem C19_tombstone_counts_as_absent :
    sampleOnlyTombstone.d.domains.atName "a.example".toList = tombstone "a.example" 5 ∧
    sampleOnlyTombstone.domainsComboBox = (makeDomainComboBox sampleOnlyTombstone).domainsComboBox ∧
    (saveDomainSettings sampleCollaborators 1000 sampleOnlyTombstone
      (record "a.example" 0)).d.domains.atName "a.example".toList =
        { record "a.example" 0 with createdDate := 1000, modifiedDate := 0 } ∧
    sampleRecreated.doConvertLocalToLegacy = false ∧
    sampleRecreated.domains.atName "a.example".toList =
      { record "a.example" 0 with createdDate := 1000, modifiedDate := 0 } ∧
    sampleRecreated.remoteDomains.atName "a.example".toList = tombstone "a.example" 5 ∧
    (mergeLocalAndRemoteData sampleGenerate sampleRecreated).domains.atName
      "a.example".toList = tombstone "a.example" 5 :=
  ⟨by decide, by decide, by decide, by decide, by decide, by decide, by decide⟩

/-- C20, refuted as stated: during a master password change two saves in a row
both store a ciphertext as `sync/domains`, the second one for a store with one
more record, and both encode with the salt `[7]`: salt, key and IV are not
regenerated. -/
theorem C20_salt_kept_during_password_change :
    sampleChangingPassword.d.settings.syncDomains = [] ∧
    (saveAllDomainDataToSettings sampleCollaborators
      sampleChangingPassword).d.settings.syncDomains ≠ [] ∧
    (saveAllDomainDataToSettings sampleCollaborators sampleChangingPassword).d.salt = [7] ∧
    (saveDomainSettings sampleCollaborators 1000
      (saveAllDomainDataToSettings sampleCollaborators sampleChangingPassword)
      (record "b.example" 0)).d.settings.syncDomains ≠
        (saveAllDomainDataToSettings sampleCollaborators
          sampleChangingPassword).d.settings.syncDomains ∧
    (saveDomainSettings sampleCollaborators 1000
      (saveAllDomainDataToSettings sampleCollaborators sampleChangingPassword)
      (record "b.example" 0)).encodeCalls.map EncodeCall.salt = [[7], [7]] :=
  ⟨by decide, by decide, by decide, by decide, by decide⟩

/-- C20, amended: take a call of `saveAllDomainDataToSettings` with valid
credentials that stores a ciphertext which is not empty as `sync/domains`.
While no master password change is in progress and the master password is not
empty, the salt is replaced before the call returns by the next draw of the
salt generator, and the master key and the IV are derived from the master
password and that salt; a save that follows with valid credentials encodes
with the new salt, the first one having encoded with the salt held before.
During a master password change the call keeps salt, key and IV, and a save
that follows encodes with the same salt as the first. -/
theorem C20_regenerated_outside_password_change (env : Collaborators) (w : MainWindow)
    (cipher : QByteArray)
    (hvalid : validCredentials w = true)
    (henc : (encodeWithCredentials env w (env.toJson w.d.domains.items)).2 = some cipher)
    (hc : cipher ≠ []) :
    (saveAllDomainDataToSettings env w).d.settings.syncDomains = cipher ∧
    (w.d.masterPasswordChangeStep = 0 → w.d.masterPassword ≠ [] →
      (saveAllDomainDataToSettings env w).d.salt = env.generateSalt (kgk env w).1.entropy ∧
      ((saveAllDomainDataToSettings env w).d.masterKey,
          (saveAllDomainDataToSettings env w).d.IV) =
        env.makeKeyAndIVFromPassword (toUtf8 w.d.masterPassword)
          (env.generateSalt (kgk env w).1.entropy) ∧
      (validCredentials (saveAllDomainDataToSettings env w) = true →
        (saveAllDomainDataToSettings env (saveAllDomainDataToSettings env w)).encodeCalls.map
            EncodeCall.salt =
          env.generateSalt (kgk env w).1.entropy :: w.d.salt ::
            w.encodeCalls.map EncodeCall.salt)) ∧
    (w.d.masterPasswordChangeStep ≠ 0 →
      (saveAllDomainDataToSettings env w).d.salt = w.d.salt ∧
      (saveAllDomainDataToSettings env w).d.masterKey = w.d.masterKey ∧
      (saveAllDomainDataToSettings env w).d.IV = w.d.IV ∧
      (saveAllDomainDataToSettings env (saveAllDomainDataToSettings env w)).encodeCalls.map
          EncodeCall.salt =
        w.d.salt :: w.d.salt :: w.encodeCalls.map EncodeCall.salt) := by
  have hsalts := saveAllDomainDataToSettings_salts env w hvalid
  by_cases hstep : w.d.masterPasswordChangeStep = 0
  · have hst := saveAllDomainDataToSettings_stored env w cipher hstep hvalid henc hc
    refine ⟨?_, fun _ hmp => ⟨?_, ?_, fun hnext => ?_⟩, fun h => absurd hstep h⟩
    · rw [hst]
      by_cases hb : w.optionsDialog.writeBackups = true
      · rw [if_pos hb, (generateSaltKeyIV_keeps env _).1]; rfl
      · rw [if_neg hb, (generateSaltKeyIV_keeps env _).1]
    · rw [hst, encodeWithCredentials_fst]
      by_cases hb : w.optionsDialog.writeBackups = true
      · rw [if_pos hb, generateSaltKeyIV_spec _ _ (by simpa [writeBackupFile] using hmp)]
        simp [writeBackupFile]
      · rw [if_neg hb, generateSaltKeyIV_spec _ _ (by simpa using hmp)]
    · rw [hst, encodeWithCredentials_fst]
      by_cases hb : w.optionsDialog.writeBackups = true
      · rw [if_pos hb, generateSaltKeyIV_spec _ _ (by simpa [writeBackupFile] using hmp)]
        simp [writeBackupFile]
      · rw [if_neg hb, generateSaltKeyIV_spec _ _ (by simpa using hmp)]
    · have hsalts2 := saveAllDomainDataToSettings_salts env _ hnext
      rw [hsalts2, hsalts]
      clear hsalts hsalts2 hnext
      rw [hst, encodeWithCredentials_fst]
      by_cases hb : w.optionsDialog.writeBackups = true
      · rw [if_pos hb, generateSaltKeyIV_spec _ _ (by simpa [writeBackupFile] using hmp)]
        simp [writeBackupFile]
      · rw [if_neg hb, generateSaltKeyIV_spec _ _ (by simpa using hmp)]
  · have hst := saveAllDomainDataToSettings_stored_changing env w cipher hstep hvalid henc hc
    have h1 : (saveAllDomainDataToSettings env w).d.salt = w.d.salt := by
      rw [hst, encodeWithCredentials_fst]
    have h2 : (saveAllDomainDataToSettings env w).d.masterKey = w.d.masterKey := by
      rw [hst, encodeWithCredentials_fst]
    have h3 : (saveAllDomainDataToSettings env w).d.IV = w.d.IV := by
      rw [hst, encodeWithCredentials_fst]
    have hnext : validCredentials (saveAllDomainDataToSettings env w) = true := by
      unfold validCredentials at hvalid ⊢
      rw [h2, h3]; exact hvalid
    refine ⟨?_, fun h => absurd h hstep, fun _ => ⟨h1, h2, h3, ?_⟩⟩
    · rw [hst]
    · rw [saveAllDomainDataToSettings_salts env _ hnext, hsalts, h1]

/-- C20 amended, two worked instances: a save of the unlocked window encodes
with the salt `[7]` and leaves the salt `[100]`, with which the next save
encodes; a save during a master password change leaves the salt `[7]`. -/
theorem C20_regenerated_outside_password_change_witness :
    sampleUnlocked.d.masterPasswordChangeStep = 0 ∧
    sampleUnlocked.d.salt = [7] ∧
    (saveAllDomainDataToSettings sampleCollaborators sampleUnlocked).d.salt = [100] ∧
    (saveAllDomainDataToSettings sampleCollaborators
      (saveAllDomainDataToSettings sampleCollaborators sampleUnlocked)).encodeCalls.map
        EncodeCall.salt = [[100], [7]] ∧
    sampleChangingPassword.d.masterPasswordChangeStep ≠ 0 ∧
    (saveAllDomainDataToSettings sampleCollaborators sampleChangingPassword).d.salt = [7] :=
  ⟨by decide, by decide,
    ((C20_regenerated_outside_password_change sampleCollaborators sampleUnlocked
      ((sampleEncode sampleUnlocked.d.masterKey sampleUnlocked.d.IV sampleUnlocked.d.salt [2]
        (sampleToJson [record "a.example" 5])).getD [])
      (by decide) (by decide) (by decide)).2.1 (by decide) (by decide)).1.trans (by decide),
    (((C20_regenerated_outside_password_change sampleCollaborators sampleUnlocked
      ((sampleEncode sampleUnlocked.d.masterKey sampleUnlocked.d.IV sampleUnlocked.d.salt [2]
        (sampleToJson [record "a.example" 5])).getD [])
      (by decide) (by decide) (by decide)).2.1 (by decide) (by decide)).2.2
        (by decide)).trans (by decide),
    by decide,
    ((C20_regenerated_outside_password_change sampleCollaborators sampleChangingPassword
      ((sampleEncode sampleChangingPassword.d.masterKey sampleChangingPassword.d.IV
        sampleChangingPassword.d.salt [2] (sampleToJson [record "a.example" 5])).getD [])
      (by decide) (by decide) (by decide)).2.2 (by decide)).1.trans (by decide)⟩

/-- C21: KGK import validation. When the question is answered with yes and a
file is chosen, `onImportKGK` makes the key read from the file the held KGK if
its size is `Crypter::KGKSize` and leaves the window as it is for every other
size; the domain store is the same in both cases. -/
theorem C21_kgk_import_validation (KGKSize : Nat) (w : MainWindow) (kgkFilename : QString)
    (kgk : QByteArray) (hfile : kgkFilename ≠ []) :
    (kgk.length = KGKSize →
      onImportKGK KGKSize w true kgkFilename kgk = { w with d := { w.d with KGK := kgk } }) ∧
    (kgk.length ≠ KGKSize → onImportKGK KGKSize w true kgkFilename kgk = w) ∧
    (onImportKGK KGKSize w true kgkFilename kgk).d.domains = w.d.domains ∧
    (onImportKGK KGKSize w true kgkFilename kgk).d.remoteDomains = w.d.remoteDomains := by
  have hf : kgkFilename.isEmpty = false := by
    cases kgkFilename with
    | nil => exact absurd rfl hfile
    | cons _ _ => rfl
  unfold onImportKGK
  simp only [if_true, hf, Bool.false_eq_true, if_false]
  by_cases hs : kgk.length = KGKSize
  · simp [hs]
  · simp [hs]

/-- C21, a worked instance with `KGKSize = 64`: a key of 64 bytes replaces the
held KGK `[2]`, a key of 3 bytes does not. -/
theorem C21_kgk_import_validation_witness :
    sampleUnlocked.d.KGK = [2] ∧
    (onImportKGK 64 sampleUnlocked true "backup.kgk".toList (List.replicate 64 7)).d.KGK =
      List.replicate 64 7 ∧
    onImportKGK 64 sampleUnlocked true "backup.kgk".toList [1, 2, 3] = sampleUnlocked :=
  ⟨by decide,
    congrArg (fun v : MainWindow => v.d.KGK)
      ((C21_kgk_import_validation 64 sampleUnlocked "backup.kgk".toList (List.replicate 64 7)
        (by decide)).1 (by decide)),
    (C21_kgk_import_validation 64 sampleUnlocked "backup.kgk".toList [1, 2, 3]
      (by decide)).2.1 (by decide)⟩

/-- C22: wrong-password rejection on restore. Let the entry `sync/domains` be
present and let decoding it with the password entered signal a decryption
failure. Then `restoreDomainDataFromSettings`, called where
`onMasterPasswordEntered` calls it, returns `false` and leaves the window as it
is, the domain store and the held KGK included; and `onMasterPasswordEntered`
ends with `ok = false`, that is with the master password dialog shown again:
no key is generated, no sync and no advice to sync follow, and the window is
the one that `restoreSettings` left. The decryption failure is a call of
`Crypter::decode` that throws and leaves its output argument, here the field
`d->KGK` itself, as it was. -/
theorem C22_wrong_password_rejected (env : Collaborators) (w : MainWindow) (masterPwd : QString)
    (repeatedPasswordEntry : Bool) (hpw : masterPwd ≠ []) (hne : w.d.settings.syncDomains ≠ [])
    (hdec : env.decode (toUtf8 masterPwd) w.d.settings.syncDomains = none) :
    restoreDomainDataFromSettings env
        (restoreSettings env { w with d := { w.d with masterPassword := masterPwd } }).1 =
      ((restoreSettings env { w with d := { w.d with masterPassword := masterPwd } }).1, false) ∧
    onMasterPasswordEntered env w masterPwd repeatedPasswordEntry =
      { window := (restoreSettings env { w with d := { w.d with masterPassword := masterPwd } }).1,
        ok := false, sync := false, advice := false } ∧
    (onMasterPasswordEntered env w masterPwd repeatedPasswordEntry).window.d.domains = w.d.domains ∧
    (onMasterPasswordEntered env w masterPwd repeatedPasswordEntry).window.d.masterKey = w.d.masterKey := by
  have hpe : masterPwd.isEmpty = false := by
    cases masterPwd with
    | nil => exact absurd rfl hpw
    | cons _ _ => rfl
  obtain ⟨k, o, hr⟩ :=
    restoreSyncSettings_frame env { w with d := { w.d with masterPassword := masterPwd } }
  have hrej : restoreDomainDataFromSettings env
        (restoreSettings env { w with d := { w.d with masterPassword := masterPwd } }).1 =
      ((restoreSettings env { w with d := { w.d with masterPassword := masterPwd } }).1,
        false) := by
    apply restoreDomainDataFromSettings_rejected
    · unfold restoreSettings; rw [hr]; exact hne
    · unfold restoreSettings; rw [hr]; exact hdec
  have hent : onMasterPasswordEntered env w masterPwd repeatedPasswordEntry =
      { window := (restoreSettings env { w with d := { w.d with masterPassword := masterPwd } }).1,
        ok := false, sync := false, advice := false } := by
    unfold onMasterPasswordEntered
    simp only [hpe, Bool.false_eq_true, if_false]
    by_cases hs : (restoreSettings env
        { w with d := { w.d with masterPassword := masterPwd } }).2 = true
    · rw [if_pos hs, hrej]
      simp
    · rw [if_neg hs]
  refine ⟨hrej, hent, ?_, ?_⟩
  · rw [hent]; unfold restoreSettings; rw [hr]
  · rw [hent]; unfold restoreSettings; rw [hr]

/-- C22, a worked instance: the persisted store was sealed with another
password; entering `mp` ends with the dialog shown again and the window as it
was. -/
theorem C22_wrong_password_rejected_witness :
    sampleForeignSettings.d.settings.syncDomains ≠ [] ∧
    sampleCollaborators.decode (toUtf8 "mp".toList)
      sampleForeignSettings.d.settings.syncDomains = none ∧
    onMasterPasswordEntered sampleCollaborators sampleForeignSettings "mp".toList false =
      { window := sampleForeignSettings, ok := false, sync := false, advice := false } :=
  ⟨by decide, by decide,
    (C22_wrong_password_rejected sampleCollaborators sampleForeignSettings "mp".toList false
      (by decide) (by decide) (by decide)).2.1.trans (by decide)⟩

/-- C23, the code at the failing input: the store holds `mail.com` as a
tombstone, so the combo box is empty, and a record `mail.com` is imported.
The import looks the name up in the combo box, does not find it and appends
the record: the store holds the tombstone and the imported record under one
name.
After `makeDomainComboBox`, with which the import ends, the combo box shows
`mail.com`, the domain name of the store record with `deleted == true`, and
the record that the store returns for that name is the tombstone. -/
theorem C23_tombstone_shown_after_import :
    sampleTombstoneMail.d.domains.items = [tombstone "mail.com" 5] ∧
    sampleTombstoneMail.domainsComboBox = [] ∧
    (onImportKeePass2XmlFile sampleTombstoneMail [sampleMail]).map
      (fun r => r.1.d.domains.items) = some [tombstone "mail.com" 5, sampleMail] ∧
    (onImportKeePass2XmlFile sampleTombstoneMail [sampleMail]).map
      (fun r => r.1.domainsComboBox) = some ["mail.com".toList] ∧
    (onImportKeePass2XmlFile sampleTombstoneMail [sampleMail]).map
      (fun r => r.1.d.domains.atName "mail.com".toList) = some (tombstone "mail.com" 5) ∧
    (tombstone "mail.com" 5).domainName = "mail.com".toList ∧
    (tombstone "mail.com" 5).deleted = true :=
  ⟨by decide, by decide, by decide, by decide, by decide, by decide, by decide⟩

/-- C24, the code at the failing input: the record has the legacy password
`secret` and the domain name `%1`. The export calls no generator, but the text
it emits is `[secret]` followed by the line `pwd = %2`: the legacy password is
not on the password line. For the domain name `a.example` the line is
`pwd = secret`. -/
theorem C24_marker_in_exported_domain_name :
    sampleMarkerRecord.deleted = false ∧
    sampleMarkerRecord.legacyPassword = "secret".toList ∧
    DomainSettingsToTextConverter sampleGenerate sampleExpired sampleGroupHierarchy [2]
      sampleMarkerRecord = (toUtf8 "[secret]\npwd = %2\n".toList, []) ∧
    DomainSettingsToTextConverter sampleGenerate sampleExpired sampleGroupHierarchy [2]
      sampleLegacyRecord = (toUtf8 "[a.example]\npwd = secret\n".toList, []) :=
  ⟨by decide, by decide, by decide, by decide⟩

/-- C25: binary search correctness. For a combo box sorted without regard to
case, as `makeDomainComboBox` builds it (`makeDomainComboBox_sorted`), and a
domain that is not empty, `findDomainInComboBox(domain)` returns within its
bound on the number of calls; if a text of the combo box is the domain up to
case, it returns an index from `0` to `count - 1` whose text is the domain up
to case, otherwise it returns `NotFound`; and `domainComboboxContains(domain)`
tells whether a text of the combo box is the domain up to case. -/
theorem C25_binary_search (items : List QString) (domain : QString)
    (hsorted : items.Pairwise (fun a b => compare a b ≤ 0)) (hd : domain ≠ []) :
    (∃ fuel, findDomainInComboBoxWithin items domain fuel 0 items.length =
      some (findDomainInComboBox items domain)) ∧
    ((∃ x ∈ items, sameName x domain = true) →
      0 ≤ findDomainInComboBox items domain ∧
      findDomainInComboBox items domain < items.length ∧
      sameName (itemText items (findDomainInComboBox items domain)) domain = true) ∧
    ((∀ x ∈ items, sameName x domain = false) →
      findDomainInComboBox items domain = NotFound) ∧
    domainComboboxContains items domain = items.any (fun x => sameName x domain) := by
  have hcases := findDomainInComboBox_sorted items domain hsorted hd
  have hmem : ∀ i : Int, 0 ≤ i → i < items.length → itemText items i ∈ items := by
    intro i h0 h1
    unfold itemText
    rw [if_neg (by omega), List.getD_eq_getElem _ _ (by omega : i.toNat < items.length)]
    exact List.getElem_mem _
  refine ⟨⟨_, findDomainInComboBoxIn_spec items domain 0 items.length⟩, ?_, ?_, ?_⟩
  · rintro ⟨x, hx, hs⟩
    rcases hcases with ⟨_, hno⟩ | hfound
    · rw [hno x hx] at hs
      exact absurd hs (by decide)
    · exact hfound
  · intro hno
    rcases hcases with ⟨hr, _⟩ | ⟨h0, h1, hs⟩
    · exact hr
    · rw [hno _ (hmem _ h0 h1)] at hs
      exact absurd hs (by decide)
  · unfold domainComboboxContains
    rcases hcases with ⟨hr, hno⟩ | ⟨h0, h1, hs⟩
    · rw [hr]
      have : items.any (fun x => sameName x domain) = false := by
        rw [List.any_eq_false]
        intro x hx
        simp [hno x hx]
      rw [this]
      simp
    · have hne : findDomainInComboBox items domain ≠ NotFound := by
        unfold NotFound
        omega
      have : items.any (fun x => sameName x domain) = true :=
        List.any_eq_true.mpr ⟨_, hmem _ h0 h1, hs⟩
      rw [this]
      simp [hne]

/-- C25, a worked instance: in the combo box of the window with four records
the search for `c.EXAMPLE` returns the index `2`, the search for the
tombstoned `gone.example` returns `NotFound`. -/
theorem C25_binary_search_witness :
    sampleFourRecords.domainsComboBox =
      ["a.example".toList, "b.example".toList, "C.example".toList] ∧
    findDomainInComboBox sampleFourRecords.domainsComboBox "c.EXAMPLE".toList = 2 ∧
    findDomainInComboBox sampleFourRecords.domainsComboBox "gone.example".toList = NotFound ∧
    domainComboboxContains sampleFourRecords.domainsComboBox "c.EXAMPLE".toList = true :=
  ⟨by decide, by decide,
    (C25_binary_search sampleFourRecords.domainsComboBox "gone.example".toList
      (makeDomainComboBox_sorted _) (by decide)).2.2.1 (by decide),
    (C25_binary_search sampleFourRecords.domainsComboBox "c.EXAMPLE".toList
      (makeDomainComboBox_sorted _) (by decide)).2.2.2.trans (by decide)⟩

/-- C27, the code at the failing input: the local store holds the tombstone
`mail.com` and, behind it, the record `mail.com` that is not deleted, as
the import of that record into a store with the tombstone leaves it; the
remote store is empty and no KGK mismatch is flagged. The round for `mail.com` finds
the tombstone and removes the name from the local store: after the merge the
local store is empty, the record that was not deleted is gone. -/
theorem C27_live_record_removed :
    (onImportKeePass2XmlFile sampleTombstoneMail [sampleMail]).map
      (fun r => r.1.d.domains.items) = some sampleTombstoneAndNamesake.domains.items ∧
    sampleTombstoneAndNamesake.doConvertLocalToLegacy = false ∧
    sampleMail ∈ sampleTombstoneAndNamesake.domains.items ∧
    sampleMail.deleted = false ∧
    sampleTombstoneAndNamesake.remoteDomains.items = [] ∧
    (mergeLocalAndRemoteData sampleGenerate sampleTombstoneAndNamesake).domains.items = [] ∧
    (mergeLocalAndRemoteData sampleGenerate sampleTombstoneAndNamesake).remoteDomains.items = [] :=
  ⟨by decide, by decide, by decide, by decide, by decide, by decide, by decide⟩

/-- C28, the code at the failing input: no sync peer is enabled, the master
password is `mp` and the new password is `np`. `changeMasterPassword` saves the
store with the key derived from `mp`, then replaces the master password and
derives the key from `np`: the persisted entry `sync/domains` opens with `mp`
and does not open with `np`. -/
theorem C28_persisted_under_old_password :
    sampleNoPeer.optionsDialog.syncToFileEnabled = false ∧
    sampleNoPeer.optionsDialog.syncToServerEnabled = false ∧
    (changeMasterPassword sampleCollaborators sampleNoPeer true "mp".toList).2 = false ∧
    (changeMasterPassword sampleCollaborators sampleNoPeer true "mp".toList).1.d.masterPassword =
      "np".toList ∧
    (changeMasterPassword sampleCollaborators sampleNoPeer true "mp".toList).1.d.masterKey =
      (sampleMakeKeyAndIV (toUtf8 "np".toList) [101]).1 ∧
    (changeMasterPassword sampleCollaborators sampleNoPeer true
      "mp".toList).1.d.settings.syncDomains ≠ [] ∧
    sampleCollaborators.decode (toUtf8 "np".toList)
      (changeMasterPassword sampleCollaborators sampleNoPeer true
        "mp".toList).1.d.settings.syncDomains = none ∧
    sampleCollaborators.decode (toUtf8 "mp".toList)
      (changeMasterPassword sampleCollaborators sampleNoPeer true
        "mp".toList).1.d.settings.syncDomains =
          some (sampleToJson [record "a.example" 5], [2]) :=
  ⟨by decide, by decide, by decide, by decide, by decide, by decide, by decide, by decide⟩

/-- C29, the code at the failing input: at the first start nothing is persisted.
`onMasterPasswordEntered` succeeds for the password `mp`, does not go on with a
sync, shows the advice to sync, which is answered with Ignore, and leaves the
held KGK empty; `updatePassword` then starts a generation with the empty KGK,
and the save that follows wraps the KGK `[201]`, which `d->kgk()` generates for
it. -/
theorem C29_generated_from_empty_KGK :
    sampleFirstStart.d.settings = { syncDomains := [], syncParam := [] } ∧
    (onMasterPasswordEntered sampleCollaborators sampleFirstStart "mp".toList true).ok = true ∧
    (onMasterPasswordEntered sampleCollaborators sampleFirstStart "mp".toList true).sync = false ∧
    (onMasterPasswordEntered sampleCollaborators sampleFirstStart "mp".toList true).advice = true ∧
    updatePassword
        (onMasterPasswordEntered sampleCollaborators sampleFirstStart "mp".toList true).window []
        (record "a.example" 0) = some ([], record "a.example" 0) ∧
    (saveDomainSettings sampleCollaborators 10
        (onMasterPasswordEntered sampleCollaborators sampleFirstStart "mp".toList true).window
        (record "a.example" 0)).encodeCalls.map EncodeCall.KGK = [[201]] ∧
    (saveDomainSettings sampleCollaborators 10
        (onMasterPasswordEntered sampleCollaborators sampleFirstStart "mp".toList true).window
        (record "a.example" 0)).d.KGK = [201] :=
  ⟨by decide, by decide, by decide, by decide, by decide, by decide, by decide⟩

/-- C30, the code at the failing input: the local store is empty, the held KGK
is `[2]` and the payload carries the KGK `[9]`. The normal decode with the
current master password replaces the held KGK by `[9]`; the fallback decode
with the new password, for the same held KGK, store and payload, leaves the
held KGK at `[2]`. -/
theorem C30_fallback_keeps_old_KGK :
    sampleEmptyStore.KGK = sampleEmptyStoreChanging.KGK ∧
    sampleEmptyStore.domains = sampleEmptyStoreChanging.domains ∧
    sampleOpen (toUtf8 sampleEmptyStore.masterPassword) samplePeerPayload =
      some (sampleToJson [], [9]) ∧
    sampleOpen (toUtf8 sampleEmptyStoreChanging.masterPassword) samplePeerPayload = none ∧
    sampleOpen (toUtf8 sampleEmptyStoreChanging.newPassword) samplePeerPayload =
      some (sampleToJson [], [9]) ∧
    syncWithDecode sampleOpen sampleEmptyStore samplePeerPayload =
      Decoding.decoded { sampleEmptyStore with KGK := [9] } (sampleToJson []) ∧
    syncWithDecode sampleOpen sampleEmptyStoreChanging samplePeerPayload =
      Decoding.decoded sampleEmptyStoreChanging (sampleToJson []) ∧
    sampleEmptyStoreChanging.KGK = [2] :=
  ⟨by decide, by decide, by decide, by decide, by decide, by decide, by decide, by decide⟩

end QtSESAM
